import Mathlib

/-!
# Class layout and virtual-dispatch construction (`ir/irclass.cpp`)

A shallow embedding of the member functions of `IrStruct` defined in
`src/ir/irclass.cpp`, followed by theorems about them.

Conventions of the embedding.

* Pointers to front-end declarations (`ClassDeclaration*`, `FuncDeclaration*`,
  `VarDeclaration*`) are compared by address in the source; here every
  declaration carries an `ident : Nat` standing for its address.
* An `llvm::GlobalVariable*` is the index of the global in the list of all
  globals created so far (`World.globals`); `new llvm::GlobalVariable` appends.
* A failed `assert` aborts the compiler.  A builder returns the value or the
  failed assertion, together with the state reached at that point.
* The members read from declarations (`vd->offset`, `vd->type->size()`,
  `base->structsize`, `b->offset`) are natural numbers.  The cursor `offset` is a
  `size_t`: every sum stored in it (lines 216, 230 and 265) and the mask
  expression of line 204 are computed modulo `2 ^ sizeBits`.
-/

namespace IrClass

/-! ## Front-end declarations (read-only inputs) -/

/-- Field of an aggregate: `VarDeclaration`, with `size` and `alignsize` standing for
`vd->type->size()` and `vd->type->alignsize()`. -/
structure VarDeclaration where
  ident : Nat
  type : Nat
  offset : Nat
  size : Nat
  alignsize : Nat
  deriving DecidableEq, Repr

/-- Function of a method slot: `FuncDeclaration`; `fbody` tells whether `fd->fbody` is non-null. -/
structure FuncDeclaration where
  ident : Nat
  type : Nat
  isAbstract : Bool
  fbody : Bool
  deriving DecidableEq, Repr

/-- Entry of a `vtbl` array: a `Dsymbol` that is a function or something else. -/
inductive Dsymbol where
  | func (fd : FuncDeclaration)
  | other (ident : Nat)
  deriving DecidableEq, Repr

/-- The downcast `dsym->isFuncDeclaration()`. -/
def Dsymbol.isFuncDeclaration : Dsymbol → Option FuncDeclaration
  | .func fd => some fd
  | .other _ => none

/-- What the builders read through `b->base`: the address of the interface declaration
and its mangled name. -/
structure InterfaceRef where
  ident : Nat
  mangle : String
  deriving DecidableEq, Repr

/-- Conformance record `BaseClass`.  `filledNew` and `filledInherited` are the arrays
`b->fillVtbl(cd, &vtbl_array, new_instance)` fills for `new_instance` true and false
(`fillVtbl` belongs to the front end); a null entry is `none`. -/
structure BaseClass where
  base : InterfaceRef
  offset : Nat
  filledNew : List (Option Dsymbol)
  filledInherited : List (Option Dsymbol)
  deriving DecidableEq, Repr

/-- The array `vtbl_array` after `b->fillVtbl(cd, &vtbl_array, new_instance)`. -/
def BaseClass.fillVtbl (b : BaseClass) (new_instance : Bool) : List (Option Dsymbol) :=
  if new_instance then b.filledNew else b.filledInherited

/-- Members of one `ClassDeclaration` other than its base class.  `vtblInterfaces` is
`none` for a null pointer. -/
structure ClassData where
  ident : Nat
  mangle : String
  isInterfaceDeclaration : Bool
  fields : List VarDeclaration
  vtbl : List (Option Dsymbol)
  vtblInterfaces : Option (List BaseClass)
  structsize : Nat
  deriving DecidableEq, Repr

/-- A class together with its chain of base classes (`base->baseClass`, null at the root). -/
inductive ClassDeclaration where
  | root (d : ClassData)
  | derived (d : ClassData) (baseClass : ClassDeclaration)
  deriving DecidableEq, Repr

/-- Members of the class itself. -/
def ClassDeclaration.data : ClassDeclaration → ClassData
  | .root d => d
  | .derived d _ => d

/-- The pointer `cd->baseClass`. -/
def ClassDeclaration.baseClass : ClassDeclaration → Option ClassDeclaration
  | .root _ => none
  | .derived _ b => some b

/-- The aggregate an `IrStruct` was made for: a struct or a class. -/
inductive AggregateDeclaration where
  | structDecl (ident : Nat) (mangle : String)
  | classDecl (cd : ClassDeclaration)
  deriving DecidableEq, Repr

/-- The downcast `aggrdecl->isClassDeclaration()`. -/
def AggregateDeclaration.isClassDeclaration : AggregateDeclaration → Option ClassDeclaration
  | .structDecl _ _ => none
  | .classDecl cd => some cd

/-- The address of the declaration. -/
def AggregateDeclaration.ident : AggregateDeclaration → Nat
  | .structDecl i _ => i
  | .classDecl cd => cd.data.ident

/-- The name `aggrdecl->mangle()`. -/
def AggregateDeclaration.mangle : AggregateDeclaration → String
  | .structDecl _ m => m
  | .classDecl cd => cd.data.mangle

/-- The test `aggrdecl->isInterfaceDeclaration()`. -/
def AggregateDeclaration.isInterfaceDeclaration : AggregateDeclaration → Bool
  | .structDecl _ _ => false
  | .classDecl cd => cd.data.isInterfaceDeclaration

/-! ## LLVM values -/

/-- Handle of an `llvm::GlobalVariable`: its position in `World.globals`. -/
abbrev LLGlobalVariable := Nat

/-- Types of the elements the builders put into constant structs. -/
inductive LLType where
  | voidPtr
  | classInfoPtr
  | funcPtr (ty : Nat)
  | globalPtr (gv : LLGlobalVariable)
  | fieldTy (ty : Nat)
  | zeroBytes (n : Nat)
  deriving DecidableEq, Repr

/-- Element constants.
* `global g`: the address of global `g`;
* `bitcast g ty`: `DtoBitCast` of the address of `g` to `ty`;
* `nullValue ty`: `getNullValue(ty)`;
* `func fd`: the code address `fd->ir.irFunc->func`;
* `zeros n`: `n` bytes of explicit zero padding;
* `fieldInit vd`: `get_default_initializer(vd, vd->init)`. -/
inductive LLConstant where
  | global (g : LLGlobalVariable)
  | bitcast (g : LLGlobalVariable) (ty : LLType)
  | nullValue (ty : LLType)
  | func (fd : FuncDeclaration)
  | zeros (n : Nat)
  | fieldInit (vd : VarDeclaration)
  deriving DecidableEq, Repr

/-- The type `c->getType()` of an element constant. -/
def LLConstant.getType : LLConstant → LLType
  | .global g => .globalPtr g
  | .bitcast _ ty => ty
  | .nullValue ty => ty
  | .func fd => .funcPtr fd.type
  | .zeros n => .zeroBytes n
  | .fieldInit vd => .fieldTy vd.type

/-- One `Interface` struct `{ ClassInfo classinfo; void*[] vtbl; ptrdiff_t offset; }` of
the interfaces array: `classinfo` is bit-cast from the global `classinfo`, `vtbl` is the
slice of length `vtblLen` over the global `vtbl`. -/
structure InterfaceEntry where
  classinfo : LLGlobalVariable
  vtblLen : Nat
  vtbl : LLGlobalVariable
  offset : Nat
  deriving DecidableEq, Repr

/-- Slice constants returned by `getClassInfoInterfaces`: the null value of the array
type, or `DtoConstSlice(len, &arr[0][0])` over the global `arr`. -/
inductive SliceConstant where
  | null
  | slice (len : Nat) (arr : LLGlobalVariable)
  deriving DecidableEq, Repr

/-- Value types of globals. -/
inductive GlobalType where
  | vtbl (elems : List LLType)
  | classInfo
  | interfaceArray (n : Nat)
  | structOf (elems : List LLType)
  deriving DecidableEq, Repr

/-- Initializers of globals. -/
inductive Initializer where
  | struct (elems : List LLConstant)
  | array (entries : List InterfaceEntry)
  deriving DecidableEq, Repr

/-- Linkage of a global, named after the helper that computes it. -/
inductive Linkage where
  | dtoExternalLinkage
  | dtoLinkage
  deriving DecidableEq, Repr

/-- Last argument of the `llvm::GlobalVariable` constructor: the module `gIR->module`,
or a global to insert before (null when that pointer is null). -/
inductive Parent where
  | module
  | insertBefore (g : Option LLGlobalVariable)
  deriving DecidableEq, Repr

/-- An `llvm::GlobalVariable` (all of them are created constant). -/
structure GlobalVariable where
  type : GlobalType
  linkage : Linkage
  init : Option Initializer
  name : String
  parent : Parent
  deriving DecidableEq, Repr

/-! ## Construction context -/

/-- What is read from `type->irtype->isClass()`. -/
structure IrTypeClass where
  vtblTy : List LLType
  vtblSize : Nat
  deriving DecidableEq, Repr

/-- The per-aggregate construction context `IrStruct`: the declaration, its lowered
types (`pa` is `type->irtype->getPA().get()`, `irtypeClass` is `type->irtype->isClass()`)
and the lazily filled caches. -/
structure IrStruct where
  aggrdecl : AggregateDeclaration
  pa : List LLType
  irtypeClass : Option IrTypeClass
  vtbl : Option LLGlobalVariable
  classInfo : Option LLGlobalVariable
  classInterfacesArray : Option LLGlobalVariable
  constVtbl : Option (List LLConstant)
  interfaceVtblMap : List (Nat × LLGlobalVariable)
  deriving DecidableEq, Repr

/-- Assertions of the file (and the dereference of a null pointer), named by their message. -/
inductive Failure where
  | notClass
  | nullVtblMember
  | vtblEntryNotAFunction
  | vtblInitializerTypeMismatch
  | invalidClassAggregate
  | classInitializerTypeMismatch
  | notAClassAggregate
  | nullSymbolInInterfaceVtable
  | invalidClassInfoType
  | noInterfaceInfoArray
  | classDeclarationExpected
  | interfaceHasNullIrStruct
  | nullInterfaceIrTypeClass
  | interfaceVtblNotFound
  | nullDereference
  deriving DecidableEq, Repr

/-- Everything the builders read or change: the target (`PTRSIZE`, the width of
`size_t`), whether `ClassDeclaration::classinfo` lowers to a class type, the globals
created so far, the functions handed to `codegen`, the context `self` the member
functions run on and the contexts `ir.irStruct` of the other aggregates. -/
structure World where
  PTRSIZE : Nat
  sizeBits : Nat
  classinfoIsClass : Bool
  globals : List GlobalVariable
  codegenCalls : List Nat
  self : IrStruct
  irStructs : List (Nat × IrStruct)
  deriving DecidableEq, Repr

/-- Result of a builder: value or failed assertion, and the state reached. -/
abbrev Res (α : Type) := Except Failure α × World

/-- The allocation `new llvm::GlobalVariable(...)`. -/
def World.newGlobal (w : World) (gv : GlobalVariable) : LLGlobalVariable × World :=
  (w.globals.length, { w with globals := w.globals ++ [gv] })

/-- Modelled from the spec: `ensureCompiled(method) → code address`, idempotent.
`fd->codegen(Type::sir)` is recorded as a request; afterwards `fd->ir.irFunc` is set, so
the assertion "invalid vtbl function" holds. -/
def World.codegen (w : World) (fd : FuncDeclaration) : World :=
  { w with codegenCalls := w.codegenCalls ++ [fd.ident] }

/-- The lookup `interfaceVtblMap.find(key)`. -/
def mapFind (m : List (Nat × LLGlobalVariable)) (key : Nat) : Option LLGlobalVariable :=
  match m with
  | [] => none
  | (k, v) :: rest => if k = key then some v else mapFind rest key

/-- The call `interfaceVtblMap.insert(std::make_pair(key, gv))`: a `std::map` keeps the
element it already has for the key. -/
def mapInsert (m : List (Nat × LLGlobalVariable)) (key : Nat) (gv : LLGlobalVariable) :
    List (Nat × LLGlobalVariable) :=
  match mapFind m key with
  | some _ => m
  | none => m ++ [(key, gv)]

/-! ## Symbol getters -/

/-- `IrStruct::getVtblSymbol` (lines 27-45). -/
def getVtblSymbol (w : World) : Res LLGlobalVariable :=
  match w.self.vtbl with
  | some g => (.ok g, w)
  | none =>
    let initname := "_D" ++ w.self.aggrdecl.mangle ++ "6__vtblZ"
    match w.self.irtypeClass with
    | none => (.error .nullDereference, w)
    | some tc =>
      let r := w.newGlobal
        { type := .vtbl tc.vtblTy, linkage := .dtoExternalLinkage, init := none,
          name := initname, parent := .module }
      (.ok r.1, { r.2 with self := { r.2.self with vtbl := some r.1 } })

/-- The suffix `getClassInfoSymbol` appends to the mangled name. -/
def classInfoSuffix (isInterface : Bool) : String :=
  if isInterface then "11__InterfaceZ" else "7__ClassZ"

/-- `IrStruct::getClassInfoSymbol` (lines 49-73) run on the context `s`: the value,
the context afterwards and the globals afterwards. -/
def getClassInfoSymbolOn (s : IrStruct) (w : World) :
    Except Failure LLGlobalVariable × IrStruct × World :=
  match s.classInfo with
  | some g => (.ok g, s, w)
  | none =>
    let initname := "_D" ++ s.aggrdecl.mangle ++
      classInfoSuffix s.aggrdecl.isInterfaceDeclaration
    if w.classinfoIsClass then
      let r := w.newGlobal
        { type := .classInfo, linkage := .dtoExternalLinkage, init := none,
          name := initname, parent := .module }
      (.ok r.1, { s with classInfo := some r.1 }, r.2)
    else
      (.error .invalidClassInfoType, s, w)

/-- `IrStruct::getClassInfoSymbol` called on `this`. -/
def getClassInfoSymbol (w : World) : Res LLGlobalVariable :=
  let r := getClassInfoSymbolOn w.self w
  (r.1, { r.2.2 with self := r.2.1 })

/-- `IrStruct::getInterfaceArraySymbol` (lines 77-103).  The assertion reads
`cd->vtblInterfaces` through `cd` without a null test.  The new global is created with
`classInfo` as its last constructor argument. -/
def getInterfaceArraySymbol (w : World) : Res LLGlobalVariable :=
  match w.self.classInterfacesArray with
  | some g => (.ok g, w)
  | none =>
    match w.self.aggrdecl.isClassDeclaration with
    | none => (.error .nullDereference, w)
    | some cd =>
      match cd.data.vtblInterfaces with
      | none => (.error .noInterfaceInfoArray, w)
      | some ifaces =>
        if 0 < ifaces.length then
          let name := "_D" ++ cd.data.mangle ++ "16__interfaceInfosZ"
          let r := w.newGlobal
            { type := .interfaceArray ifaces.length, linkage := .dtoLinkage, init := none,
              name := name, parent := .insertBefore w.self.classInfo }
          (.ok r.1, { r.2 with self := { r.2.self with classInterfacesArray := some r.1 } })
        else
          (.error .noInterfaceInfoArray, w)

/-! ## Primary vtable -/

/-- Body of the loop `for (i = 1; i < n; i++)` of `getVtblInit` (lines 128-147), run over
the entries `cd->vtbl.data[1 .. n-1]`. -/
def vtblEntries : List (Option Dsymbol) → List LLConstant → World →
    Except Failure (List LLConstant) × World
  | [], constants, w => (.ok constants, w)
  | none :: _, _, w => (.error .nullVtblMember, w)
  | some dsym :: rest, constants, w =>
    match dsym.isFuncDeclaration with
    | none => (.error .vtblEntryNotAFunction, w)
    | some fd =>
      if fd.isAbstract && !fd.fbody then
        vtblEntries rest (constants ++ [.nullValue (.funcPtr fd.type)]) w
      else
        vtblEntries rest (constants ++ [.func fd]) (w.codegen fd)

/-- `IrStruct::getVtblInit` (lines 107-162).  The table is the list of the elements of
the constant struct; `constVtbl` is assigned at line 150, the type is compared at
line 158. -/
def getVtblInit (w : World) : Res (List LLConstant) :=
  match w.self.constVtbl with
  | some c => (.ok c, w)
  | none =>
    match w.self.aggrdecl.isClassDeclaration with
    | none => (.error .notClass, w)
    | some cd =>
      match getClassInfoSymbol w with
      | (.error e, w1) => (.error e, w1)
      | (.ok ci, w1) =>
        match vtblEntries (cd.data.vtbl.drop 1) [.bitcast ci .classInfoPtr] w1 with
        | (.error e, w2) => (.error e, w2)
        | (.ok constants, w2) =>
          let w3 := { w2 with self := { w2.self with constVtbl := some constants } }
          match w3.self.irtypeClass with
          | none => (.error .nullDereference, w3)
          | some tc =>
            if constants.map LLConstant.getType = tc.vtblTy then (.ok constants, w3)
            else (.error .vtblInitializerTypeMismatch, w3)

/-! ## Interface vtables -/

/-- Body of the loop `for (i = 1; i < n; i++)` of `getInterfaceVtbl` (lines 307-322), run
over the entries `vtbl_array.data[1 .. n-1]`. -/
def interfaceVtblEntries : List (Option Dsymbol) → List LLConstant → World →
    Except Failure (List LLConstant) × World
  | [], constants, w => (.ok constants, w)
  | none :: _, _, w => (.error .nullVtblMember, w)
  | some dsym :: rest, constants, w =>
    match dsym.isFuncDeclaration with
    | none => (.error .vtblEntryNotAFunction, w)
    | some fd =>
      if fd.isAbstract && !fd.fbody then
        (.error .nullSymbolInInterfaceVtable, w)
      else
        interfaceVtblEntries rest (constants ++ [.func fd]) (w.codegen fd)

/-- The symbol name built at lines 330-334. -/
def interfaceVtblName (classMangle interfaceMangle : String) : String :=
  "_D" ++ classMangle ++ "11__interface" ++ interfaceMangle ++ "6__vtblZ"

/-- `IrStruct::getInterfaceVtbl` (lines 282-348).  The cache is searched with the key
`cd` (line 287) and filled with the key `b->base` (line 345). -/
def getInterfaceVtbl (w : World) (b : BaseClass) (new_instance : Bool) :
    Res LLGlobalVariable :=
  match w.self.aggrdecl.isClassDeclaration with
  | none => (.error .notAClassAggregate, w)
  | some cd =>
    match mapFind w.self.interfaceVtblMap cd.data.ident with
    | some g => (.ok g, w)
    | none =>
      let vtbl_array := b.fillVtbl new_instance
      match interfaceVtblEntries (vtbl_array.drop 1) [.nullValue .voidPtr] w with
      | (.error e, w1) => (.error e, w1)
      | (.ok constants, w1) =>
        let r := w1.newGlobal
          { type := .structOf (constants.map LLConstant.getType),
            linkage := .dtoExternalLinkage, init := some (.struct constants),
            name := interfaceVtblName cd.data.mangle b.base.mangle, parent := .module }
        (.ok r.1, { r.2 with self := { r.2.self with
          interfaceVtblMap := mapInsert r.2.self.interfaceVtblMap b.base.ident r.1 } })

/-! ## Default initializer -/

/-- One step of the traversal of `addBaseClassInits`, with the value of the cursor
`offset` when the step starts.  The field steps are the two `Logger` lines of the loop
("Skipping field", "Adding default field"); the trace is not read by the builders. -/
inductive Visit where
  | skipped (vd : VarDeclaration) (cursor : Nat)
  | placed (vd : VarDeclaration) (cursor : Nat)
  | interfaceSlot (b : BaseClass) (newinsts : Bool) (cursor : Nat)
  | tailPadding (n : Nat) (cursor : Nat)
  deriving DecidableEq, Repr

/-- The by-reference arguments of `addBaseClassInits` (`constants`, `offset`,
`field_index`) and the trace of its steps. -/
structure Inits where
  constants : List LLConstant
  offset : Nat
  field_index : Nat
  trace : List Visit
  deriving DecidableEq, Repr

/-- Modelled from the spec: `add_zeros(constants, diff)` is declared `extern` and defined
outside this file; it "emits explicit zero-padding to close the gap", here one padding
constant of `diff` bytes. -/
def add_zeros (constants : List LLConstant) (diff : Nat) : List LLConstant :=
  constants ++ [.zeros diff]

/-- The expression `(offset + alignsize - 1) & ~(alignsize - 1)` of line 204, computed in
words of `bits` bits. -/
def alignedOffset (bits offset alignsize : Nat) : Nat :=
  ((offset + alignsize + (2 ^ bits - 1)) % 2 ^ bits) &&&
    (2 ^ bits - 1 - (alignsize + (2 ^ bits - 1)) % 2 ^ bits)

/-- The loop over `base->fields` of `addBaseClassInits` (lines 187-217); the sum of
line 216 is stored in the `size_t` cursor, a word of `bits` bits. -/
def addFields (bits : Nat) : List VarDeclaration → Inits → Inits
  | [], a => a
  | vd :: rest, a =>
    if vd.offset < a.offset then
      addFields bits rest { a with trace := a.trace ++ [.skipped vd a.offset] }
    else
      let alignedoffset := alignedOffset bits a.offset vd.alignsize
      let constants :=
        if alignedoffset < vd.offset then add_zeros a.constants (vd.offset - alignedoffset)
        else a.constants
      addFields bits rest
        { a with
          constants := constants ++ [.fieldInit vd]
          offset := (vd.offset + vd.size) % 2 ^ bits
          trace := a.trace ++ [.placed vd a.offset] }

/-- The loop over `*base->vtblInterfaces` of `addBaseClassInits` (lines 225-231); the
sum of line 230 is stored in the `size_t` cursor. -/
def addInterfaceVtbls (newinsts : Bool) : List BaseClass → World → Inits →
    Except Failure Unit × World × Inits
  | [], w, a => (.ok (), w, a)
  | b :: rest, w, a =>
    match getInterfaceVtbl w b newinsts with
    | (.error e, w1) => (.error e, w1, a)
    | (.ok gv, w1) =>
      addInterfaceVtbls newinsts rest w1
        { a with
          constants := a.constants ++ [.global gv]
          offset := (a.offset + w.PTRSIZE) % 2 ^ w.sizeBits
          trace := a.trace ++ [.interfaceSlot b newinsts a.offset] }

/-- The comparison `base == aggrdecl->isClassDeclaration()` of line 223. -/
def isOwnLevel (w : World) (base : ClassDeclaration) : Bool :=
  match w.self.aggrdecl.isClassDeclaration with
  | none => false
  | some cd => base.data.ident == cd.data.ident

/-- The tail padding of `addBaseClassInits` (lines 235-239). -/
def addTailPadding (structsize : Nat) (a : Inits) : Inits :=
  if a.offset < structsize then
    { a with
      constants := add_zeros a.constants (structsize - a.offset)
      offset := structsize
      trace := a.trace ++ [.tailPadding (structsize - a.offset) a.offset] }
  else a

/-- The part of `addBaseClassInits` after the recursive call (lines 187-239), for the
members `d` of `base`. -/
def addLevelInits (d : ClassData) (newinsts : Bool) (w : World) (a : Inits) :
    Except Failure Unit × World × Inits :=
  let a1 := addFields w.sizeBits d.fields a
  match d.vtblInterfaces with
  | none => (.ok (), w, addTailPadding d.structsize a1)
  | some ifaces =>
    match addInterfaceVtbls newinsts ifaces w a1 with
    | (.error e, w2, a2) => (.error e, w2, a2)
    | (.ok _, w2, a2) => (.ok (), w2, addTailPadding d.structsize a2)

/-- `IrStruct::addBaseClassInits` (lines 176-240). -/
def addBaseClassInits : ClassDeclaration → World → Inits → Except Failure Unit × World × Inits
  | .root d, w, a => addLevelInits d (isOwnLevel w (.root d)) w a
  | .derived d baseClass, w, a =>
    match addBaseClassInits baseClass w a with
    | (.error e, w1, a1) => (.error e, w1, a1)
    | (.ok _, w1, a1) => addLevelInits d (isOwnLevel w1 (.derived d baseClass)) w1 a1

/-- Lines 246-269 of `createClassDefaultInitializer`: the header slots and the call of
`addBaseClassInits`, with the final values of the locals `constants` and `offset`. -/
def classDefaultInits (w : World) : Except Failure Unit × World × Inits :=
  match w.self.aggrdecl.isClassDeclaration with
  | none => (.error .invalidClassAggregate, w, ⟨[], 0, 0, []⟩)
  | some cd =>
    match getVtblSymbol w with
    | (.error e, w1) => (.error e, w1, ⟨[], 0, 0, []⟩)
    | (.ok vtbl, w1) =>
      addBaseClassInits cd w1
        { constants := [.global vtbl, .nullValue .voidPtr]
          offset := (w.PTRSIZE * 2) % 2 ^ w.sizeBits
          field_index := 2
          trace := [] }

/-- `IrStruct::createClassDefaultInitializer` (lines 244-278): the elements of the
constant struct `definit`. -/
def createClassDefaultInitializer (w : World) : Res (List LLConstant) :=
  match classDefaultInits w with
  | (.error e, w1, _) => (.error e, w1)
  | (.ok _, w1, a) =>
    if a.constants.map LLConstant.getType = w1.self.pa then (.ok a.constants, w1)
    else (.error .classInitializerTypeMismatch, w1)

/-! ## Interfaces array of the RTTI record -/

/-- The context `decl->ir.irStruct` of the aggregate at address `ident`. -/
def World.irStructOf (w : World) (ident : Nat) : Option IrStruct :=
  if w.self.aggrdecl.ident = ident then some w.self
  else (w.irStructs.find? (fun p => p.1 = ident)).map Prod.snd

/-- Store the context of the aggregate at address `ident` back. -/
def World.setIrStruct (w : World) (ident : Nat) (s : IrStruct) : World :=
  if w.self.aggrdecl.ident = ident then { w with self := s }
  else { w with irStructs := w.irStructs.map (fun p => if p.1 = ident then (p.1, s) else p) }

/-- Body of the loop `while (it.more())` of `getClassInfoInterfaces` (lines 385-415). -/
def interfaceEntries : List BaseClass → List InterfaceEntry → World →
    Except Failure (List InterfaceEntry) × World
  | [], constants, w => (.ok constants, w)
  | it :: rest, constants, w =>
    match w.irStructOf it.base.ident with
    | none => (.error .interfaceHasNullIrStruct, w)
    | some irinter =>
      match irinter.irtypeClass with
      | none => (.error .nullInterfaceIrTypeClass, w)
      | some itc =>
        match getClassInfoSymbolOn irinter w with
        | (.error e, _, w1) => (.error e, w1)
        | (.ok ci, irinter1, w1) =>
          let w2 := w1.setIrStruct it.base.ident irinter1
          match mapFind w2.self.interfaceVtblMap it.base.ident with
          | none => (.error .interfaceVtblNotFound, w2)
          | some vtb =>
            interfaceEntries rest
              (constants ++ [{ classinfo := ci, vtblLen := itc.vtblSize, vtbl := vtb,
                               offset := it.offset }]) w2

/-- The call `g->setInitializer(init)`. -/
def setInitializer (globals : List GlobalVariable) (g : LLGlobalVariable) (init : Initializer) :
    List GlobalVariable :=
  match globals, g with
  | [], _ => []
  | gv :: rest, 0 => { gv with init := some init } :: rest
  | gv :: rest, n + 1 => gv :: setInitializer rest n init

/-- `IrStruct::getClassInfoInterfaces` (lines 352-439).  `classInterfacesArray` is used
at line 428 as the member holds it. -/
def getClassInfoInterfaces (w : World) : Res SliceConstant :=
  match w.self.aggrdecl.isClassDeclaration with
  | none => (.error .classDeclarationExpected, w)
  | some cd =>
    match cd.data.vtblInterfaces with
    | none => (.ok .null, w)
    | some [] => (.ok .null, w)
    | some (i :: is) =>
      match w.self.irtypeClass with
      | none => (.error .nullDereference, w)
      | some _ =>
        match interfaceEntries (i :: is) [] w with
        | (.error e, w1) => (.error e, w1)
        | (.ok constants, w1) =>
          match w1.self.classInterfacesArray with
          | none => (.error .nullDereference, w1)
          | some arr =>
            (.ok (.slice (i :: is).length arr),
              { w1 with globals := setInitializer w1.globals arr (.array constants) })

/-! ## Observations on traces and images -/

/-- The cursor when the step starts. -/
def Visit.cursor : Visit → Nat
  | .skipped _ c => c
  | .placed _ c => c
  | .interfaceSlot _ _ c => c
  | .tailPadding _ c => c

/-- The cursor when the step ends (`ptrsize` is `PTRSIZE`, `bits` the width of
`size_t`). -/
def Visit.after (ptrsize bits : Nat) : Visit → Nat
  | .skipped _ c => c
  | .placed vd _ => (vd.offset + vd.size) % 2 ^ bits
  | .interfaceSlot _ _ c => (c + ptrsize) % 2 ^ bits
  | .tailPadding n c => c + n

/-- The field a step appended to the image, if it did. -/
def Visit.placedField : Visit → Option VarDeclaration
  | .placed vd _ => some vd
  | _ => none

/-- The field whose default value an element of the image is, if it is one. -/
def LLConstant.fieldOf : LLConstant → Option VarDeclaration
  | .fieldInit vd => some vd
  | _ => none

/-- Equality of results of builders is decidable. -/
instance instDecidableEqExcept {ε α : Type} [DecidableEq ε] [DecidableEq α] :
    DecidableEq (Except ε α)
  | .ok a, .ok b => if h : a = b then isTrue (by rw [h]) else isFalse (fun h1 => h (by cases h1; rfl))
  | .error a, .error b =>
    if h : a = b then isTrue (by rw [h]) else isFalse (fun h1 => h (by cases h1; rfl))
  | .ok _, .error _ => isFalse (fun h => by cases h)
  | .error _, .ok _ => isFalse (fun h => by cases h)

/-- The field a step visited (placed or skipped), if it is a field step. -/
def Visit.visitedField : Visit → Option VarDeclaration
  | .placed vd _ => some vd
  | .skipped vd _ => some vd
  | _ => none

/-- The fields of a class and of its base classes in the order `addBaseClassInits`
visits them: those of the base chain first, then the class's own. -/
def ClassDeclaration.allFields : ClassDeclaration → List VarDeclaration
  | .root d => d.fields
  | .derived d baseClass => baseClass.allFields ++ d.fields

/-- The test `fd->isAbstract() && !fd->fbody` of lines 136 and 315. -/
def FuncDeclaration.abstractNoBody (fd : FuncDeclaration) : Bool :=
  fd.isAbstract && !fd.fbody

/-- The functions among `fds` that the loop of `getVtblInit` hands to `codegen`. -/
def compiledSlots (fds : List FuncDeclaration) : List Nat :=
  (fds.filter (fun fd => !fd.abstractNoBody)).map (fun fd => fd.ident)

/-- The conformance an interface step is about, with the flag `newinsts` it handed to
`getInterfaceVtbl`. -/
def Visit.interfaceVisit : Visit → Option (BaseClass × Bool)
  | .interfaceSlot b n _ => some (b, n)
  | _ => none

/-- The global an element of the image is the address of, if it is one. -/
def LLConstant.globalOf : LLConstant → Option LLGlobalVariable
  | .global g => some g
  | _ => none

/-- The conformances declared at the level of the class itself (`cd->vtblInterfaces`,
none for a null pointer). -/
def ClassDeclaration.ownConformances (cd : ClassDeclaration) : List BaseClass :=
  cd.data.vtblInterfaces.getD []

/-- The conformances of a class and of its base classes, base classes first. -/
def ClassDeclaration.conformances : ClassDeclaration → List BaseClass
  | .root d => d.vtblInterfaces.getD []
  | .derived d baseClass => baseClass.conformances ++ d.vtblInterfaces.getD []

/-- The conformances declared at the levels of the ancestors of a class. -/
def ClassDeclaration.ancestorConformances : ClassDeclaration → List BaseClass
  | .root _ => []
  | .derived _ baseClass => baseClass.conformances

/-- The class and its base classes, base classes first. -/
def ClassDeclaration.levels : ClassDeclaration → List ClassData
  | .root d => [d]
  | .derived d baseClass => baseClass.levels ++ [d]

/-- The base classes of a class, the root first. -/
def ClassDeclaration.ancestors : ClassDeclaration → List ClassData
  | .root _ => []
  | .derived _ baseClass => baseClass.levels

/-- The conformances of a class and of its base classes, base classes first, each with
the value the comparison of line 223 has at its level when `this` is the context of the
class at address `selfIdent`. -/
def ClassDeclaration.flaggedConformances (selfIdent : Nat) :
    ClassDeclaration → List (BaseClass × Bool)
  | .root d => (d.vtblInterfaces.getD []).map (fun b => (b, d.ident == selfIdent))
  | .derived d baseClass =>
    baseClass.flaggedConformances selfIdent ++
      (d.vtblInterfaces.getD []).map (fun b => (b, d.ident == selfIdent))

/-- The largest of `start` and the ends `offset + size` of the fields of a list. -/
def fieldsEnd : Nat → List VarDeclaration → Nat
  | start, [] => start
  | start, f :: rest => fieldsEnd (max start (f.offset + f.size)) rest

/-- A bound, computed from the declaration alone, of the cursor after the level `d` of a
traversal that enters the level with a cursor of at most `start`: the largest end of a
field, one pointer per conformance, and at least `structsize`. -/
def ClassData.extent (ptrsize start : Nat) (d : ClassData) : Nat :=
  max (fieldsEnd start d.fields + (d.vtblInterfaces.getD []).length * ptrsize) d.structsize

/-- A bound of the cursor over the whole base chain of a class, the header of two
pointers included.  A class whose extent is below `2 ^ sizeBits` is one whose layout fits
the word: no sum stored in the cursor overflows. -/
def ClassDeclaration.extent (ptrsize : Nat) : ClassDeclaration → Nat
  | .root d => d.extent ptrsize (ptrsize * 2)
  | .derived d baseClass => d.extent ptrsize (baseClass.extent ptrsize)

/-- The sequence of requests the traversal of `addBaseClassInits` is compared with (it is
not a function of the source): the calls `getInterfaceVtbl(b, flag)` for a list of
conformances with their flags, made one after the other, with the globals they return
and the state they reach, or the first failed assertion. -/
def requestInterfaceVtbls : List (BaseClass × Bool) → World →
    Except Failure (List LLGlobalVariable) × World
  | [], w => (.ok [], w)
  | (b, flag) :: rest, w =>
    match getInterfaceVtbl w b flag with
    | (.error e, w1) => (.error e, w1)
    | (.ok g, w1) =>
      match requestInterfaceVtbls rest w1 with
      | (.error e, w2) => (.error e, w2)
      | (.ok gs, w2) => (.ok (g :: gs), w2)

/-- Invariant of the traversal of `addBaseClassInits` started with the cursor `init`, as
long as no sum stored in the cursor overflows: the steps recorded so far are consecutive,
none moves the cursor backwards, every recorded field visit obeys the test of line 193,
and the field values of the image are the placed fields, which lie one after the other. -/
structure TraceInv (ptrsize bits init : Nat) (a : Inits) : Prop where
  sorted : a.trace.Pairwise (fun u v => u.after ptrsize bits ≤ v.cursor)
  step : ∀ v ∈ a.trace,
    init ≤ v.cursor ∧ v.cursor ≤ v.after ptrsize bits ∧ v.after ptrsize bits ≤ a.offset
  init_le : init ≤ a.offset
  last : a.offset = ((a.trace.getLast?).map (Visit.after ptrsize bits)).getD init
  placed_ok : ∀ vd c, Visit.placed vd c ∈ a.trace → c ≤ vd.offset
  skipped_ok : ∀ vd c, Visit.skipped vd c ∈ a.trace → vd.offset < c
  fits : ∀ vd c, Visit.placed vd c ∈ a.trace → vd.offset + vd.size < 2 ^ bits
  image : a.constants.filterMap LLConstant.fieldOf = a.trace.filterMap Visit.placedField
  disjoint : (a.trace.filterMap Visit.placedField).Pairwise
    (fun f g => f.offset + f.size ≤ g.offset)

/-- What no builder changes between the states `w` and `w1`: the target, the
declaration and the lowered types of `this`. -/
structure SameTarget (w w1 : World) : Prop where
  ptrsize : w1.PTRSIZE = w.PTRSIZE
  sizeBits : w1.sizeBits = w.sizeBits
  classinfoIsClass : w1.classinfoIsClass = w.classinfoIsClass
  aggrdecl : w1.self.aggrdecl = w.self.aggrdecl
  irtypeClass : w1.self.irtypeClass = w.self.irtypeClass
  pa : w1.self.pa = w.self.pa

/-- What the loop of `getClassInfoInterfaces` keeps between the states `w` and `w1`:
the target, the members `interfaceVtblMap` and `classInterfacesArray` of `this`, the
globals that exist (new ones are appended) and every ClassInfo symbol a context holds. -/
structure InterfaceLoopFrame (w w1 : World) : Prop where
  target : SameTarget w w1
  map : w1.self.interfaceVtblMap = w.self.interfaceVtblMap
  arr : w1.self.classInterfacesArray = w.self.classInterfacesArray
  globals : ∃ gs, w1.globals = w.globals ++ gs
  kept : ∀ ident s, w.irStructOf ident = some s →
    ∃ s1, w1.irStructOf ident = some s1 ∧ s1.irtypeClass = s.irtypeClass ∧
      s1.aggrdecl = s.aggrdecl ∧ ∀ c, s.classInfo = some c → s1.classInfo = some c

/-! ## Example declarations -/

/-- A concrete method `B.f` with a body. -/
def exImpl : FuncDeclaration := { ident := 10, type := 1, isAbstract := false, fbody := true }

/-- The interface `I`. -/
def exI : InterfaceRef := { ident := 2, mangle := "1I" }

/-- Conformance of `B` to the one-method interface `I`: slot 0 and `B.f`. -/
def exConf : BaseClass :=
  { base := exI, offset := 8,
    filledNew := [none, some (.func exImpl)], filledInherited := [none, some (.func exImpl)] }

/-- Class `B : I` without fields on a target with 4-byte pointers. -/
def exB : ClassDeclaration :=
  .root { ident := 1, mangle := "1B", isInterfaceDeclaration := false, fields := [],
          vtbl := [none, some (.func exImpl)], vtblInterfaces := some [exConf],
          structsize := 12 }

/-- A fresh context for the class `cd`. -/
def freshIrStruct (cd : ClassDeclaration) (pa vtblTy : List LLType) : IrStruct :=
  { aggrdecl := .classDecl cd, pa := pa,
    irtypeClass := some { vtblTy := vtblTy, vtblSize := vtblTy.length },
    vtbl := none, classInfo := none, classInterfacesArray := none, constVtbl := none,
    interfaceVtblMap := [] }

/-- A fresh 32-bit world around the context `s`. -/
def freshWorld (s : IrStruct) (others : List (Nat × IrStruct)) : World :=
  { PTRSIZE := 4, sizeBits := 32, classinfoIsClass := true, globals := [], codegenCalls := [],
    self := s, irStructs := others }

/-- A field at offset 8 whose end `8 + (2 ^ 32 - 4)` does not fit a 32-bit word. -/
def exFieldHuge : VarDeclaration :=
  { ident := 30, type := 7, offset := 8, size := 2 ^ 32 - 4, alignsize := 4 }

/-- A 4-byte field at offset 4096. -/
def exFieldFar : VarDeclaration :=
  { ident := 31, type := 7, offset := 4096, size := 4, alignsize := 4 }

/-- A class whose layout does not fit a 32-bit word: the field `exFieldHuge` followed by
`exFieldFar`. -/
def exWide : ClassDeclaration :=
  .root { ident := 3, mangle := "1X", isInterfaceDeclaration := false,
          fields := [exFieldHuge, exFieldFar],
          vtbl := [none], vtblInterfaces := none, structsize := 8 }

/-- The world in which `exWide` is about to be lowered. -/
def exWorldWide : World :=
  freshWorld (freshIrStruct exWide [.globalPtr 0, .voidPtr, .fieldTy 7, .fieldTy 7]
    [.classInfoPtr]) []

/-- The field `a` of the base class `A`. -/
def exFieldA : VarDeclaration := { ident := 40, type := 7, offset := 8, size := 4, alignsize := 4 }

/-- The field `b` of the derived class `D`, declared at the offset of `A.a`. -/
def exFieldB : VarDeclaration := { ident := 50, type := 7, offset := 8, size := 4, alignsize := 4 }

/-- The field `c` of the derived class `D`. -/
def exFieldC : VarDeclaration := { ident := 51, type := 9, offset := 16, size := 8, alignsize := 8 }

/-- The base class `A` with the field `a`. -/
def exA : ClassDeclaration :=
  .root { ident := 4, mangle := "1A", isInterfaceDeclaration := false, fields := [exFieldA],
          vtbl := [none], vtblInterfaces := none, structsize := 12 }

/-- Conformance of `D` to `I`, its vtable pointer recorded at offset 24. -/
def exConfD : BaseClass :=
  { base := exI, offset := 24,
    filledNew := [none, some (.func exImpl)], filledInherited := [none, some (.func exImpl)] }

/-- The derived class `D : A, I` with the fields `b` (at the offset of `A.a`) and `c`. -/
def exD : ClassDeclaration :=
  .derived { ident := 5, mangle := "1D", isInterfaceDeclaration := false,
             fields := [exFieldB, exFieldC], vtbl := [none, some (.func exImpl)],
             vtblInterfaces := some [exConfD], structsize := 32 } exA

/-- The world in which `D` is about to be lowered. -/
def exWorldD : World :=
  freshWorld (freshIrStruct exD
    [.globalPtr 0, .voidPtr, .fieldTy 7, .fieldTy 9, .globalPtr 1, .zeroBytes 4]
    [.classInfoPtr, .funcPtr 1]) []

/-- An abstract method without body. -/
def exAbstract : FuncDeclaration := { ident := 11, type := 2, isAbstract := true, fbody := false }

/-- An abstract class `V` with the slots: ClassInfo, the concrete `f`, the abstract `g`. -/
def exV : ClassDeclaration :=
  .root { ident := 6, mangle := "1V", isInterfaceDeclaration := false, fields := [],
          vtbl := [none, some (.func exImpl), some (.func exAbstract)],
          vtblInterfaces := none, structsize := 8 }

/-- The world in which `V` is about to be lowered. -/
def exWorldV : World :=
  freshWorld (freshIrStruct exV [.globalPtr 0, .voidPtr]
    [.classInfoPtr, .funcPtr 1, .funcPtr 2]) []

/-- A conformance whose filled implementation list is empty. -/
def exConfEmpty : BaseClass :=
  { base := exI, offset := 8, filledNew := [], filledInherited := [] }

/-- The declaration of the interface `I` (one abstract method). -/
def exIDecl : ClassDeclaration :=
  .root { ident := 2, mangle := "1I", isInterfaceDeclaration := true, fields := [],
          vtbl := [none, some (.func { ident := 12, type := 1, isAbstract := true, fbody := false })],
          vtblInterfaces := none, structsize := 8 }

/-- The world in which `B` is about to be lowered and the interface `I` has a context. -/
def exWorldBI : World :=
  freshWorld (freshIrStruct exB [.globalPtr 0, .voidPtr, .globalPtr 1]
    [.classInfoPtr, .funcPtr 1]) [(2, freshIrStruct exIDecl [] [.voidPtr, .funcPtr 1])]

/-- The state of `exWorldBI` after `createClassDefaultInitializer` and
`getInterfaceArraySymbol`: global 0 is the vtable symbol of `B`, global 1 the vtable of
`I` in `B`, global 2 the interfaces array. -/
def exWorldBIReady : World :=
  (getInterfaceArraySymbol (createClassDefaultInitializer exWorldBI).2).2

/-- A one-byte field at offset 8. -/
def exFieldByte : VarDeclaration := { ident := 60, type := 3, offset := 8, size := 1, alignsize := 1 }

/-- A world in which the declared vtable type of `B` has one element only, while the
method-slot table of `B` has two entries. -/
def exWorldMismatch : World :=
  freshWorld (freshIrStruct exB [.globalPtr 0, .voidPtr, .globalPtr 1] [.classInfoPtr]) []

/-- A conformance whose implementation of the method is missing (null entry). -/
def exConfMissing : BaseClass :=
  { base := exI, offset := 8,
    filledNew := [none, some (.func exImpl), none],
    filledInherited := [none, some (.func exImpl), none] }

/-- The field `x : int32` of the class `A` of the example: 4 bytes, aligned to 4, at
offset 8. -/
def exFieldX : VarDeclaration := { ident := 70, type := 4, offset := 8, size := 4, alignsize := 4 }

/-- The class `A` of the example: no base class, no interfaces, the field `x`, one
method; instance size 12. -/
def exClassA : ClassDeclaration :=
  .root { ident := 8, mangle := "1A", isInterfaceDeclaration := false, fields := [exFieldX],
          vtbl := [none, some (.func exImpl)], vtblInterfaces := none, structsize := 12 }

/-- The world in which the class `A` of the example is about to be lowered (4-byte
pointers). -/
def exWorldA : World :=
  freshWorld (freshIrStruct exClassA [.globalPtr 0, .voidPtr, .fieldTy 4]
    [.classInfoPtr, .funcPtr 1]) []

/-- The state of `exWorldBI` after `createClassDefaultInitializer` alone: the interfaces
array of `B` has not been declared. -/
def exWorldBIUndeclared : World :=
  (createClassDefaultInitializer exWorldBI).2

/-- The method `D2.f` overriding `B2.f`. -/
def exImplD : FuncDeclaration := { ident := 13, type := 1, isAbstract := false, fbody := true }

/-- Conformance of the base class `B2` to `I`. -/
def exConfBase : BaseClass :=
  { base := exI, offset := 8,
    filledNew := [none, some (.func exImpl)], filledInherited := [none, some (.func exImpl)] }

/-- Conformance of the derived class `D2` to `I`, implemented by `D2.f`. -/
def exConfOwn : BaseClass :=
  { base := exI, offset := 12,
    filledNew := [none, some (.func exImplD)], filledInherited := [none, some (.func exImplD)] }

/-- The base class `B2 : I`. -/
def exB2 : ClassDeclaration :=
  .root { ident := 20, mangle := "2B2", isInterfaceDeclaration := false, fields := [],
          vtbl := [none, some (.func exImpl)], vtblInterfaces := some [exConfBase],
          structsize := 12 }

/-- The derived class `D2 : B2, I`, which implements `I` again. -/
def exD2 : ClassDeclaration :=
  .derived { ident := 21, mangle := "2D2", isInterfaceDeclaration := false, fields := [],
             vtbl := [none, some (.func exImplD)], vtblInterfaces := some [exConfOwn],
             structsize := 16 } exB2

/-- The world in which `D2` is about to be lowered and the interface `I` has a context. -/
def exWorldD2 : World :=
  freshWorld (freshIrStruct exD2 [.globalPtr 0, .voidPtr, .globalPtr 1, .globalPtr 2]
    [.classInfoPtr, .funcPtr 1]) [(2, freshIrStruct exIDecl [] [.voidPtr, .funcPtr 1])]

/-- The state of `exWorldD2` after `createClassDefaultInitializer` and
`getInterfaceArraySymbol`. -/
def exWorldD2Ready : World :=
  (getInterfaceArraySymbol (createClassDefaultInitializer exWorldD2).2).2

/-- The traversal state right after the header of a class on a 4-byte target, advanced
past a one-byte field: the cursor is 9. -/
def exInitsAt9 : Inits :=
  { constants := [.global 0, .nullValue .voidPtr, .fieldInit exFieldByte], offset := 9,
    field_index := 2, trace := [.placed exFieldByte 8] }

/-- A 4-byte field aligned to 4 at offset 16. -/
def exFieldAt16 : VarDeclaration := { ident := 80, type := 4, offset := 16, size := 4, alignsize := 4 }

/-- The world in which `B` is about to be lowered. -/
def exWorldB : World :=
  freshWorld (freshIrStruct exB [.globalPtr 0, .voidPtr, .globalPtr 1]
    [.classInfoPtr, .funcPtr 1]) []

/-! ## Interface vtable cache -/

/-- C1, the code at the failing input: for the class `B` implementing the interface `I`,
the first request `getInterfaceVtbl(b, true)` returns global 0 and records it under the
key `I`; the second request on the resulting state searches under the key `B`, misses,
hands the method to `codegen` again, creates a second global of the same name and returns
global 1, a different object. -/
theorem getInterfaceVtbl_twice_builds_two_globals :
    (getInterfaceVtbl exWorldB exConf true).1 = .ok 0 ∧
    (getInterfaceVtbl exWorldB exConf true).2.self.interfaceVtblMap = [(exI.ident, 0)] ∧
    (getInterfaceVtbl exWorldB exConf true).2.globals.length = 1 ∧
    (getInterfaceVtbl (getInterfaceVtbl exWorldB exConf true).2 exConf true).1 = .ok 1 ∧
    (getInterfaceVtbl (getInterfaceVtbl exWorldB exConf true).2 exConf true).2.globals.length = 2 ∧
    (getInterfaceVtbl (getInterfaceVtbl exWorldB exConf true).2 exConf true).2.codegenCalls
      = [exImpl.ident, exImpl.ident] ∧
    (getInterfaceVtbl (getInterfaceVtbl exWorldB exConf true).2 exConf true).1
      ≠ (getInterfaceVtbl exWorldB exConf true).1 := by
  decide

/-! ## The traversal invariant -/

theorem TraceInv.push {p bits init : Nat} {a : Inits} (h : TraceInv p bits init a) (v : Visit)
    (cs : List LLConstant) (hc : v.cursor = a.offset) (hstep : a.offset ≤ v.after p bits)
    (hpl : ∀ vd c, v = .placed vd c → c ≤ vd.offset)
    (hsk : ∀ vd c, v = .skipped vd c → vd.offset < c)
    (hfit : ∀ vd c, v = .placed vd c → vd.offset + vd.size < 2 ^ bits)
    (himg : cs.filterMap LLConstant.fieldOf
      = a.constants.filterMap LLConstant.fieldOf ++ v.placedField.toList) :
    TraceInv p bits init ⟨cs, v.after p bits, a.field_index, a.trace ++ [v]⟩ := by
  refine ⟨?_, ?_, ?_, ?_, ?_, ?_, ?_, ?_, ?_⟩
  · refine List.pairwise_append.2 ⟨h.sorted, List.pairwise_singleton _ _, ?_⟩
    intro u hu x hx
    rw [List.mem_singleton] at hx
    subst hx
    rw [hc]
    exact (h.step u hu).2.2
  · intro x hx
    rcases List.mem_append.1 hx with hx | hx
    · have := h.step x hx
      exact ⟨this.1, this.2.1, le_trans this.2.2 hstep⟩
    · rw [List.mem_singleton] at hx
      subst hx
      refine ⟨?_, ?_, le_refl _⟩
      · rw [hc]; exact h.init_le
      · rw [hc]; exact hstep
  · exact le_trans h.init_le hstep
  · simp
  · intro vd c hx
    rcases List.mem_append.1 hx with hx | hx
    · exact h.placed_ok vd c hx
    · rw [List.mem_singleton] at hx
      exact hpl vd c hx.symm
  · intro vd c hx
    rcases List.mem_append.1 hx with hx | hx
    · exact h.skipped_ok vd c hx
    · rw [List.mem_singleton] at hx
      exact hsk vd c hx.symm
  · intro vd c hx
    rcases List.mem_append.1 hx with hx | hx
    · exact h.fits vd c hx
    · rw [List.mem_singleton] at hx
      exact hfit vd c hx.symm
  · show cs.filterMap LLConstant.fieldOf = (a.trace ++ [v]).filterMap Visit.placedField
    rw [himg, h.image, List.filterMap_append]
    cases v <;> simp [Visit.placedField]
  · show ((a.trace ++ [v]).filterMap Visit.placedField).Pairwise _
    rw [List.filterMap_append]
    refine List.pairwise_append.2 ⟨h.disjoint, ?_, ?_⟩
    · cases v <;> simp [Visit.placedField]
    · intro f hf g hg
      rcases List.mem_filterMap.1 hf with ⟨u, hu, huf⟩
      have h1 := (h.step u hu).2.2
      have h3 : u.after p bits = f.offset + f.size := by
        cases u with
        | placed vd c =>
          simp only [Visit.placedField, Option.some.injEq] at huf
          subst huf
          simp only [Visit.after]
          exact Nat.mod_eq_of_lt (h.fits _ _ hu)
        | skipped _ _ => simp [Visit.placedField] at huf
        | interfaceSlot _ _ _ => simp [Visit.placedField] at huf
        | tailPadding _ _ => simp [Visit.placedField] at huf
      cases v with
      | placed vd c =>
        simp only [Visit.placedField, List.filterMap_cons, List.filterMap_nil,
          List.mem_singleton] at hg
        subst hg
        have h2 := hpl g c rfl
        simp only [Visit.cursor] at hc
        omega
      | skipped _ _ => simp [Visit.placedField] at hg
      | interfaceSlot _ _ _ => simp [Visit.placedField] at hg
      | tailPadding _ _ => simp [Visit.placedField] at hg

theorem SameTarget.idTarget (w : World) : SameTarget w w :=
  ⟨rfl, rfl, rfl, rfl, rfl, rfl⟩

theorem SameTarget.andThen {w w1 w2 : World} (h : SameTarget w w1) (h1 : SameTarget w1 w2) :
    SameTarget w w2 :=
  ⟨h1.ptrsize.trans h.ptrsize, h1.sizeBits.trans h.sizeBits,
    h1.classinfoIsClass.trans h.classinfoIsClass, h1.aggrdecl.trans h.aggrdecl,
    h1.irtypeClass.trans h.irtypeClass, h1.pa.trans h.pa⟩

/-- The loop of `getInterfaceVtbl` changes nothing but the list of `codegen` requests. -/
theorem interfaceVtblEntries_frame (l : List (Option Dsymbol)) :
    ∀ (cs : List LLConstant) (w : World),
      ∃ calls, (interfaceVtblEntries l cs w).2 = { w with codegenCalls := w.codegenCalls ++ calls } := by
  induction l with
  | nil => intro cs w; exact ⟨[], by simp [interfaceVtblEntries]⟩
  | cons e rest ih =>
    intro cs w
    cases e with
    | none => exact ⟨[], by simp [interfaceVtblEntries]⟩
    | some dsym =>
      cases dsym with
      | other i => exact ⟨[], by simp [interfaceVtblEntries, Dsymbol.isFuncDeclaration]⟩
      | func fd =>
        by_cases hab : (fd.isAbstract && !fd.fbody) = true
        · exact ⟨[], by simp [interfaceVtblEntries, Dsymbol.isFuncDeclaration, hab]⟩
        · obtain ⟨calls, hcalls⟩ := ih (cs ++ [.func fd]) (w.codegen fd)
          refine ⟨fd.ident :: calls, ?_⟩
          simp only [interfaceVtblEntries, Dsymbol.isFuncDeclaration, hab]
          rw [if_neg (by simp)]
          rw [hcalls]
          simp [World.codegen]

/-- `getInterfaceVtbl` leaves the target and the declaration of `this` alone. -/
theorem getInterfaceVtbl_sameTarget (w : World) (b : BaseClass) (n : Bool) :
    SameTarget w (getInterfaceVtbl w b n).2 := by
  unfold getInterfaceVtbl
  split
  · exact SameTarget.idTarget w
  · split
    · exact SameTarget.idTarget w
    · obtain ⟨calls, hcalls⟩ :=
        interfaceVtblEntries_frame ((b.fillVtbl n).drop 1) [.nullValue .voidPtr] w
      dsimp only
      generalize interfaceVtblEntries ((b.fillVtbl n).drop 1) [.nullValue .voidPtr] w = r
        at hcalls
      rcases r with ⟨_ | _, w1⟩ <;>
        (dsimp only at hcalls; subst hcalls; exact ⟨rfl, rfl, rfl, rfl, rfl, rfl⟩)

theorem addInterfaceVtbls_sameTarget (n : Bool) (l : List BaseClass) :
    ∀ (w : World) (a : Inits), SameTarget w (addInterfaceVtbls n l w a).2.1 := by
  induction l with
  | nil => intro w a; exact SameTarget.idTarget w
  | cons b rest ih =>
    intro w a
    have hs := getInterfaceVtbl_sameTarget w b n
    unfold addInterfaceVtbls
    generalize getInterfaceVtbl w b n = r at hs
    rcases r with ⟨e | gv, w1⟩
    · exact hs
    · exact hs.andThen (ih w1 _)

theorem addLevelInits_sameTarget (d : ClassData) (n : Bool) (w : World) (a : Inits) :
    SameTarget w (addLevelInits d n w a).2.1 := by
  unfold addLevelInits
  dsimp only
  split
  · exact SameTarget.idTarget w
  · rename_i ifaces _
    have h2 := addInterfaceVtbls_sameTarget n ifaces w (addFields w.sizeBits d.fields a)
    generalize addInterfaceVtbls n ifaces w (addFields w.sizeBits d.fields a) = r at h2
    rcases r with ⟨e | u, w2, a2⟩ <;> exact h2

theorem addBaseClassInits_sameTarget (cd : ClassDeclaration) :
    ∀ (w : World) (a : Inits), SameTarget w (addBaseClassInits cd w a).2.1 := by
  induction cd with
  | root d => intro w a; unfold addBaseClassInits; exact addLevelInits_sameTarget d _ w a
  | derived d baseClass ih =>
    intro w a
    unfold addBaseClassInits
    have h1 := ih w a
    generalize addBaseClassInits baseClass w a = r at h1
    rcases r with ⟨e | u, w1, a1⟩
    · exact h1
    · exact h1.andThen (addLevelInits_sameTarget d _ w1 a1)

/-! ## A bound of the cursor -/

theorem le_fieldsEnd (fields : List VarDeclaration) :
    ∀ start : Nat, start ≤ fieldsEnd start fields := by
  induction fields with
  | nil => intro start; exact le_refl _
  | cons f rest ih =>
    intro start
    exact le_trans (le_max_left _ _) (ih (max start (f.offset + f.size)))

theorem end_le_fieldsEnd (fields : List VarDeclaration) :
    ∀ start : Nat, ∀ f ∈ fields, f.offset + f.size ≤ fieldsEnd start fields := by
  induction fields with
  | nil => intro _ f hf; cases hf
  | cons x rest ih =>
    intro start f hf
    rcases List.mem_cons.1 hf with rfl | hf
    · exact le_trans (le_max_right _ _) (le_fieldsEnd rest _)
    · exact ih _ f hf

/-- The field loop leaves the cursor at or below the largest end of a field. -/
theorem addFields_le (bits : Nat) (fields : List VarDeclaration) :
    ∀ (start : Nat) (a : Inits), a.offset ≤ start →
      (addFields bits fields a).offset ≤ fieldsEnd start fields := by
  induction fields with
  | nil => intro start a h; exact h
  | cons vd rest ih =>
    intro start a h
    unfold addFields
    split
    · exact ih _ _ (le_trans h (le_max_left _ _))
    · exact ih _ _ (le_trans (Nat.mod_le _ _) (le_max_right _ _))

theorem addTailPadding_le (structsize bound : Nat) (a : Inits) (h : a.offset ≤ bound) :
    (addTailPadding structsize a).offset ≤ max bound structsize := by
  unfold addTailPadding
  split
  · exact le_max_right _ _
  · exact le_trans h (le_max_left _ _)

/-- The interface loop advances the cursor by at most one pointer per conformance. -/
theorem addInterfaceVtbls_le (n : Bool) (l : List BaseClass) :
    ∀ (w : World) (a : Inits),
      (addInterfaceVtbls n l w a).2.2.offset ≤ a.offset + l.length * w.PTRSIZE := by
  induction l with
  | nil => intro w a; simp [addInterfaceVtbls]
  | cons b rest ih =>
    intro w a
    have hs := getInterfaceVtbl_sameTarget w b n
    unfold addInterfaceVtbls
    generalize getInterfaceVtbl w b n = r at hs
    rcases r with ⟨e | gv, w1⟩
    · exact Nat.le_add_right _ _
    · dsimp only at hs ⊢
      refine le_trans (ih w1 _) ?_
      have hp : w1.PTRSIZE = w.PTRSIZE := hs.ptrsize
      have hm := Nat.mod_le (a.offset + w.PTRSIZE) (2 ^ w.sizeBits)
      rw [hp, List.length_cons, Nat.succ_mul]
      dsimp only
      omega

theorem ClassData.le_extent (p start : Nat) (d : ClassData) : start ≤ d.extent p start :=
  le_trans (le_trans (le_fieldsEnd d.fields start) (Nat.le_add_right _ _)) (le_max_left _ _)

theorem ClassDeclaration.structsize_le_extent (p : Nat) (cd : ClassDeclaration) :
    cd.data.structsize ≤ cd.extent p := by
  cases cd <;> exact le_max_right _ _

/-- One level leaves the cursor at or below the extent of the level. -/
theorem addLevelInits_le (d : ClassData) (n : Bool) (w : World) (a : Inits) (start : Nat)
    (h : a.offset ≤ start) :
    (addLevelInits d n w a).2.2.offset ≤ d.extent w.PTRSIZE start := by
  have hf := addFields_le w.sizeBits d.fields start a h
  unfold addLevelInits ClassData.extent
  dsimp only
  cases hif : d.vtblInterfaces with
  | none =>
    dsimp only
    exact addTailPadding_le _ _ _ (le_trans hf (Nat.le_add_right _ _))
  | some ifaces =>
    dsimp only
    have h2 := addInterfaceVtbls_le n ifaces w (addFields w.sizeBits d.fields a)
    generalize addInterfaceVtbls n ifaces w (addFields w.sizeBits d.fields a) = r at h2
    rcases r with ⟨e | u, w2, a2⟩
    · dsimp only at h2 ⊢
      simp only [Option.getD_some]
      exact le_trans (le_trans h2 (Nat.add_le_add_right hf _)) (le_max_left _ _)
    · dsimp only at h2 ⊢
      simp only [Option.getD_some]
      exact addTailPadding_le _ _ _ (le_trans h2 (Nat.add_le_add_right hf _))

/-- The traversal leaves the cursor at or below the extent of the class. -/
theorem addBaseClassInits_le (cd : ClassDeclaration) :
    ∀ (w : World) (a : Inits), a.offset ≤ w.PTRSIZE * 2 →
      (addBaseClassInits cd w a).2.2.offset ≤ cd.extent w.PTRSIZE := by
  induction cd with
  | root d =>
    intro w a h
    unfold addBaseClassInits
    exact addLevelInits_le d _ w a _ h
  | derived d baseClass ih =>
    intro w a h
    unfold addBaseClassInits
    have h1 := ih w a h
    have hs := addBaseClassInits_sameTarget baseClass w a
    generalize addBaseClassInits baseClass w a = r at h1 hs
    rcases r with ⟨e | u, w1, a1⟩
    · exact le_trans h1 (ClassData.le_extent _ _ _)
    · dsimp only at h1 hs ⊢
      have := addLevelInits_le d (isOwnLevel w1 (.derived d baseClass)) w1 a1 _ h1
      rw [hs.ptrsize] at this
      exact this

/-! ## The invariant along the traversal -/

/-- The field loop keeps the traversal invariant when the end of no field overflows. -/
theorem addFields_inv (p bits init : Nat) (fields : List VarDeclaration) :
    ∀ a : Inits, (∀ f ∈ fields, f.offset + f.size < 2 ^ bits) → TraceInv p bits init a →
      TraceInv p bits init (addFields bits fields a) := by
  induction fields with
  | nil => intro a _ h; simpa [addFields] using h
  | cons vd rest ih =>
    intro a hfits h
    have hvd := hfits vd (List.mem_cons_self _ _)
    have hrest : ∀ f ∈ rest, f.offset + f.size < 2 ^ bits :=
      fun f hf => hfits f (List.mem_cons_of_mem _ hf)
    unfold addFields
    split
    · rename_i hlt
      exact ih _ hrest (h.push (.skipped vd a.offset) a.constants rfl (le_refl _)
        (fun _ _ hv => by cases hv) (fun _ _ hv => by cases hv; exact hlt)
        (fun _ _ hv => by cases hv) (by simp [Visit.placedField]))
    · rename_i hge
      refine ih _ hrest (h.push (.placed vd a.offset) _ rfl ?_ ?_ (fun _ _ hv => by cases hv)
        ?_ ?_)
      · simp only [Visit.after]
        rw [Nat.mod_eq_of_lt hvd]
        omega
      · intro _ _ hv; cases hv; omega
      · intro _ _ hv; cases hv; exact hvd
      · simp only [Visit.placedField, Option.toList, List.filterMap_append]
        split <;> simp [add_zeros, LLConstant.fieldOf]

/-- The tail padding keeps the traversal invariant. -/
theorem addTailPadding_inv (p bits init structsize : Nat) (a : Inits)
    (h : TraceInv p bits init a) :
    TraceInv p bits init (addTailPadding structsize a) := by
  unfold addTailPadding
  split
  · rename_i hlt
    have := h.push (p := p) (.tailPadding (structsize - a.offset) a.offset)
      (add_zeros a.constants (structsize - a.offset)) rfl
      (by simp only [Visit.after]; omega) (fun _ _ hv => by cases hv) (fun _ _ hv => by cases hv)
      (fun _ _ hv => by cases hv)
      (by simp [add_zeros, LLConstant.fieldOf, Visit.placedField])
    have he : Visit.after p bits (.tailPadding (structsize - a.offset) a.offset) = structsize := by
      simp only [Visit.after]; omega
    rw [he] at this
    exact this
  · exact h

/-- The interface loop keeps the traversal invariant when its slots do not overflow the
cursor. -/
theorem addInterfaceVtbls_inv (p bits init : Nat) (n : Bool) (l : List BaseClass) :
    ∀ (w : World) (a : Inits), w.PTRSIZE = p → w.sizeBits = bits →
      a.offset + l.length * p < 2 ^ bits → TraceInv p bits init a →
      TraceInv p bits init (addInterfaceVtbls n l w a).2.2 := by
  induction l with
  | nil => intro w a _ _ _ h; simpa [addInterfaceVtbls] using h
  | cons b rest ih =>
    intro w a hp hb hfit h
    have hs := getInterfaceVtbl_sameTarget w b n
    rw [List.length_cons, Nat.succ_mul] at hfit
    have hmod : (a.offset + p) % 2 ^ bits = a.offset + p := Nat.mod_eq_of_lt (by omega)
    unfold addInterfaceVtbls
    generalize getInterfaceVtbl w b n = r at hs
    rcases r with ⟨e | gv, w1⟩
    · exact h
    · dsimp only at hs ⊢
      rw [hp, hb]
      have h1 := h.push (.interfaceSlot b n a.offset) (a.constants ++ [.global gv]) rfl
        (by simp only [Visit.after]; rw [hmod]; omega) (fun _ _ hv => by cases hv)
        (fun _ _ hv => by cases hv) (fun _ _ hv => by cases hv)
        (by simp [LLConstant.fieldOf, Visit.placedField])
      exact ih w1 _ (hs.ptrsize.trans hp) (hs.sizeBits.trans hb)
        (by show (a.offset + p) % 2 ^ bits + rest.length * p < 2 ^ bits; rw [hmod]; omega) h1

/-- One level of the traversal keeps the invariant when the extent of the level fits the
word. -/
theorem addLevelInits_inv (p bits init : Nat) (d : ClassData) (n : Bool) (w : World)
    (a : Inits) (start : Nat) (hp : w.PTRSIZE = p) (hb : w.sizeBits = bits)
    (hstart : a.offset ≤ start) (hfit : d.extent p start < 2 ^ bits)
    (h : TraceInv p bits init a) :
    TraceInv p bits init (addLevelInits d n w a).2.2 := by
  have hfe := addFields_le bits d.fields start a hstart
  have hext : fieldsEnd start d.fields + (d.vtblInterfaces.getD []).length * p
      ≤ d.extent p start := le_max_left _ _
  have h1 := addFields_inv p bits init d.fields a
    (fun f hf => lt_of_le_of_lt
      (le_trans (end_le_fieldsEnd d.fields start f hf) (le_trans (Nat.le_add_right _ _) hext))
      hfit) h
  unfold addLevelInits
  rw [hb]
  dsimp only
  cases hif : d.vtblInterfaces with
  | none => exact addTailPadding_inv _ _ _ _ _ h1
  | some ifaces =>
    dsimp only
    rw [hif] at hext
    simp only [Option.getD_some] at hext
    have h2 := addInterfaceVtbls_inv p bits init n ifaces w _ hp hb (by omega) h1
    generalize addInterfaceVtbls n ifaces w (addFields bits d.fields a) = r at h2
    rcases r with ⟨e | u, w2, a2⟩
    · exact h2
    · exact addTailPadding_inv _ _ _ _ _ h2

/-- `addBaseClassInits` keeps the traversal invariant for a class whose extent fits the
word. -/
theorem addBaseClassInits_inv (p bits init : Nat) (cd : ClassDeclaration) :
    ∀ (w : World) (a : Inits), w.PTRSIZE = p → w.sizeBits = bits → a.offset ≤ p * 2 →
      cd.extent p < 2 ^ bits → TraceInv p bits init a →
      TraceInv p bits init (addBaseClassInits cd w a).2.2 := by
  induction cd with
  | root d =>
    intro w a hp hb hstart hfit h
    unfold addBaseClassInits
    exact addLevelInits_inv p bits init d _ w a _ hp hb hstart hfit h
  | derived d baseClass ih =>
    intro w a hp hb hstart hfit h
    have hfitb : baseClass.extent p < 2 ^ bits :=
      lt_of_le_of_lt (ClassData.le_extent p _ d) hfit
    have h1 := ih w a hp hb hstart hfitb h
    have hle := addBaseClassInits_le baseClass w a (by rw [hp]; exact hstart)
    have hs := addBaseClassInits_sameTarget baseClass w a
    unfold addBaseClassInits
    generalize addBaseClassInits baseClass w a = r at h1 hle hs
    rcases r with ⟨e | u, w1, a1⟩
    · exact h1
    · dsimp only at h1 hle hs ⊢
      rw [hp] at hle
      exact addLevelInits_inv p bits init d _ w1 a1 _ (hs.ptrsize.trans hp)
        (hs.sizeBits.trans hb) hle hfit h1

/-! ## Which fields are visited -/

theorem addFields_visited (bits : Nat) (fields : List VarDeclaration) :
    ∀ a : Inits, (addFields bits fields a).trace.filterMap Visit.visitedField
      = a.trace.filterMap Visit.visitedField ++ fields := by
  induction fields with
  | nil => intro a; simp [addFields]
  | cons vd rest ih =>
    intro a
    unfold addFields
    split <;> (rw [ih]; simp [Visit.visitedField])

theorem addTailPadding_visited (structsize : Nat) (a : Inits) :
    (addTailPadding structsize a).trace.filterMap Visit.visitedField
      = a.trace.filterMap Visit.visitedField := by
  unfold addTailPadding
  split <;> simp [Visit.visitedField]

theorem addInterfaceVtbls_visited (n : Bool) (l : List BaseClass) :
    ∀ (w : World) (a : Inits), (addInterfaceVtbls n l w a).2.2.trace.filterMap Visit.visitedField
      = a.trace.filterMap Visit.visitedField := by
  induction l with
  | nil => intro w a; simp [addInterfaceVtbls]
  | cons b rest ih =>
    intro w a
    unfold addInterfaceVtbls
    generalize getInterfaceVtbl w b n = r
    rcases r with ⟨e | gv, w1⟩
    · rfl
    · dsimp only
      rw [ih]
      simp [Visit.visitedField]

theorem addLevelInits_visited (d : ClassData) (n : Bool) (w : World) (a : Inits) :
    (addLevelInits d n w a).2.2.trace.filterMap Visit.visitedField
      = a.trace.filterMap Visit.visitedField ++ d.fields := by
  unfold addLevelInits
  dsimp only
  split
  · rw [addTailPadding_visited, addFields_visited]
  · rename_i ifaces _
    have h2 := addInterfaceVtbls_visited n ifaces w (addFields w.sizeBits d.fields a)
    generalize addInterfaceVtbls n ifaces w (addFields w.sizeBits d.fields a) = r at h2
    rcases r with ⟨e | u, w2, a2⟩
    · dsimp only at h2 ⊢
      rw [h2, addFields_visited]
    · dsimp only at h2 ⊢
      rw [addTailPadding_visited, h2, addFields_visited]

/-- The field steps of a run are the fields of the chain, base classes first; a run that
fails stops somewhere along them. -/
theorem addBaseClassInits_visited (cd : ClassDeclaration) :
    ∀ (w : World) (a : Inits),
      ∃ rest, a.trace.filterMap Visit.visitedField ++ cd.allFields
          = (addBaseClassInits cd w a).2.2.trace.filterMap Visit.visitedField ++ rest ∧
        (∀ u, (addBaseClassInits cd w a).1 = .ok u → rest = []) := by
  induction cd with
  | root d =>
    intro w a
    unfold addBaseClassInits
    exact ⟨[], by rw [addLevelInits_visited]; simp [ClassDeclaration.allFields], fun _ _ => rfl⟩
  | derived d baseClass ih =>
    intro w a
    unfold addBaseClassInits
    obtain ⟨rest, h1, h2⟩ := ih w a
    generalize addBaseClassInits baseClass w a = r at h1 h2
    rcases r with ⟨e | u, w1, a1⟩
    · refine ⟨rest ++ d.fields, ?_, fun u hu => by cases hu⟩
      dsimp only at h1 ⊢
      rw [ClassDeclaration.allFields, ← List.append_assoc, h1, List.append_assoc]
    · refine ⟨[], ?_, fun _ _ => rfl⟩
      dsimp only at h1 h2 ⊢
      have := h2 u rfl
      subst this
      rw [addLevelInits_visited, ClassDeclaration.allFields, ← List.append_assoc, h1]
      simp

/-! ## Steps are never removed from the trace -/

theorem getVtblSymbol_sameTarget (w : World) : SameTarget w (getVtblSymbol w).2 := by
  unfold getVtblSymbol
  split
  · exact SameTarget.idTarget w
  · split
    · exact SameTarget.idTarget w
    · exact ⟨rfl, rfl, rfl, rfl, rfl, rfl⟩

/-- For a class whose extent fits the word, either the builder failed before the
traversal began, or the traversal invariant holds of the values of `constants` and
`offset` it reached. -/
theorem classDefaultInits_inv (w : World) (cd : ClassDeclaration)
    (hcd : w.self.aggrdecl.isClassDeclaration = some cd)
    (hfit : cd.extent w.PTRSIZE < 2 ^ w.sizeBits) :
    (classDefaultInits w).2.2 = ⟨[], 0, 0, []⟩ ∨
      TraceInv w.PTRSIZE w.sizeBits ((w.PTRSIZE * 2) % 2 ^ w.sizeBits)
        (classDefaultInits w).2.2 := by
  unfold classDefaultInits
  rw [hcd]
  dsimp only
  have hs := getVtblSymbol_sameTarget w
  generalize getVtblSymbol w = r at hs
  rcases r with ⟨e | vtbl, w1⟩
  · exact Or.inl rfl
  · right
    dsimp only at hs ⊢
    exact addBaseClassInits_inv w.PTRSIZE w.sizeBits _ cd w1 _ hs.ptrsize hs.sizeBits
      (Nat.mod_le _ _) hfit
      ⟨List.Pairwise.nil, fun _ hv => (by cases hv), le_refl _, rfl,
        fun _ _ hv => (by cases hv), fun _ _ hv => (by cases hv),
        fun _ _ hv => (by cases hv), rfl, List.Pairwise.nil⟩

/-- The field steps of the traversal are the fields of the class and its base classes,
base classes first; all of them when the traversal completes. -/
theorem classDefaultInits_visited (w : World) (cd : ClassDeclaration)
    (hcd : w.self.aggrdecl.isClassDeclaration = some cd) :
    ∃ rest, cd.allFields
        = (classDefaultInits w).2.2.trace.filterMap Visit.visitedField ++ rest ∧
      ((classDefaultInits w).1 = .ok () → rest = []) := by
  unfold classDefaultInits
  rw [hcd]
  dsimp only
  generalize getVtblSymbol w = r
  rcases r with ⟨e | vtbl, w1⟩
  · exact ⟨cd.allFields, by simp, fun h => by cases h⟩
  · dsimp only
    obtain ⟨rest, h1, h2⟩ := addBaseClassInits_visited cd w1
      ⟨[.global vtbl, .nullValue .voidPtr], (w.PTRSIZE * 2) % 2 ^ w.sizeBits, 2, []⟩
    exact ⟨rest, by simpa using h1, fun h => h2 () h⟩

/-- C4: for every class whose layout fits the word of `size_t` (its extent, computed
from the declarations, is below `2 ^ sizeBits`, so that no sum stored in the cursor
overflows), over the whole traversal started by `createClassDefaultInitializer` the
cursor never decreases (the cursors recorded at the steps are non-decreasing and none
exceeds the final cursor; every step ends at or after the cursor it starts with; every
later step starts at or after the end of every earlier one); a visited field is placed
exactly when its offset is not less than the cursor at that moment, and skipped
otherwise; the field values of the image are the placed fields in the order of their
visits; of any two placed fields the one placed first ends at or before the offset of
the other, so their byte ranges `[offset, offset + size)` are disjoint; and the visited
fields are the fields of the class and its base classes, base classes first (all of them
when the traversal completes). -/
theorem addBaseClassInits_cursor_monotone_fields_disjoint (w : World) (cd : ClassDeclaration)
    (hcd : w.self.aggrdecl.isClassDeclaration = some cd)
    (hfit : cd.extent w.PTRSIZE < 2 ^ w.sizeBits) :
    (((classDefaultInits w).2.2.trace.map Visit.cursor).Pairwise (fun c1 c2 => c1 ≤ c2)) ∧
    (∀ v ∈ (classDefaultInits w).2.2.trace, v.cursor ≤ (classDefaultInits w).2.2.offset) ∧
    ((classDefaultInits w).2.2.trace.Pairwise
        (fun u v => u.after w.PTRSIZE w.sizeBits ≤ v.cursor)) ∧
    (∀ v ∈ (classDefaultInits w).2.2.trace,
        v.cursor ≤ v.after w.PTRSIZE w.sizeBits ∧
        v.after w.PTRSIZE w.sizeBits ≤ (classDefaultInits w).2.2.offset) ∧
    (∀ v ∈ (classDefaultInits w).2.2.trace, ∀ vd, v.visitedField = some vd →
        (v = .placed vd v.cursor ↔ v.cursor ≤ vd.offset) ∧
        (v = .skipped vd v.cursor ↔ vd.offset < v.cursor)) ∧
    ((classDefaultInits w).2.2.constants.filterMap LLConstant.fieldOf
        = (classDefaultInits w).2.2.trace.filterMap Visit.placedField) ∧
    (((classDefaultInits w).2.2.trace.filterMap Visit.placedField).Pairwise
        (fun f g => f.offset + f.size ≤ g.offset)) ∧
    (∃ rest, cd.allFields
        = (classDefaultInits w).2.2.trace.filterMap Visit.visitedField ++ rest ∧
      ((classDefaultInits w).1 = .ok () → rest = [])) := by
  rcases classDefaultInits_inv w cd hcd hfit with h | h
  · refine ⟨?_, ?_, ?_, ?_, ?_, ?_, ?_, classDefaultInits_visited w cd hcd⟩ <;> rw [h]
    · exact List.Pairwise.nil
    · exact fun _ hv => (by cases hv)
    · exact List.Pairwise.nil
    · exact fun _ hv => (by cases hv)
    · exact fun _ hv => (by cases hv)
    · rfl
    · exact List.Pairwise.nil
  · refine ⟨?_, ?_, h.sorted, fun v hv => (h.step v hv).2, ?_, h.image, h.disjoint,
      classDefaultInits_visited w cd hcd⟩
    · exact List.pairwise_map.2
        (List.Pairwise.imp_of_mem (fun hu _ huv => le_trans (h.step _ hu).2.1 huv) h.sorted)
    · exact fun v hv => le_trans (h.step v hv).2.1 (h.step v hv).2.2
    · intro v hv vd hvd
      cases v with
      | placed x c =>
        simp only [Visit.visitedField, Option.some.injEq] at hvd
        subst hvd
        have := h.placed_ok x c hv
        simp only [Visit.cursor, true_iff, reduceCtorEq, false_iff, not_lt]
        exact ⟨this, this⟩
      | skipped x c =>
        simp only [Visit.visitedField, Option.some.injEq] at hvd
        subst hvd
        have := h.skipped_ok x c hv
        simp only [Visit.cursor, true_iff, reduceCtorEq, false_iff, not_le]
        exact ⟨this, this⟩
      | interfaceSlot _ _ _ => simp [Visit.visitedField] at hvd
      | tailPadding _ _ => simp [Visit.visitedField] at hvd

/-- C4, at the class `D : A, I` on a 32-bit target: the traversal places `A.a` at cursor
8, skips `D.b` at cursor 12, places `D.c`, appends the slot of `I` at cursor 24 and pads
the tail at cursor 28. -/
theorem addBaseClassInits_cursor_monotone_fields_disjoint_witness :
    exWorldD.self.aggrdecl.isClassDeclaration = some exD ∧
    exD.extent exWorldD.PTRSIZE < 2 ^ exWorldD.sizeBits ∧
    (classDefaultInits exWorldD).2.2.trace
      = [.placed exFieldA 8, .skipped exFieldB 12, .placed exFieldC 12,
          .interfaceSlot exConfD true 24, .tailPadding 4 28] ∧
    ((((classDefaultInits exWorldD).2.2.trace.map Visit.cursor).Pairwise
        (fun c1 c2 => c1 ≤ c2)) ∧
    (∀ v ∈ (classDefaultInits exWorldD).2.2.trace,
        v.cursor ≤ (classDefaultInits exWorldD).2.2.offset) ∧
    ((classDefaultInits exWorldD).2.2.trace.Pairwise
        (fun u v => u.after exWorldD.PTRSIZE exWorldD.sizeBits ≤ v.cursor)) ∧
    (∀ v ∈ (classDefaultInits exWorldD).2.2.trace,
        v.cursor ≤ v.after exWorldD.PTRSIZE exWorldD.sizeBits ∧
        v.after exWorldD.PTRSIZE exWorldD.sizeBits ≤ (classDefaultInits exWorldD).2.2.offset) ∧
    (∀ v ∈ (classDefaultInits exWorldD).2.2.trace, ∀ vd, v.visitedField = some vd →
        (v = .placed vd v.cursor ↔ v.cursor ≤ vd.offset) ∧
        (v = .skipped vd v.cursor ↔ vd.offset < v.cursor)) ∧
    ((classDefaultInits exWorldD).2.2.constants.filterMap LLConstant.fieldOf
        = (classDefaultInits exWorldD).2.2.trace.filterMap Visit.placedField) ∧
    (((classDefaultInits exWorldD).2.2.trace.filterMap Visit.placedField).Pairwise
        (fun f g => f.offset + f.size ≤ g.offset)) ∧
    (∃ rest, exD.allFields
        = (classDefaultInits exWorldD).2.2.trace.filterMap Visit.visitedField ++ rest ∧
      ((classDefaultInits exWorldD).1 = .ok () → rest = []))) :=
  ⟨by decide, by decide, by decide,
    addBaseClassInits_cursor_monotone_fields_disjoint exWorldD exD (by decide) (by decide)⟩

/-- The bound on the extent cannot be dropped: for the class `exWide` on a 32-bit target
the sum of line 216 overflows at the first field, the cursor falls from 8 to 4, and the
second field is placed inside the bytes of the first. -/
theorem classDefaultInits_cursor_wraps :
    ¬ (exWide.extent exWorldWide.PTRSIZE < 2 ^ exWorldWide.sizeBits) ∧
    (classDefaultInits exWorldWide).2.2.trace
      = [.placed exFieldHuge 8, .placed exFieldFar 4] ∧
    exFieldHuge.offset ≤ exFieldFar.offset ∧
    exFieldFar.offset + exFieldFar.size ≤ exFieldHuge.offset + exFieldHuge.size := by
  decide

/-! ## Size of the image -/

/-- On a list of functions the loop of `getVtblInit` appends one element per entry: the
null function pointer for an abstract function without body, the code address otherwise. -/
theorem vtblEntries_funcs (fds : List FuncDeclaration) :
    ∀ (cs : List LLConstant) (w : World),
      vtblEntries (fds.map (fun fd => some (Dsymbol.func fd))) cs w
        = (.ok (cs ++ fds.map (fun fd =>
              if fd.abstractNoBody then LLConstant.nullValue (.funcPtr fd.type) else .func fd)),
            { w with codegenCalls := w.codegenCalls ++ compiledSlots fds }) := by
  induction fds with
  | nil => intro cs w; simp [vtblEntries, compiledSlots]
  | cons fd rest ih =>
    intro cs w
    simp only [List.map_cons, vtblEntries, Dsymbol.isFuncDeclaration]
    by_cases hab : fd.abstractNoBody = true
    · have hab1 : (fd.isAbstract && !fd.fbody) = true := hab
      rw [if_pos hab1, ih]
      simp [compiledSlots, hab]
    · have hab1 : ¬ (fd.isAbstract && !fd.fbody) = true := hab
      rw [if_neg hab1, ih]
      simp [compiledSlots, hab, World.codegen]

/-- The loop of `getVtblInit` completes only on a list of functions. -/
theorem vtblEntries_ok_funcs (l : List (Option Dsymbol)) :
    ∀ (cs t : List LLConstant) (w w1 : World), vtblEntries l cs w = (.ok t, w1) →
      ∃ fds : List FuncDeclaration, l = fds.map (fun fd => some (Dsymbol.func fd)) := by
  induction l with
  | nil => intro cs t w w1 _; exact ⟨[], rfl⟩
  | cons e rest ih =>
    intro cs t w w1 h
    cases e with
    | none => simp [vtblEntries] at h
    | some dsym =>
      cases dsym with
      | other i => simp [vtblEntries, Dsymbol.isFuncDeclaration] at h
      | func fd =>
        simp only [vtblEntries, Dsymbol.isFuncDeclaration] at h
        split at h
        · obtain ⟨fds, hfds⟩ := ih _ _ _ _ h
          exact ⟨fd :: fds, by rw [hfds]; rfl⟩
        · obtain ⟨fds, hfds⟩ := ih _ _ _ _ h
          exact ⟨fd :: fds, by rw [hfds]; rfl⟩

theorem getClassInfoSymbol_sameTarget (w : World) : SameTarget w (getClassInfoSymbol w).2 := by
  unfold getClassInfoSymbol getClassInfoSymbolOn
  dsimp only
  split
  · exact ⟨rfl, rfl, rfl, rfl, rfl, rfl⟩
  · split <;> exact ⟨rfl, rfl, rfl, rfl, rfl, rfl⟩

/-- The symbol `getClassInfoSymbol` returns is the one the context holds afterwards. -/
theorem getClassInfoSymbol_cached (w : World) (ci : LLGlobalVariable)
    (h : (getClassInfoSymbol w).1 = .ok ci) :
    (getClassInfoSymbol w).2.self.classInfo = some ci ∧
    (getClassInfoSymbol w).2.self.constVtbl = w.self.constVtbl := by
  unfold getClassInfoSymbol getClassInfoSymbolOn at h ⊢
  dsimp only at h ⊢
  split
  · rename_i g hg
    rw [hg] at h
    simp only [Except.ok.injEq] at h
    subst h
    exact ⟨hg, rfl⟩
  · rename_i hg
    rw [hg] at h
    dsimp only at h
    split
    · rename_i hc
      rw [if_pos hc] at h
      simp only [World.newGlobal, Except.ok.injEq] at h
      subst h
      exact ⟨rfl, rfl⟩
    · rename_i hc
      rw [if_neg hc] at h
      cases h

/-- What `getVtblInit` does on an unset cache when the entries after slot 0 of
`cd->vtbl` are the functions `fds`: the table is stored in `constVtbl` before its type
is compared with the declared vtable type. -/
theorem getVtblInit_build (w : World) (cd : ClassDeclaration) (ci : LLGlobalVariable)
    (fds : List FuncDeclaration)
    (hnone : w.self.constVtbl = none)
    (hcd : w.self.aggrdecl.isClassDeclaration = some cd)
    (hci : (getClassInfoSymbol w).1 = .ok ci)
    (hfds : cd.data.vtbl.drop 1 = fds.map (fun fd => some (Dsymbol.func fd))) :
    (getVtblInit w).2.self.constVtbl
      = some (.bitcast ci .classInfoPtr :: fds.map (fun fd =>
          if fd.abstractNoBody then LLConstant.nullValue (.funcPtr fd.type) else .func fd)) ∧
    (getVtblInit w).2.codegenCalls = w.codegenCalls ++ compiledSlots fds ∧
    (getVtblInit w).2.self.classInfo = some ci ∧
    (getVtblInit w).1 =
      match w.self.irtypeClass with
      | none => .error .nullDereference
      | some tc =>
        if (LLConstant.bitcast ci .classInfoPtr :: fds.map (fun fd =>
            if fd.abstractNoBody then LLConstant.nullValue (.funcPtr fd.type)
            else .func fd)).map LLConstant.getType = tc.vtblTy
        then .ok (.bitcast ci .classInfoPtr :: fds.map (fun fd =>
            if fd.abstractNoBody then LLConstant.nullValue (.funcPtr fd.type) else .func fd))
        else .error .vtblInitializerTypeMismatch := by
  have hs := getClassInfoSymbol_sameTarget w
  have hc := getClassInfoSymbol_cached w ci hci
  have hcalls : (getClassInfoSymbol w).2.codegenCalls = w.codegenCalls := by
    unfold getClassInfoSymbol getClassInfoSymbolOn
    dsimp only
    split
    · rfl
    · split <;> rfl
  unfold getVtblInit
  rw [hnone, hcd]
  dsimp only
  generalize getClassInfoSymbol w = r at hci hs hc hcalls
  rcases r with ⟨e | ci1, w1⟩
  · cases hci
  · simp only [Except.ok.injEq] at hci
    subst hci
    dsimp only at hs hc hcalls ⊢
    rw [hfds, vtblEntries_funcs]
    dsimp only
    rw [hs.irtypeClass]
    cases hty : w.self.irtypeClass with
    | none => exact ⟨rfl, by rw [hcalls], hc.1, rfl⟩
    | some tc =>
      dsimp only
      split
      · rename_i heq
        refine ⟨rfl, by rw [hcalls], hc.1, ?_⟩
        rw [if_pos (by simpa using heq)]
        rfl
      · rename_i hne
        refine ⟨rfl, by rw [hcalls], hc.1, ?_⟩
        rw [if_neg (by simpa using hne)]

/-- A completed `getVtblInit` on an unset cache obtained the ClassInfo symbol and met
only functions after slot 0. -/
theorem getVtblInit_ok_inv (w : World) (cd : ClassDeclaration) (table : List LLConstant)
    (hnone : w.self.constVtbl = none)
    (hcd : w.self.aggrdecl.isClassDeclaration = some cd)
    (h : (getVtblInit w).1 = .ok table) :
    ∃ (ci : LLGlobalVariable) (fds : List FuncDeclaration),
      (getClassInfoSymbol w).1 = .ok ci ∧
      cd.data.vtbl.drop 1 = fds.map (fun fd => some (Dsymbol.func fd)) := by
  unfold getVtblInit at h
  rw [hnone, hcd] at h
  dsimp only at h
  generalize getClassInfoSymbol w = r at h
  rcases r with ⟨e | ci, w1⟩
  · cases h
  · dsimp only at h
    generalize hv : vtblEntries (cd.data.vtbl.drop 1) [.bitcast ci .classInfoPtr] w1 = r at h
    rcases r with ⟨e | t, w2⟩
    · cases h
    · exact ⟨ci, vtblEntries_ok_funcs _ _ _ _ _ hv |>.choose, rfl,
        (vtblEntries_ok_funcs _ _ _ _ _ hv).choose_spec⟩

/-- C5 (counterexample): the method-slot table of `B` has 2 entries (slot 0 and `f`) and
the table built by `getVtblInit` has 2 entries, not 1 + 2. -/
theorem getVtblInit_length_counterexample :
    (getVtblInit exWorldB).1 = .ok [.bitcast 0 .classInfoPtr, .func exImpl] ∧
    exB.data.vtbl.length = 2 ∧
    [LLConstant.bitcast 0 .classInfoPtr, .func exImpl].length ≠ 1 + exB.data.vtbl.length := by
  decide

/-- C5 (amended): the table `getVtblInit` builds for a class has 1 entry (the RTTI slot)
plus one entry per entry of `cd->vtbl` after its slot 0; that is as many entries as
`cd->vtbl` has when `cd->vtbl` is not empty. -/
theorem getVtblInit_length (w : World) (cd : ClassDeclaration) (table : List LLConstant)
    (hnone : w.self.constVtbl = none)
    (hcd : w.self.aggrdecl.isClassDeclaration = some cd)
    (h : (getVtblInit w).1 = .ok table) :
    table.length = 1 + (cd.data.vtbl.length - 1) ∧
    (cd.data.vtbl ≠ [] → table.length = cd.data.vtbl.length) := by
  obtain ⟨ci, fds, hci, hfds⟩ := getVtblInit_ok_inv w cd table hnone hcd h
  have hb := (getVtblInit_build w cd ci fds hnone hcd hci hfds).2.2.2
  rw [h] at hb
  have hlen : fds.length = cd.data.vtbl.length - 1 := by
    have := congrArg List.length hfds
    simpa using this.symm
  have htable : table.length = 1 + fds.length := by
    cases hty : w.self.irtypeClass with
    | none => rw [hty] at hb; cases hb
    | some tc =>
      rw [hty] at hb
      dsimp only at hb
      split at hb
      · simp only [Except.ok.injEq] at hb
        rw [hb]
        simp [Nat.add_comm]
      · cases hb
  refine ⟨by omega, fun hne => ?_⟩
  have : 0 < cd.data.vtbl.length := List.length_pos.2 hne
  omega

/-- C5 (amended), at the class `B`: two entries in `cd->vtbl`, two in the table. -/
theorem getVtblInit_length_witness :
    exWorldB.self.constVtbl = none ∧
    exWorldB.self.aggrdecl.isClassDeclaration = some exB ∧
    (getVtblInit exWorldB).1 = .ok [.bitcast 0 .classInfoPtr, .func exImpl] ∧
    ([LLConstant.bitcast 0 .classInfoPtr, .func exImpl].length = 1 + (exB.data.vtbl.length - 1) ∧
      (exB.data.vtbl ≠ [] →
        [LLConstant.bitcast 0 .classInfoPtr, .func exImpl].length = exB.data.vtbl.length)) :=
  ⟨by decide, by decide, by decide,
    getVtblInit_length exWorldB exB _ (by decide) (by decide) (by decide)⟩

/-- A list of non-null functions is the image of a list of `FuncDeclaration`s. -/
theorem exists_funcs (l : List (Option Dsymbol))
    (h : ∀ e ∈ l, ∃ fd, e = some (Dsymbol.func fd)) :
    ∃ fds : List FuncDeclaration, l = fds.map (fun fd => some (Dsymbol.func fd)) := by
  induction l with
  | nil => exact ⟨[], rfl⟩
  | cons e rest ih =>
    obtain ⟨fd, hfd⟩ := h e (List.mem_cons_self _ _)
    obtain ⟨fds, hfds⟩ := ih (fun x hx => h x (List.mem_cons_of_mem _ hx))
    exact ⟨fd :: fds, by rw [hfd, hfds]; rfl⟩

/-- Entry `j + 1` of an array read through the list of its entries after slot 0. -/
theorem funcs_at (vtbl : List (Option Dsymbol)) (fds : List FuncDeclaration)
    (hfds : vtbl.drop 1 = fds.map (fun fd => some (Dsymbol.func fd)))
    (j : Nat) (fd : FuncDeclaration) (h : vtbl[j + 1]? = some (some (Dsymbol.func fd))) :
    fds[j]? = some fd := by
  have h1 : (vtbl.drop 1)[j]? = some (some (Dsymbol.func fd)) := by
    rw [List.getElem?_drop, Nat.add_comm]; exact h
  rw [hfds, List.getElem?_map] at h1
  cases hj : fds[j]? with
  | none => rw [hj] at h1; cases h1
  | some x =>
    rw [hj] at h1
    simp only [Option.map_some', Option.some.injEq, Dsymbol.func.injEq] at h1
    rw [h1]

/-- C6: for a class whose `cd->vtbl` entries after slot 0 are all non-null functions,
`getVtblInit` (on an unset cache, with the ClassInfo symbol `ci` available) builds a
table that has the bit-cast ClassInfo symbol at slot 0 and, at every later slot `i`, the
null function pointer exactly when the function of slot `i` of `cd->vtbl` is abstract
without body, and the code address of that function otherwise; the table has one slot
per entry of `cd->vtbl`, in the same order, and it is returned exactly when its type is
the declared vtable type. -/
theorem getVtblInit_slots (w : World) (cd : ClassDeclaration) (ci : LLGlobalVariable)
    (tc : IrTypeClass)
    (hnone : w.self.constVtbl = none)
    (hcd : w.self.aggrdecl.isClassDeclaration = some cd)
    (hci : (getClassInfoSymbol w).1 = .ok ci)
    (hty : w.self.irtypeClass = some tc)
    (hfun : ∀ i, 1 ≤ i → i < cd.data.vtbl.length →
      ∃ fd, cd.data.vtbl[i]? = some (some (Dsymbol.func fd))) :
    ∃ table : List LLConstant,
      (getVtblInit w).2.self.constVtbl = some table ∧
      ((getVtblInit w).1 = .ok table ↔ table.map LLConstant.getType = tc.vtblTy) ∧
      table.length = 1 + (cd.data.vtbl.length - 1) ∧
      table[0]? = some (.bitcast ci .classInfoPtr) ∧
      (getVtblInit w).2.self.classInfo = some ci ∧
      ∀ i fd, 1 ≤ i → cd.data.vtbl[i]? = some (some (Dsymbol.func fd)) →
        (table[i]? = some (.nullValue (.funcPtr fd.type)) ↔
          (fd.isAbstract = true ∧ fd.fbody = false)) ∧
        (¬ (fd.isAbstract = true ∧ fd.fbody = false) → table[i]? = some (.func fd)) := by
  have hall : ∀ e ∈ cd.data.vtbl.drop 1, ∃ fd, e = some (Dsymbol.func fd) := by
    intro e he
    obtain ⟨j, hj⟩ := List.getElem?_of_mem he
    rw [List.getElem?_drop] at hj
    have hlt : 1 + j < cd.data.vtbl.length := by
      by_contra hge
      rw [List.getElem?_eq_none (by omega)] at hj
      cases hj
    obtain ⟨fd, hfd⟩ := hfun (1 + j) (by omega) hlt
    rw [hfd] at hj
    exact ⟨fd, by simpa using hj.symm⟩
  obtain ⟨fds, hfds⟩ := exists_funcs _ hall
  obtain ⟨h1, -, h3, h4⟩ := getVtblInit_build w cd ci fds hnone hcd hci hfds
  have hlen : fds.length = cd.data.vtbl.length - 1 := by
    have := congrArg List.length hfds
    simpa using this.symm
  refine ⟨_, h1, ?_, ?_, List.getElem?_cons_zero, h3, ?_⟩
  · rw [h4, hty]
    dsimp only
    split
    · rename_i heq
      exact ⟨fun _ => heq, fun _ => rfl⟩
    · rename_i hne
      exact ⟨fun h => (by cases h), fun h => absurd h hne⟩
  · simp only [List.length_cons, List.length_map]
    omega
  · intro i fd hi hfd
    obtain ⟨j, rfl⟩ : ∃ j, i = j + 1 := ⟨i - 1, by omega⟩
    have hj := funcs_at _ fds hfds j fd hfd
    have hslot : (LLConstant.bitcast ci .classInfoPtr :: fds.map (fun fd =>
          if fd.abstractNoBody then LLConstant.nullValue (.funcPtr fd.type)
          else .func fd))[j + 1]?
        = some (if fd.abstractNoBody then LLConstant.nullValue (.funcPtr fd.type)
            else .func fd) := by
      rw [List.getElem?_cons_succ, List.getElem?_map, hj]
      rfl
    rw [hslot]
    have hab : fd.abstractNoBody = true ↔ (fd.isAbstract = true ∧ fd.fbody = false) := by
      simp [FuncDeclaration.abstractNoBody]
    constructor
    · constructor
      · intro h
        by_contra hn
        rw [if_neg (fun hh => hn (hab.1 hh))] at h
        cases h
      · intro h
        rw [if_pos (hab.2 h)]
    · intro hn
      rw [if_neg (fun hh => hn (hab.1 hh))]

/-- C6, at the abstract class `V`: the table is `[ClassInfo, &f, null]` and is returned. -/
theorem getVtblInit_slots_witness :
    exWorldV.self.constVtbl = none ∧
    exWorldV.self.aggrdecl.isClassDeclaration = some exV ∧
    (getClassInfoSymbol exWorldV).1 = .ok 0 ∧
    (getVtblInit exWorldV).1
      = .ok [.bitcast 0 .classInfoPtr, .func exImpl, .nullValue (.funcPtr exAbstract.type)] ∧
    ∃ table : List LLConstant,
      (getVtblInit exWorldV).2.self.constVtbl = some table ∧
      ((getVtblInit exWorldV).1 = .ok table ↔
        table.map LLConstant.getType = [.classInfoPtr, .funcPtr 1, .funcPtr 2]) ∧
      table.length = 1 + (exV.data.vtbl.length - 1) ∧
      table[0]? = some (.bitcast 0 .classInfoPtr) ∧
      (getVtblInit exWorldV).2.self.classInfo = some 0 ∧
      ∀ i fd, 1 ≤ i → exV.data.vtbl[i]? = some (some (Dsymbol.func fd)) →
        (table[i]? = some (.nullValue (.funcPtr fd.type)) ↔
          (fd.isAbstract = true ∧ fd.fbody = false)) ∧
        (¬ (fd.isAbstract = true ∧ fd.fbody = false) → table[i]? = some (.func fd)) :=
  ⟨by decide, by decide, by decide, by decide,
    getVtblInit_slots exWorldV exV 0 ⟨[.classInfoPtr, .funcPtr 1, .funcPtr 2], 3⟩
      (by decide) (by decide) (by decide) (by decide)
      (by
        intro i h1 h2
        have h3 : i < 3 := h2
        have : i = 1 ∨ i = 2 := by omega
        rcases this with rfl | rfl
        · exact ⟨exImpl, by decide⟩
        · exact ⟨exAbstract, by decide⟩)⟩

/-! ## Interface vtables -/

/-- On a list of functions none of which is abstract without body, the loop of
`getInterfaceVtbl` appends the code address of each and hands each to `codegen`. -/
theorem interfaceVtblEntries_funcs (fds : List FuncDeclaration)
    (hfds : ∀ fd ∈ fds, fd.abstractNoBody = false) :
    ∀ (cs : List LLConstant) (w : World),
      interfaceVtblEntries (fds.map (fun fd => some (Dsymbol.func fd))) cs w
        = (.ok (cs ++ fds.map LLConstant.func),
            { w with codegenCalls := w.codegenCalls ++ fds.map (fun fd => fd.ident) }) := by
  induction fds with
  | nil => intro cs w; simp [interfaceVtblEntries]
  | cons fd rest ih =>
    intro cs w
    have hab : ¬ (fd.isAbstract && !fd.fbody) = true := by
      have := hfds fd (List.mem_cons_self _ _)
      simp only [FuncDeclaration.abstractNoBody] at this
      rw [this]
      simp
    simp only [List.map_cons, interfaceVtblEntries, Dsymbol.isFuncDeclaration]
    rw [if_neg hab, ih (fun x hx => hfds x (List.mem_cons_of_mem _ hx))]
    simp [World.codegen]

/-- The loop of `getInterfaceVtbl` completes only on such a list. -/
theorem interfaceVtblEntries_ok_funcs (l : List (Option Dsymbol)) :
    ∀ (cs t : List LLConstant) (w w1 : World), interfaceVtblEntries l cs w = (.ok t, w1) →
      ∃ fds : List FuncDeclaration, l = fds.map (fun fd => some (Dsymbol.func fd)) ∧
        ∀ fd ∈ fds, fd.abstractNoBody = false := by
  induction l with
  | nil => intro cs t w w1 _; exact ⟨[], rfl, fun _ h => (by cases h)⟩
  | cons e rest ih =>
    intro cs t w w1 h
    cases e with
    | none => simp [interfaceVtblEntries] at h
    | some dsym =>
      cases dsym with
      | other i => simp [interfaceVtblEntries, Dsymbol.isFuncDeclaration] at h
      | func fd =>
        simp only [interfaceVtblEntries, Dsymbol.isFuncDeclaration] at h
        split at h
        · cases h
        · rename_i hab
          obtain ⟨fds, hfds, hall⟩ := ih _ _ _ _ h
          refine ⟨fd :: fds, by rw [hfds]; rfl, ?_⟩
          intro x hx
          rcases List.mem_cons.1 hx with rfl | hx
          · simpa [FuncDeclaration.abstractNoBody] using hab
          · exact hall x hx

/-- What `getInterfaceVtbl` does when the search of the cache misses and the entries after
slot 0 of the filled list are the functions `fds`, none abstract without body. -/
theorem getInterfaceVtbl_build (w : World) (cd : ClassDeclaration) (b : BaseClass)
    (new_instance : Bool) (fds : List FuncDeclaration)
    (hcd : w.self.aggrdecl.isClassDeclaration = some cd)
    (hmiss : mapFind w.self.interfaceVtblMap cd.data.ident = none)
    (hfds : (b.fillVtbl new_instance).drop 1 = fds.map (fun fd => some (Dsymbol.func fd)))
    (hall : ∀ fd ∈ fds, fd.abstractNoBody = false) :
    getInterfaceVtbl w b new_instance
      = (.ok w.globals.length,
          { w with
            globals := w.globals ++
              [{ type := .structOf ((LLConstant.nullValue .voidPtr :: fds.map LLConstant.func).map
                    LLConstant.getType),
                 linkage := .dtoExternalLinkage,
                 init := some (.struct (.nullValue .voidPtr :: fds.map LLConstant.func)),
                 name := interfaceVtblName cd.data.mangle b.base.mangle,
                 parent := .module }]
            codegenCalls := w.codegenCalls ++ fds.map (fun fd => fd.ident)
            self := { w.self with
              interfaceVtblMap :=
                mapInsert w.self.interfaceVtblMap b.base.ident w.globals.length } }) := by
  unfold getInterfaceVtbl
  rw [hcd]
  dsimp only
  rw [hmiss]
  dsimp only
  rw [hfds, interfaceVtblEntries_funcs fds hall]
  rfl

/-- A completed `getInterfaceVtbl` whose search of the cache missed met only functions
that are not abstract without body after slot 0. -/
theorem getInterfaceVtbl_ok_inv (w : World) (cd : ClassDeclaration) (b : BaseClass)
    (new_instance : Bool) (g : LLGlobalVariable)
    (hcd : w.self.aggrdecl.isClassDeclaration = some cd)
    (hmiss : mapFind w.self.interfaceVtblMap cd.data.ident = none)
    (h : (getInterfaceVtbl w b new_instance).1 = .ok g) :
    ∃ fds : List FuncDeclaration,
      (b.fillVtbl new_instance).drop 1 = fds.map (fun fd => some (Dsymbol.func fd)) ∧
      ∀ fd ∈ fds, fd.abstractNoBody = false := by
  unfold getInterfaceVtbl at h
  rw [hcd] at h
  dsimp only at h
  rw [hmiss] at h
  dsimp only at h
  generalize hv : interfaceVtblEntries ((b.fillVtbl new_instance).drop 1)
    [.nullValue .voidPtr] w = r at h
  rcases r with ⟨e | t, w1⟩
  · cases h
  · exact interfaceVtblEntries_ok_funcs _ _ _ _ _ hv

/-- C7 (counterexample): for a conformance whose filled list is empty `getInterfaceVtbl`
succeeds and produces a table of one slot (the placeholder), not of the length 0 of the
list. -/
theorem getInterfaceVtbl_length_counterexample :
    (getInterfaceVtbl exWorldB exConfEmpty true).1 = .ok 0 ∧
    ((getInterfaceVtbl exWorldB exConfEmpty true).2.globals.map (fun gv => gv.init))
      = [some (.struct [.nullValue .voidPtr])] ∧
    (exConfEmpty.fillVtbl true).length = 0 ∧
    [LLConstant.nullValue .voidPtr].length ≠ (exConfEmpty.fillVtbl true).length := by
  decide

/-- C7 (amended): when the search of the cache misses, `getInterfaceVtbl` succeeds exactly
when every entry after slot 0 of the list filled for the conformance is a non-null
function that is not abstract without body; on success the initializer of the global it
returns is a table with the placeholder plus one slot per entry after slot 0 of the list
(as long as the list when the list is not empty, one slot when it is empty), slot 0 is
the null placeholder and every later slot `i` is the code address of entry `i` of the
list. -/
theorem getInterfaceVtbl_table (w : World) (cd : ClassDeclaration) (b : BaseClass)
    (new_instance : Bool)
    (hcd : w.self.aggrdecl.isClassDeclaration = some cd)
    (hmiss : mapFind w.self.interfaceVtblMap cd.data.ident = none) :
    ((∃ g, (getInterfaceVtbl w b new_instance).1 = .ok g) ↔
      ∀ e ∈ (b.fillVtbl new_instance).drop 1,
        ∃ fd, e = some (Dsymbol.func fd) ∧ ¬ (fd.isAbstract = true ∧ fd.fbody = false)) ∧
    (∀ g, (getInterfaceVtbl w b new_instance).1 = .ok g →
      ∃ (gv : GlobalVariable) (table : List LLConstant),
        (getInterfaceVtbl w b new_instance).2.globals[g]? = some gv ∧
        gv.init = some (.struct table) ∧
        table.length = 1 + ((b.fillVtbl new_instance).length - 1) ∧
        ((b.fillVtbl new_instance) ≠ [] → table.length = (b.fillVtbl new_instance).length) ∧
        table[0]? = some (.nullValue .voidPtr) ∧
        ∀ i, 1 ≤ i → i < table.length →
          ∃ fd, (b.fillVtbl new_instance)[i]? = some (some (Dsymbol.func fd)) ∧
            table[i]? = some (.func fd)) := by
  have hab : ∀ fd : FuncDeclaration,
      fd.abstractNoBody = false ↔ ¬ (fd.isAbstract = true ∧ fd.fbody = false) := by
    intro fd
    cases h1 : fd.isAbstract <;> cases h2 : fd.fbody <;>
      simp [FuncDeclaration.abstractNoBody, h1, h2]
  constructor
  · constructor
    · rintro ⟨g, hg⟩
      obtain ⟨fds, hfds, hall⟩ := getInterfaceVtbl_ok_inv w cd b new_instance g hcd hmiss hg
      intro e he
      rw [hfds] at he
      obtain ⟨fd, hfd, rfl⟩ := List.mem_map.1 he
      exact ⟨fd, rfl, (hab fd).1 (hall fd hfd)⟩
    · intro h
      obtain ⟨fds, hfds⟩ := exists_funcs _ (fun e he => (h e he).imp (fun _ hx => hx.1))
      have hall : ∀ fd ∈ fds, fd.abstractNoBody = false := by
        intro fd hfd
        have hmem : some (Dsymbol.func fd) ∈ (b.fillVtbl new_instance).drop 1 := by
          rw [hfds]; exact List.mem_map.2 ⟨fd, hfd, rfl⟩
        obtain ⟨fd1, h1, h2⟩ := h _ hmem
        simp only [Option.some.injEq, Dsymbol.func.injEq] at h1
        subst h1
        exact (hab fd).2 h2
      rw [getInterfaceVtbl_build w cd b new_instance fds hcd hmiss hfds hall]
      exact ⟨_, rfl⟩
  · intro g hg
    obtain ⟨fds, hfds, hall⟩ := getInterfaceVtbl_ok_inv w cd b new_instance g hcd hmiss hg
    rw [getInterfaceVtbl_build w cd b new_instance fds hcd hmiss hfds hall] at hg ⊢
    simp only [Except.ok.injEq] at hg
    subst hg
    have hlen : fds.length = (b.fillVtbl new_instance).length - 1 := by
      have := congrArg List.length hfds
      simpa using this.symm
    refine ⟨{ type := .structOf ((LLConstant.nullValue .voidPtr :: fds.map LLConstant.func).map
                    LLConstant.getType),
               linkage := .dtoExternalLinkage,
               init := some (.struct (.nullValue .voidPtr :: fds.map LLConstant.func)),
               name := interfaceVtblName cd.data.mangle b.base.mangle,
               parent := .module },
      .nullValue .voidPtr :: fds.map LLConstant.func, ?_, rfl, ?_, ?_,
      List.getElem?_cons_zero, ?_⟩
    · simp
    · simp only [List.length_cons, List.length_map]; omega
    · intro hne
      have : 0 < (b.fillVtbl new_instance).length := List.length_pos.2 hne
      simp only [List.length_cons, List.length_map]; omega
    · intro i hi hlt
      obtain ⟨j, rfl⟩ : ∃ j, i = j + 1 := ⟨i - 1, by omega⟩
      simp only [List.length_cons, List.length_map] at hlt
      have hj : j < fds.length := by omega
      refine ⟨fds[j], ?_, ?_⟩
      · have h1 : ((b.fillVtbl new_instance).drop 1)[j]? = some (some (Dsymbol.func fds[j])) := by
          rw [hfds, List.getElem?_map, List.getElem?_eq_getElem hj]
          rfl
        rw [List.getElem?_drop, Nat.add_comm] at h1
        exact h1
      · rw [List.getElem?_cons_succ, List.getElem?_map, List.getElem?_eq_getElem hj]
        rfl

/-- C7 (amended), at the class `B` freshly implementing the one-method interface `I`:
the table is the 2-slot `[null, &B.f]`. -/
theorem getInterfaceVtbl_table_witness :
    exWorldB.self.aggrdecl.isClassDeclaration = some exB ∧
    mapFind exWorldB.self.interfaceVtblMap exB.data.ident = none ∧
    (getInterfaceVtbl exWorldB exConf true).1 = .ok 0 ∧
    ((getInterfaceVtbl exWorldB exConf true).2.globals.map (fun gv => gv.init))
      = [some (.struct [.nullValue .voidPtr, .func exImpl])] ∧
    (((∃ g, (getInterfaceVtbl exWorldB exConf true).1 = .ok g) ↔
      ∀ e ∈ (exConf.fillVtbl true).drop 1,
        ∃ fd, e = some (Dsymbol.func fd) ∧ ¬ (fd.isAbstract = true ∧ fd.fbody = false)) ∧
    (∀ g, (getInterfaceVtbl exWorldB exConf true).1 = .ok g →
      ∃ (gv : GlobalVariable) (table : List LLConstant),
        (getInterfaceVtbl exWorldB exConf true).2.globals[g]? = some gv ∧
        gv.init = some (.struct table) ∧
        table.length = 1 + ((exConf.fillVtbl true).length - 1) ∧
        ((exConf.fillVtbl true) ≠ [] → table.length = (exConf.fillVtbl true).length) ∧
        table[0]? = some (.nullValue .voidPtr) ∧
        ∀ i, 1 ≤ i → i < table.length →
          ∃ fd, (exConf.fillVtbl true)[i]? = some (some (Dsymbol.func fd)) ∧
            table[i]? = some (.func fd))) :=
  ⟨by decide, by decide, by decide, by decide,
    getInterfaceVtbl_table exWorldB exB exConf true (by decide) (by decide)⟩

/-! ## Interfaces array -/

theorem InterfaceLoopFrame.idFrame (w : World) : InterfaceLoopFrame w w :=
  ⟨SameTarget.idTarget w, rfl, rfl, ⟨[], by simp⟩, fun _ s h1 => ⟨s, h1, rfl, rfl, fun _ h => h⟩⟩

theorem InterfaceLoopFrame.compose {w w1 w2 : World} (h : InterfaceLoopFrame w w1)
    (h1 : InterfaceLoopFrame w1 w2) : InterfaceLoopFrame w w2 := by
  refine ⟨h.target.andThen h1.target, h1.map.trans h.map, h1.arr.trans h.arr, ?_, ?_⟩
  · obtain ⟨gs, hgs⟩ := h.globals
    obtain ⟨gs1, hgs1⟩ := h1.globals
    exact ⟨gs ++ gs1, by rw [hgs1, hgs, List.append_assoc]⟩
  · intro ident s hs
    obtain ⟨s1, hs1, ht1, hd1, hc1⟩ := h.kept ident s hs
    obtain ⟨s2, hs2, ht2, hd2, hc2⟩ := h1.kept ident s1 hs1
    exact ⟨s2, hs2, ht2.trans ht1, hd2.trans hd1, fun c hc => hc2 c (hc1 c hc)⟩

theorem find_replace_same (l : List (Nat × IrStruct)) (ident : Nat) (s : IrStruct) :
    ((l.map (fun p => if p.1 = ident then (p.1, s) else p)).find?
        (fun p => p.1 = ident)).map Prod.snd
      = (l.find? (fun p => p.1 = ident)).map (fun _ => s) := by
  induction l with
  | nil => rfl
  | cons p rest ih =>
    rw [List.map_cons, List.find?_cons, List.find?_cons]
    by_cases hp : p.1 = ident
    · simp [hp]
    · rw [if_neg hp]
      simp only [hp, decide_False]
      exact ih

theorem find_replace_other (l : List (Nat × IrStruct)) (ident other : Nat) (s : IrStruct)
    (hne : other ≠ ident) :
    ((l.map (fun p => if p.1 = ident then (p.1, s) else p)).find?
        (fun p => p.1 = other)).map Prod.snd
      = (l.find? (fun p => p.1 = other)).map Prod.snd := by
  induction l with
  | nil => rfl
  | cons p rest ih =>
    rw [List.map_cons, List.find?_cons, List.find?_cons]
    by_cases hp : p.1 = ident
    · have hpo : ¬ p.1 = other := fun h => hne (h.symm.trans hp)
      rw [if_pos hp]
      simp only [hpo, decide_False]
      exact ih
    · rw [if_neg hp]
      by_cases hpo : p.1 = other
      · simp only [hpo, decide_True]
      · simp only [hpo, decide_False]
        exact ih

/-- Storing a context that has the declaration of the one stored before makes it the
context of that aggregate. -/
theorem irStructOf_setIrStruct_same (w : World) (ident : Nat) (s s1 : IrStruct)
    (h : w.irStructOf ident = some s) (hd : s1.aggrdecl = s.aggrdecl) :
    (w.setIrStruct ident s1).irStructOf ident = some s1 := by
  unfold World.irStructOf World.setIrStruct at *
  by_cases hself : w.self.aggrdecl.ident = ident
  · rw [if_pos hself] at h ⊢
    simp only [Option.some.injEq] at h
    subst h
    dsimp only
    rw [hd, if_pos hself]
  · rw [if_neg hself] at h ⊢
    dsimp only
    rw [if_neg hself, find_replace_same]
    cases hf : w.irStructs.find? (fun p => p.1 = ident) with
    | none => rw [hf] at h; cases h
    | some x => rfl

/-- Storing a context leaves the contexts of the other aggregates alone. -/
theorem irStructOf_setIrStruct_other (w : World) (ident other : Nat) (s s1 : IrStruct)
    (h : w.irStructOf ident = some s) (hd : s1.aggrdecl = s.aggrdecl) (hne : other ≠ ident) :
    (w.setIrStruct ident s1).irStructOf other = w.irStructOf other := by
  unfold World.irStructOf World.setIrStruct at *
  by_cases hself : w.self.aggrdecl.ident = ident
  · rw [if_pos hself] at h ⊢
    simp only [Option.some.injEq] at h
    subst h
    dsimp only
    rw [hd]
    have : ¬ w.self.aggrdecl.ident = other := fun hh => hne (hh.symm.trans hself)
    rw [if_neg this, if_neg this]
  · rw [if_neg hself] at h ⊢
    dsimp only
    by_cases hso : w.self.aggrdecl.ident = other
    · rw [if_pos hso, if_pos hso]
    · rw [if_neg hso, if_neg hso, find_replace_other _ _ _ _ hne]

/-- A completed `getClassInfoSymbol` on the context `s`: `s` now holds the symbol, the
globals grew at the end, and a symbol held before is the one returned. -/
theorem getClassInfoSymbolOn_ok (s s1 : IrStruct) (w w1 : World) (ci : LLGlobalVariable)
    (h : getClassInfoSymbolOn s w = (.ok ci, s1, w1)) :
    s1 = { s with classInfo := some ci } ∧
    (∃ gs, w1 = { w with globals := w.globals ++ gs }) ∧
    (∀ c, s.classInfo = some c → ci = c) := by
  unfold getClassInfoSymbolOn at h
  split at h
  · rename_i g hg
    simp only [Prod.mk.injEq, Except.ok.injEq] at h
    obtain ⟨rfl, rfl, rfl⟩ := h
    refine ⟨?_, ⟨[], by simp⟩, fun c hc => ?_⟩
    · cases s
      simp only at hg
      subst hg
      rfl
    · rw [hg] at hc
      exact Option.some.inj hc
  · rename_i hg
    dsimp only at h
    split at h
    · simp only [World.newGlobal, Prod.mk.injEq, Except.ok.injEq] at h
      obtain ⟨rfl, rfl, rfl⟩ := h
      exact ⟨rfl, ⟨_, rfl⟩, fun c hc => by rw [hg] at hc; cases hc⟩
    · cases h

/-- `getClassInfoSymbol` on a context completes when the ClassInfo type is a class type. -/
theorem getClassInfoSymbolOn_total (s : IrStruct) (w : World) (hc : w.classinfoIsClass = true) :
    ∃ ci s1 w1, getClassInfoSymbolOn s w = (.ok ci, s1, w1) := by
  unfold getClassInfoSymbolOn
  split
  · exact ⟨_, _, _, rfl⟩
  · dsimp only
    rw [if_pos hc]
    exact ⟨_, _, _, rfl⟩

/-- One iteration of the loop of `getClassInfoInterfaces`, as far as the state goes. -/
theorem interfaceEntries_step (w w1 : World) (ident : Nat) (irinter irinter1 : IrStruct)
    (ci : LLGlobalVariable)
    (hs : w.irStructOf ident = some irinter)
    (h : getClassInfoSymbolOn irinter w = (.ok ci, irinter1, w1)) :
    InterfaceLoopFrame w (w1.setIrStruct ident irinter1) ∧
    (w1.setIrStruct ident irinter1).irStructOf ident = some irinter1 ∧
    irinter1.classInfo = some ci ∧ irinter1.irtypeClass = irinter.irtypeClass := by
  obtain ⟨h1, ⟨gs, h2⟩, h3⟩ := getClassInfoSymbolOn_ok _ _ _ _ _ h
  have hs1 : w1.irStructOf ident = some irinter := by
    rw [h2]; exact hs
  have hd : irinter1.aggrdecl = irinter.aggrdecl := by rw [h1]
  have hsame := irStructOf_setIrStruct_same w1 ident irinter irinter1 hs1 hd
  refine ⟨⟨?_, ?_, ?_, ?_, ?_⟩, hsame, by rw [h1], by rw [h1]⟩
  · unfold World.setIrStruct
    unfold World.irStructOf at hs
    split
    · rename_i hself
      have hself1 : w.self.aggrdecl.ident = ident := by rw [h2] at hself; exact hself
      rw [if_pos hself1] at hs
      simp only [Option.some.injEq] at hs
      subst hs
      subst h1
      subst h2
      exact ⟨rfl, rfl, rfl, rfl, rfl, rfl⟩
    · subst h2
      exact ⟨rfl, rfl, rfl, rfl, rfl, rfl⟩
  · unfold World.setIrStruct
    unfold World.irStructOf at hs
    split
    · rename_i hself
      have hself1 : w.self.aggrdecl.ident = ident := by rw [h2] at hself; exact hself
      rw [if_pos hself1] at hs
      simp only [Option.some.injEq] at hs
      subst hs
      subst h1
      subst h2
      rfl
    · subst h2
      rfl
  · unfold World.setIrStruct
    unfold World.irStructOf at hs
    split
    · rename_i hself
      have hself1 : w.self.aggrdecl.ident = ident := by rw [h2] at hself; exact hself
      rw [if_pos hself1] at hs
      simp only [Option.some.injEq] at hs
      subst hs
      subst h1
      subst h2
      rfl
    · subst h2
      rfl
  · refine ⟨gs, ?_⟩
    unfold World.setIrStruct
    split <;> (subst h2; rfl)
  · intro other s hso
    by_cases hne : other = ident
    · subst hne
      rw [hs] at hso
      simp only [Option.some.injEq] at hso
      subst hso
      refine ⟨irinter1, hsame, by rw [h1], hd, fun c hc => ?_⟩
      rw [h1]
      dsimp only
      rw [h3 c hc]
    · have hso1 : w1.irStructOf other = some s := by rw [h2]; exact hso
      refine ⟨s, ?_, rfl, rfl, fun _ hc => hc⟩
      rw [irStructOf_setIrStruct_other w1 ident other irinter irinter1 hs1 hd hne]
      exact hso1

/-- A completed loop of `getClassInfoInterfaces` appended one descriptor per conformance,
in order: descriptor `j` carries the ClassInfo symbol the context of interface `j` holds
afterwards, the vtable size of that interface, the global the cache of `this` holds for
the interface, and the offset recorded in conformance `j`. -/
theorem interfaceEntries_ok (l : List BaseClass) :
    ∀ (cs es : List InterfaceEntry) (w w1 : World),
      interfaceEntries l cs w = (.ok es, w1) →
      InterfaceLoopFrame w w1 ∧
      ∃ es1 : List InterfaceEntry, es = cs ++ es1 ∧ es1.length = l.length ∧
        ∀ (j : Nat) (it : BaseClass), l[j]? = some it →
          ∃ (e : InterfaceEntry) (s : IrStruct) (itc : IrTypeClass),
            es1[j]? = some e ∧ e.offset = it.offset ∧
            w1.irStructOf it.base.ident = some s ∧ s.classInfo = some e.classinfo ∧
            s.irtypeClass = some itc ∧ e.vtblLen = itc.vtblSize ∧
            mapFind w.self.interfaceVtblMap it.base.ident = some e.vtbl := by
  induction l with
  | nil =>
    intro cs es w w1 h
    simp only [interfaceEntries, Prod.mk.injEq, Except.ok.injEq] at h
    obtain ⟨rfl, rfl⟩ := h
    exact ⟨InterfaceLoopFrame.idFrame w, [], by simp, rfl, fun j it hj => (by cases hj)⟩
  | cons it rest ih =>
    intro cs es w w1 h
    unfold interfaceEntries at h
    cases hs : w.irStructOf it.base.ident with
    | none => rw [hs] at h; cases h
    | some irinter =>
      rw [hs] at h
      dsimp only at h
      cases hitc : irinter.irtypeClass with
      | none => rw [hitc] at h; cases h
      | some itc =>
        rw [hitc] at h
        dsimp only at h
        generalize hg : getClassInfoSymbolOn irinter w = r at h
        rcases r with ⟨e | ci, irinter1, w2⟩
        · cases h
        · dsimp only at h
          obtain ⟨hfr, hsame, hci, hty⟩ := interfaceEntries_step w w2 _ irinter irinter1 ci hs hg
          cases hm : mapFind (w2.setIrStruct it.base.ident irinter1).self.interfaceVtblMap
              it.base.ident with
          | none => rw [hm] at h; cases h
          | some vtb =>
            rw [hm] at h
            dsimp only at h
            obtain ⟨hfr1, es1, hes, hlen, hall⟩ := ih _ _ _ _ h
            refine ⟨hfr.compose hfr1,
              { classinfo := ci, vtblLen := itc.vtblSize, vtbl := vtb, offset := it.offset }
                :: es1,
              by rw [hes]; simp, by simp [hlen], ?_⟩
            intro j x hj
            cases j with
            | zero =>
              simp only [List.getElem?_cons_zero, Option.some.injEq] at hj
              subst hj
              obtain ⟨s1, hs1, ht1, -, hc1⟩ := hfr1.kept _ _ hsame
              refine ⟨_, s1, itc, List.getElem?_cons_zero, rfl, hs1, hc1 ci hci, ?_, rfl, ?_⟩
              · rw [ht1, hty, hitc]
              · rw [← hfr.map]; exact hm
            | succ k =>
              rw [List.getElem?_cons_succ] at hj
              obtain ⟨e, s1, itc1, h1, h2, h3, h4, h5, h6, h7⟩ := hall k x hj
              refine ⟨e, s1, itc1, by rw [List.getElem?_cons_succ]; exact h1, h2, h3, h4, h5,
                h6, ?_⟩
              rw [← hfr.map]; exact h7

/-- The loop of `getClassInfoInterfaces` completes when the ClassInfo type is a class
type, every interface has a context lowered to a class type, and the cache of `this`
holds a global for every interface. -/
theorem interfaceEntries_total (l : List BaseClass) :
    ∀ (cs : List InterfaceEntry) (w : World), w.classinfoIsClass = true →
      (∀ it ∈ l, ∃ s itc, w.irStructOf it.base.ident = some s ∧ s.irtypeClass = some itc) →
      (∀ it ∈ l, ∃ vtb, mapFind w.self.interfaceVtblMap it.base.ident = some vtb) →
      ∃ es w1, interfaceEntries l cs w = (.ok es, w1) := by
  induction l with
  | nil => intro cs w _ _ _; exact ⟨cs, w, rfl⟩
  | cons it rest ih =>
    intro cs w hc hirs hmap
    obtain ⟨irinter, itc, hs, hitc⟩ := hirs it (List.mem_cons_self _ _)
    obtain ⟨vtb, hvtb⟩ := hmap it (List.mem_cons_self _ _)
    obtain ⟨ci, irinter1, w2, hg⟩ := getClassInfoSymbolOn_total irinter w hc
    obtain ⟨hfr, hsame, hci, hty⟩ := interfaceEntries_step w w2 _ irinter irinter1 ci hs hg
    unfold interfaceEntries
    rw [hs]
    dsimp only
    rw [hitc]
    dsimp only
    rw [hg]
    dsimp only
    rw [hfr.map, hvtb]
    dsimp only
    apply ih
    · rw [hfr.target.classinfoIsClass]; exact hc
    · intro x hx
      obtain ⟨s, tc, h1, h2⟩ := hirs x (List.mem_cons_of_mem _ hx)
      obtain ⟨s1, hs1, ht1, -, -⟩ := hfr.kept _ _ h1
      exact ⟨s1, tc, hs1, by rw [ht1, h2]⟩
    · intro x hx
      rw [hfr.map]
      exact hmap x (List.mem_cons_of_mem _ hx)

theorem setInitializer_get (init : Initializer) :
    ∀ (globals : List GlobalVariable) (g : LLGlobalVariable), g < globals.length →
      ∃ gv, (setInitializer globals g init)[g]? = some gv ∧ gv.init = some init := by
  intro globals
  induction globals with
  | nil => intro g hg; simp at hg
  | cons gv rest ih =>
    intro g hg
    cases g with
    | zero => exact ⟨{ gv with init := some init }, by simp [setInitializer], rfl⟩
    | succ n =>
      obtain ⟨x, hx, hi⟩ := ih n (by simpa using hg)
      exact ⟨x, by simpa [setInitializer] using hx, hi⟩

/-- A completed `getClassInfoInterfaces` of a class with at least one interface ran the
loop and applied the initializer to the global held in `classInterfacesArray`. -/
theorem getClassInfoInterfaces_ok_inv (w : World) (cd : ClassDeclaration)
    (ifaces : List BaseClass) (r : SliceConstant)
    (hcd : w.self.aggrdecl.isClassDeclaration = some cd)
    (hif : cd.data.vtblInterfaces = some ifaces) (hne : ifaces ≠ [])
    (h : (getClassInfoInterfaces w).1 = .ok r) :
    ∃ (es : List InterfaceEntry) (w1 : World) (arr : LLGlobalVariable),
      interfaceEntries ifaces [] w = (.ok es, w1) ∧
      w1.self.classInterfacesArray = some arr ∧
      r = .slice ifaces.length arr ∧
      (getClassInfoInterfaces w).2
        = { w1 with globals := setInitializer w1.globals arr (.array es) } := by
  unfold getClassInfoInterfaces at h ⊢
  rw [hcd] at h ⊢
  dsimp only at h ⊢
  rw [hif] at h ⊢
  cases ifaces with
  | nil => exact absurd rfl hne
  | cons i rest =>
    dsimp only at h ⊢
    cases hty : w.self.irtypeClass with
    | none => rw [hty] at h; cases h
    | some tc =>
      rw [hty] at h
      dsimp only at h ⊢
      generalize interfaceEntries (i :: rest) [] w = x at h
      rcases x with ⟨e | es, w1⟩
      · cases h
      · dsimp only at h ⊢
        cases harr : w1.self.classInterfacesArray with
        | none => rw [harr] at h; cases h
        | some arr =>
          rw [harr] at h
          simp only [Except.ok.injEq] at h
          exact ⟨es, w1, arr, rfl, harr, h.symm, rfl⟩

/-- C8: for a class whose `cd->vtblInterfaces` is `I1..Ik`, `getClassInfoInterfaces`
returns the null slice when the list is null or empty; whenever it returns for `k > 0`
the value is a slice of length `k` over the global held in `classInterfacesArray`, whose
initializer is then an array of exactly `k` descriptors in the order `I1..Ik`, descriptor
`j` carrying the ClassInfo symbol of `Ij` and the offset recorded in conformance `j`;
and it does return when the ClassInfo type is a class type, `this` is lowered to a class
type, the array symbol has been declared, every `Ij` has a context lowered to a class
type and the cache of `this` holds a vtable for every `Ij`. -/
theorem getClassInfoInterfaces_descriptors (w : World) (cd : ClassDeclaration)
    (hcd : w.self.aggrdecl.isClassDeclaration = some cd) :
    ((cd.data.vtblInterfaces = none ∨ cd.data.vtblInterfaces = some []) →
      getClassInfoInterfaces w = (.ok .null, w)) ∧
    (∀ (ifaces : List BaseClass) (r : SliceConstant),
      cd.data.vtblInterfaces = some ifaces → ifaces ≠ [] →
      (getClassInfoInterfaces w).1 = .ok r →
      ∃ (arr : LLGlobalVariable) (entries : List InterfaceEntry),
        r = .slice ifaces.length arr ∧
        w.self.classInterfacesArray = some arr ∧
        (arr < w.globals.length →
          ∃ gv, (getClassInfoInterfaces w).2.globals[arr]? = some gv ∧
            gv.init = some (.array entries)) ∧
        entries.length = ifaces.length ∧
        ∀ (j : Nat) (it : BaseClass), ifaces[j]? = some it →
          ∃ (e : InterfaceEntry) (s : IrStruct),
            entries[j]? = some e ∧ e.offset = it.offset ∧
            (getClassInfoInterfaces w).2.irStructOf it.base.ident = some s ∧
            s.classInfo = some e.classinfo) ∧
    (∀ (ifaces : List BaseClass) (arr : LLGlobalVariable) (tc : IrTypeClass),
      cd.data.vtblInterfaces = some ifaces → ifaces ≠ [] →
      w.classinfoIsClass = true → w.self.irtypeClass = some tc →
      w.self.classInterfacesArray = some arr →
      (∀ it ∈ ifaces, ∃ s itc, w.irStructOf it.base.ident = some s ∧
        s.irtypeClass = some itc) →
      (∀ it ∈ ifaces, ∃ vtb, mapFind w.self.interfaceVtblMap it.base.ident = some vtb) →
      (getClassInfoInterfaces w).1 = .ok (.slice ifaces.length arr)) := by
  refine ⟨?_, ?_, ?_⟩
  · intro h
    unfold getClassInfoInterfaces
    rw [hcd]
    dsimp only
    rcases h with h | h <;> rw [h]
  · intro ifaces r hif hne h
    obtain ⟨es, w1, arr, hloop, harr, hr, hw⟩ :=
      getClassInfoInterfaces_ok_inv w cd ifaces r hcd hif hne h
    obtain ⟨hfr, es1, hes, hlen, hall⟩ := interfaceEntries_ok ifaces [] es w w1 hloop
    rw [List.nil_append] at hes
    subst hes
    refine ⟨arr, es, hr, by rw [← hfr.arr]; exact harr, ?_, hlen, ?_⟩
    · intro hlt
      rw [hw]
      obtain ⟨gs, hgs⟩ := hfr.globals
      have hlt1 : arr < w1.globals.length := by
        rw [hgs, List.length_append]
        exact Nat.lt_of_lt_of_le hlt (Nat.le_add_right _ _)
      exact setInitializer_get _ _ _ hlt1
    · intro j it hj
      obtain ⟨e, s, itc, h1, h2, h3, h4, -, -, -⟩ := hall j it hj
      refine ⟨e, s, h1, h2, ?_, h4⟩
      rw [hw]
      exact h3
  · intro ifaces arr tc hif hne hc hty harr hirs hmap
    obtain ⟨es, w1, hloop⟩ := interfaceEntries_total ifaces [] w hc hirs hmap
    obtain ⟨hfr, -⟩ := interfaceEntries_ok ifaces [] es w w1 hloop
    unfold getClassInfoInterfaces
    rw [hcd]
    dsimp only
    rw [hif]
    cases ifaces with
    | nil => exact absurd rfl hne
    | cons i rest =>
      dsimp only
      rw [hty]
      dsimp only
      rw [hloop]
      dsimp only
      rw [hfr.arr, harr]

/-- C8, at the class `B : I` after its default initializer was built and its array
symbol declared: the call returns the slice of length 1 over global 2, whose initializer
becomes the one descriptor of `I` with the offset 8 of the conformance. -/
theorem getClassInfoInterfaces_descriptors_witness :
    exWorldBIReady.self.aggrdecl.isClassDeclaration = some exB ∧
    (getClassInfoInterfaces exWorldBIReady).1 = .ok (.slice 1 2) ∧
    ((getClassInfoInterfaces exWorldBIReady).2.globals[2]?).map (fun gv => gv.init)
      = some (some (.array [{ classinfo := 3, vtblLen := 2, vtbl := 1, offset := 8 }])) ∧
    (((exB.data.vtblInterfaces = none ∨ exB.data.vtblInterfaces = some []) →
      getClassInfoInterfaces exWorldBIReady = (.ok .null, exWorldBIReady)) ∧
    (∀ (ifaces : List BaseClass) (r : SliceConstant),
      exB.data.vtblInterfaces = some ifaces → ifaces ≠ [] →
      (getClassInfoInterfaces exWorldBIReady).1 = .ok r →
      ∃ (arr : LLGlobalVariable) (entries : List InterfaceEntry),
        r = .slice ifaces.length arr ∧
        exWorldBIReady.self.classInterfacesArray = some arr ∧
        (arr < exWorldBIReady.globals.length →
          ∃ gv, (getClassInfoInterfaces exWorldBIReady).2.globals[arr]? = some gv ∧
            gv.init = some (.array entries)) ∧
        entries.length = ifaces.length ∧
        ∀ (j : Nat) (it : BaseClass), ifaces[j]? = some it →
          ∃ (e : InterfaceEntry) (s : IrStruct),
            entries[j]? = some e ∧ e.offset = it.offset ∧
            (getClassInfoInterfaces exWorldBIReady).2.irStructOf it.base.ident = some s ∧
            s.classInfo = some e.classinfo) ∧
    (∀ (ifaces : List BaseClass) (arr : LLGlobalVariable) (tc : IrTypeClass),
      exB.data.vtblInterfaces = some ifaces → ifaces ≠ [] →
      exWorldBIReady.classinfoIsClass = true → exWorldBIReady.self.irtypeClass = some tc →
      exWorldBIReady.self.classInterfacesArray = some arr →
      (∀ it ∈ ifaces, ∃ s itc, exWorldBIReady.irStructOf it.base.ident = some s ∧
        s.irtypeClass = some itc) →
      (∀ it ∈ ifaces, ∃ vtb,
        mapFind exWorldBIReady.self.interfaceVtblMap it.base.ident = some vtb) →
      (getClassInfoInterfaces exWorldBIReady).1 = .ok (.slice ifaces.length arr))) :=
  ⟨by decide, by decide, by decide,
    getClassInfoInterfaces_descriptors exWorldBIReady exB (by decide)⟩

/-! ## Interface slots of the image -/

/-- The loop of `getVtblInit` changes nothing but the list of `codegen` requests, and
its failures are the two assertions of its body. -/
theorem vtblEntries_frame (l : List (Option Dsymbol)) :
    ∀ (cs : List LLConstant) (w : World),
      (∃ calls, (vtblEntries l cs w).2 = { w with codegenCalls := w.codegenCalls ++ calls }) ∧
      (∀ e, (vtblEntries l cs w).1 = .error e →
        e = .nullVtblMember ∨ e = .vtblEntryNotAFunction) := by
  induction l with
  | nil => intro cs w; exact ⟨⟨[], by simp [vtblEntries]⟩, fun e h => by cases h⟩
  | cons x rest ih =>
    intro cs w
    cases x with
    | none =>
      refine ⟨⟨[], by simp [vtblEntries]⟩, fun e h => ?_⟩
      simp only [vtblEntries, Except.error.injEq] at h
      exact Or.inl h.symm
    | some dsym =>
      cases dsym with
      | other i =>
        refine ⟨⟨[], by simp [vtblEntries, Dsymbol.isFuncDeclaration]⟩, fun e h => ?_⟩
        simp only [vtblEntries, Dsymbol.isFuncDeclaration, Except.error.injEq] at h
        exact Or.inr h.symm
      | func fd =>
        simp only [vtblEntries, Dsymbol.isFuncDeclaration]
        split
        · exact ih _ w
        · obtain ⟨⟨calls, hcalls⟩, herr⟩ := ih (cs ++ [.func fd]) (w.codegen fd)
          refine ⟨⟨fd.ident :: calls, ?_⟩, herr⟩
          rw [hcalls]
          simp [World.codegen]

theorem getClassInfoSymbol_error (w : World) (e : Failure)
    (h : (getClassInfoSymbol w).1 = .error e) : e = .invalidClassInfoType := by
  unfold getClassInfoSymbol getClassInfoSymbolOn at h
  dsimp only at h
  split at h
  · cases h
  · split at h
    · cases h
    · simp only [Except.error.injEq] at h
      exact h.symm



/-- C10 (counterexample): with a declared vtable type of one element, `getVtblInit` on
`B` fails with "vtbl initializer type mismatch", and in the state reached `constVtbl`
holds the mismatching two-slot table; a request made on that state returns it. -/
theorem getVtblInit_mismatch_counterexample :
    (getVtblInit exWorldMismatch).1 = .error .vtblInitializerTypeMismatch ∧
    (getVtblInit exWorldMismatch).2.self.constVtbl
      = some [.bitcast 0 .classInfoPtr, .func exImpl] ∧
    (getVtblInit (getVtblInit exWorldMismatch).2).1
      = .ok [.bitcast 0 .classInfoPtr, .func exImpl] ∧
    (getVtblInit exWorldMismatch).2.self.constVtbl ≠ none := by
  decide

/-- C10 (amended): when `getVtblInit` fails with "vtbl initializer type mismatch", the
member `constVtbl` already holds the mismatching table (it is assigned at line 150,
before the comparison of line 158), and a request made on that state would return it;
and whenever `getInterfaceVtbl` fails, `interfaceVtblMap` is as it was before the
call. -/
theorem getVtblInit_mismatch_table_assigned (w : World)
    (h : (getVtblInit w).1 = .error .vtblInitializerTypeMismatch) :
    (∃ (table : List LLConstant) (tc : IrTypeClass),
      w.self.constVtbl = none ∧
      (getVtblInit w).2.self.constVtbl = some table ∧
      w.self.irtypeClass = some tc ∧ table.map LLConstant.getType ≠ tc.vtblTy ∧
      (getVtblInit (getVtblInit w).2).1 = .ok table) ∧
    (∀ (w2 : World) (b : BaseClass) (new_instance : Bool) (e : Failure),
      (getInterfaceVtbl w2 b new_instance).1 = .error e →
      (getInterfaceVtbl w2 b new_instance).2.self.interfaceVtblMap
        = w2.self.interfaceVtblMap) := by
  constructor
  · have hs := getClassInfoSymbol_sameTarget w
    have hce := getClassInfoSymbol_error w
    unfold getVtblInit at h ⊢
    cases hcv : w.self.constVtbl with
    | some c => rw [hcv] at h; cases h
    | none =>
      rw [hcv] at h
      dsimp only at h ⊢
      cases hcd : w.self.aggrdecl.isClassDeclaration with
      | none => rw [hcd] at h; cases h
      | some cd =>
        rw [hcd] at h
        dsimp only at h ⊢
        generalize getClassInfoSymbol w = r at h hs hce
        rcases r with ⟨e | ci, w1⟩
        · dsimp only at h
          have := hce e rfl
          subst this
          cases h
        · dsimp only at h hs ⊢
          obtain ⟨⟨calls, hcalls⟩, herr⟩ :=
            vtblEntries_frame (cd.data.vtbl.drop 1) [.bitcast ci .classInfoPtr] w1
          generalize vtblEntries (cd.data.vtbl.drop 1) [.bitcast ci .classInfoPtr] w1 = x
            at h hcalls herr
          rcases x with ⟨e | t, w2⟩
          · dsimp only at h
            rcases herr e rfl with he | he <;> (subst he; cases h)
          · dsimp only at h hcalls ⊢
            subst hcalls
            dsimp only at h ⊢
            rw [hs.irtypeClass] at h ⊢
            cases hty : w.self.irtypeClass with
            | none => rw [hty] at h; cases h
            | some tc =>
              rw [hty] at h
              dsimp only at h ⊢
              split at h
              · cases h
              · rename_i hne
                rw [if_neg hne]
                exact ⟨t, tc, rfl, rfl, rfl, hne, rfl⟩
  · intro w2 b n e he
    unfold getInterfaceVtbl at he ⊢
    split
    · rfl
    · split
      · rfl
      · obtain ⟨calls, hcalls⟩ :=
          interfaceVtblEntries_frame ((b.fillVtbl n).drop 1) [.nullValue .voidPtr] w2
        rename_i cd hcd _ hmiss
        rw [hcd] at he
        dsimp only at he
        rw [hmiss] at he
        dsimp only at he ⊢
        generalize interfaceVtblEntries ((b.fillVtbl n).drop 1) [.nullValue .voidPtr] w2 = r
          at he hcalls
        rcases r with ⟨e1 | cs, w3⟩
        · dsimp only at hcalls ⊢
          rw [hcalls]
        · cases he

/-- C10 (amended), at the class `B` with a one-element declared vtable type, and at a
conformance of `B` with a null entry: `getVtblInit` fails after assigning `constVtbl`;
`getInterfaceVtbl` fails with "null vtbl member" after handing `B.f` to `codegen` and
leaves the cache empty. -/
theorem getVtblInit_mismatch_table_assigned_witness :
    (getVtblInit exWorldMismatch).1 = .error .vtblInitializerTypeMismatch ∧
    (getInterfaceVtbl exWorldB exConfMissing true).1 = .error .nullVtblMember ∧
    (getInterfaceVtbl exWorldB exConfMissing true).2.codegenCalls = [exImpl.ident] ∧
    (getInterfaceVtbl exWorldB exConfMissing true).2.self.interfaceVtblMap = [] ∧
    ((∃ (table : List LLConstant) (tc : IrTypeClass),
      exWorldMismatch.self.constVtbl = none ∧
      (getVtblInit exWorldMismatch).2.self.constVtbl = some table ∧
      exWorldMismatch.self.irtypeClass = some tc ∧
      table.map LLConstant.getType ≠ tc.vtblTy ∧
      (getVtblInit (getVtblInit exWorldMismatch).2).1 = .ok table) ∧
    (∀ (w2 : World) (b : BaseClass) (new_instance : Bool) (e : Failure),
      (getInterfaceVtbl w2 b new_instance).1 = .error e →
      (getInterfaceVtbl w2 b new_instance).2.self.interfaceVtblMap
        = w2.self.interfaceVtblMap)) :=
  ⟨by decide, by decide, by decide, by decide,
    getVtblInit_mismatch_table_assigned exWorldMismatch (by decide)⟩

/-! ## The cache of interface vtables is never hit -/

theorem mapFind_append (m : List (Nat × LLGlobalVariable)) (k key : Nat) (g : LLGlobalVariable)
    (hm : mapFind m key = none) (hne : k ≠ key) : mapFind (m ++ [(k, g)]) key = none := by
  induction m with
  | nil => simp [mapFind, hne]
  | cons p rest ih =>
    obtain ⟨k1, v1⟩ := p
    simp only [mapFind, List.cons_append] at hm ⊢
    split at hm
    · cases hm
    · rename_i hk
      rw [if_neg hk]
      exact ih hm

theorem mapFind_mapInsert_other (m : List (Nat × LLGlobalVariable)) (k key : Nat)
    (g : LLGlobalVariable) (hm : mapFind m key = none) (hne : k ≠ key) :
    mapFind (mapInsert m k g) key = none := by
  unfold mapInsert
  split
  · exact hm
  · exact mapFind_append m k key g hm hne

/-- Whenever a first `getInterfaceVtbl(b, n)` builds a table for a conformance whose
interface is not the class itself, the same request repeated on the resulting state
misses the cache again and returns the next, newly created global. -/
theorem getInterfaceVtbl_repeated_request_rebuilds (w : World) (cd : ClassDeclaration)
    (b : BaseClass) (n : Bool) (g : LLGlobalVariable)
    (hcd : w.self.aggrdecl.isClassDeclaration = some cd)
    (hmiss : mapFind w.self.interfaceVtblMap cd.data.ident = none)
    (hne : b.base.ident ≠ cd.data.ident)
    (h : (getInterfaceVtbl w b n).1 = .ok g) :
    (getInterfaceVtbl (getInterfaceVtbl w b n).2 b n).1 = .ok (g + 1) ∧
    (getInterfaceVtbl (getInterfaceVtbl w b n).2 b n).2.globals.length
      = w.globals.length + 2 := by
  obtain ⟨fds, hfds, hall⟩ := getInterfaceVtbl_ok_inv w cd b n g hcd hmiss h
  have h1 := getInterfaceVtbl_build w cd b n fds hcd hmiss hfds hall
  have hcd1 : (getInterfaceVtbl w b n).2.self.aggrdecl.isClassDeclaration = some cd := by
    rw [(getInterfaceVtbl_sameTarget w b n).aggrdecl]; exact hcd
  have hmiss1 : mapFind (getInterfaceVtbl w b n).2.self.interfaceVtblMap cd.data.ident
      = none := by
    rw [h1]; exact mapFind_mapInsert_other _ _ _ _ hmiss hne
  have hg : g = w.globals.length := by
    rw [h1] at h
    exact (Except.ok.inj h).symm
  have hlen : (getInterfaceVtbl w b n).2.globals.length = w.globals.length + 1 := by
    rw [h1]; simp
  rw [getInterfaceVtbl_build _ cd b n fds hcd1 hmiss1 hfds hall]
  dsimp only
  rw [hlen, hg]
  simp only [List.length_append, List.length_singleton, hlen, and_self]

/-! ## Repeated requests of the primary vtable and of the symbols -/

/-- A completed `getVtblInit` leaves the table it returns in `constVtbl`. -/
theorem getVtblInit_ok_cached (w : World) (t : List LLConstant)
    (h : (getVtblInit w).1 = .ok t) : (getVtblInit w).2.self.constVtbl = some t := by
  unfold getVtblInit at h ⊢
  cases hcv : w.self.constVtbl with
  | some c =>
    rw [hcv] at h
    simp only [Except.ok.injEq] at h
    subst h
    exact hcv
  | none =>
    rw [hcv] at h
    dsimp only at h ⊢
    cases hcd : w.self.aggrdecl.isClassDeclaration with
    | none => rw [hcd] at h; cases h
    | some cd =>
      rw [hcd] at h
      dsimp only at h ⊢
      generalize getClassInfoSymbol w = r at h
      rcases r with ⟨e | ci, w1⟩
      · cases h
      · dsimp only at h ⊢
        generalize vtblEntries (cd.data.vtbl.drop 1) [.bitcast ci .classInfoPtr] w1 = x at h
        rcases x with ⟨e | cs, w2⟩
        · cases h
        · dsimp only at h ⊢
          cases hty : w2.self.irtypeClass with
          | none => rw [hty] at h; cases h
          | some tc =>
            rw [hty] at h
            dsimp only at h ⊢
            split at h
            · rename_i heq
              rw [if_pos heq]
              simp only [Except.ok.injEq] at h
              subst h
              rfl
            · cases h

/-- A completed `getVtblSymbol` leaves the global it returns in `vtbl`. -/
theorem getVtblSymbol_ok_cached (w : World) (g : LLGlobalVariable)
    (h : (getVtblSymbol w).1 = .ok g) : (getVtblSymbol w).2.self.vtbl = some g := by
  unfold getVtblSymbol at h ⊢
  cases hv : w.self.vtbl with
  | some c =>
    rw [hv] at h
    simp only [Except.ok.injEq] at h
    subst h
    exact hv
  | none =>
    rw [hv] at h
    dsimp only at h ⊢
    cases hty : w.self.irtypeClass with
    | none => rw [hty] at h; cases h
    | some tc =>
      rw [hty] at h
      simp only [World.newGlobal, Except.ok.injEq] at h
      subst h
      rfl

/-- C11: for every class, when `getVtblInit` returns a table, the same request repeated
on the resulting state returns the identical table and leaves the state as it is: no
function is handed to `codegen`, no global is created, no cache changes.  The same holds
of `getVtblSymbol` and of `getClassInfoSymbol`: the repeated request returns the global
the first one returned and creates none. -/
theorem vtbl_requests_idempotent (w : World) :
    (∀ t, (getVtblInit w).1 = .ok t →
      getVtblInit (getVtblInit w).2 = (.ok t, (getVtblInit w).2)) ∧
    (∀ g, (getVtblSymbol w).1 = .ok g →
      getVtblSymbol (getVtblSymbol w).2 = (.ok g, (getVtblSymbol w).2)) ∧
    (∀ g, (getClassInfoSymbol w).1 = .ok g →
      getClassInfoSymbol (getClassInfoSymbol w).2 = (.ok g, (getClassInfoSymbol w).2)) := by
  refine ⟨fun t h => ?_, fun g h => ?_, fun g h => ?_⟩
  · have hc := getVtblInit_ok_cached w t h
    generalize (getVtblInit w).2 = w1 at hc
    unfold getVtblInit
    rw [hc]
  · have hc := getVtblSymbol_ok_cached w g h
    generalize (getVtblSymbol w).2 = w1 at hc
    unfold getVtblSymbol
    rw [hc]
  · have hc := (getClassInfoSymbol_cached w g h).1
    generalize (getClassInfoSymbol w).2 = w1 at hc
    unfold getClassInfoSymbol getClassInfoSymbolOn
    rw [hc]

/-- C11, at the class `B`: each of the three requests succeeds, and repeating it returns
the same value in the same state. -/
theorem vtbl_requests_idempotent_witness :
    (getVtblInit exWorldB).1 = .ok [.bitcast 0 .classInfoPtr, .func exImpl] ∧
    (getVtblInit (getVtblInit exWorldB).2).2.codegenCalls = [exImpl.ident] ∧
    (getVtblInit (getVtblInit exWorldB).2).2.globals.length = 1 ∧
    (getVtblSymbol exWorldB).1 = .ok 0 ∧
    (getClassInfoSymbol exWorldB).1 = .ok 0 ∧
    ((∀ t, (getVtblInit exWorldB).1 = .ok t →
      getVtblInit (getVtblInit exWorldB).2 = (.ok t, (getVtblInit exWorldB).2)) ∧
    (∀ g, (getVtblSymbol exWorldB).1 = .ok g →
      getVtblSymbol (getVtblSymbol exWorldB).2 = (.ok g, (getVtblSymbol exWorldB).2)) ∧
    (∀ g, (getClassInfoSymbol exWorldB).1 = .ok g →
      getClassInfoSymbol (getClassInfoSymbol exWorldB).2
        = (.ok g, (getClassInfoSymbol exWorldB).2))) :=
  ⟨by decide, by decide, by decide, by decide, by decide, vtbl_requests_idempotent exWorldB⟩

/-! ## The example class `A` -/

theorem alignedOffset_8_4 (bits : Nat) (h : bits = 32 ∨ bits = 64) :
    alignedOffset bits 8 4 = 8 := by
  rcases h with rfl | rfl <;> decide

/-- C12: for a class without base class and without interfaces whose single field `x`
(size 4, alignment 4) sits at offset 8, with 4-byte pointers and the declared instance
size 12, the traversal of `createClassDefaultInitializer` produces exactly the three
slots `[vtbl symbol, null monitor pointer, default value of x]`, without padding slot and
with the cursor ending at 12; `createClassDefaultInitializer` returns them when the
lowered instance type has these three element types; and `getClassInfoInterfaces`
returns the null slice. -/
theorem example_class_A (w : World) (d : ClassData) (x : VarDeclaration)
    (vtbl : LLGlobalVariable)
    (hcd : w.self.aggrdecl.isClassDeclaration = some (.root d))
    (hfields : d.fields = [x])
    (hoff : x.offset = 8) (hsize : x.size = 4) (halign : x.alignsize = 4)
    (hif : d.vtblInterfaces = none ∨ d.vtblInterfaces = some [])
    (hsz : d.structsize = 12)
    (hptr : w.PTRSIZE = 4) (hbits : w.sizeBits = 32 ∨ w.sizeBits = 64)
    (hv : (getVtblSymbol w).1 = .ok vtbl) :
    (classDefaultInits w).1 = .ok () ∧
    (classDefaultInits w).2.2.constants
      = [.global vtbl, .nullValue .voidPtr, .fieldInit x] ∧
    (classDefaultInits w).2.2.trace = [.placed x 8] ∧
    (classDefaultInits w).2.2.offset = 12 ∧
    (w.self.pa = [.globalPtr vtbl, .voidPtr, .fieldTy x.type] →
      (createClassDefaultInitializer w).1
        = .ok [.global vtbl, .nullValue .voidPtr, .fieldInit x]) ∧
    getClassInfoInterfaces w = (.ok .null, w) := by
  have hs := getVtblSymbol_sameTarget w
  have hsb : (getVtblSymbol w).2.sizeBits = w.sizeBits := hs.sizeBits
  have hal : alignedOffset w.sizeBits 8 4 = 8 := alignedOffset_8_4 _ hbits
  have h8 : 8 % 2 ^ w.sizeBits = 8 := by rcases hbits with h | h <;> rw [h] <;> decide
  have h12 : 12 % 2 ^ w.sizeBits = 12 := by rcases hbits with h | h <;> rw [h] <;> decide
  have hpa1 : (getVtblSymbol w).2.self.pa = w.self.pa := hs.pa
  have hcore : classDefaultInits w
      = (.ok (), (getVtblSymbol w).2,
          ⟨[.global vtbl, .nullValue .voidPtr, .fieldInit x], 12, 2, [.placed x 8]⟩) := by
    unfold classDefaultInits
    rw [hcd]
    dsimp only
    generalize getVtblSymbol w = r at hv hsb
    rcases r with ⟨e | g, w1⟩
    · cases hv
    · simp only [Except.ok.injEq] at hv
      subst hv
      dsimp only at hsb ⊢
      rcases hif with hif | hif <;>
        simp [addBaseClassInits, addLevelInits, addFields, addTailPadding, addInterfaceVtbls,
          hfields, hif, hoff, hsize, halign, hsz, hptr, hsb, h8, h12, hal]
  refine ⟨by rw [hcore], by rw [hcore], by rw [hcore], by rw [hcore], ?_, ?_⟩
  · intro hpa
    unfold createClassDefaultInitializer
    rw [hcore]
    dsimp only
    rw [hpa1, hpa]
    simp [LLConstant.getType]
  · unfold getClassInfoInterfaces
    rw [hcd]
    simp only [ClassDeclaration.data]
    rcases hif with hif | hif <;> rw [hif]

/-- C12, at the class `A` of the example. -/
theorem example_class_A_witness :
    exWorldA.self.aggrdecl.isClassDeclaration = some exClassA ∧
    (getVtblSymbol exWorldA).1 = .ok 0 ∧
    (createClassDefaultInitializer exWorldA).1
      = .ok [.global 0, .nullValue .voidPtr, .fieldInit exFieldX] ∧
    ((classDefaultInits exWorldA).1 = .ok () ∧
    (classDefaultInits exWorldA).2.2.constants
      = [.global 0, .nullValue .voidPtr, .fieldInit exFieldX] ∧
    (classDefaultInits exWorldA).2.2.trace = [.placed exFieldX 8] ∧
    (classDefaultInits exWorldA).2.2.offset = 12 ∧
    (exWorldA.self.pa = [.globalPtr 0, .voidPtr, .fieldTy exFieldX.type] →
      (createClassDefaultInitializer exWorldA).1
        = .ok [.global 0, .nullValue .voidPtr, .fieldInit exFieldX]) ∧
    getClassInfoInterfaces exWorldA = (.ok .null, exWorldA)) :=
  ⟨by decide, by decide, by decide,
    example_class_A exWorldA exClassA.data exFieldX 0 (by decide) (by decide) (by decide)
      (by decide) (by decide) (by decide) (by decide) (by decide) (by decide) (by decide)⟩

/-! ## Declaration of the interfaces array -/

/-- The loop of `getClassInfoInterfaces` keeps the frame whether it completes or not. -/
theorem interfaceEntries_frame (l : List BaseClass) :
    ∀ (cs : List InterfaceEntry) (w : World),
      InterfaceLoopFrame w (interfaceEntries l cs w).2 := by
  induction l with
  | nil => intro cs w; exact InterfaceLoopFrame.idFrame w
  | cons it rest ih =>
    intro cs w
    unfold interfaceEntries
    cases hs : w.irStructOf it.base.ident with
    | none => exact InterfaceLoopFrame.idFrame w
    | some irinter =>
      dsimp only
      cases hitc : irinter.irtypeClass with
      | none => exact InterfaceLoopFrame.idFrame w
      | some itc =>
        dsimp only
        generalize hg : getClassInfoSymbolOn irinter w = r
        rcases r with ⟨e | ci, irinter1, w2⟩
        · dsimp only
          have : w2 = w := by
            unfold getClassInfoSymbolOn at hg
            split at hg
            · cases hg
            · dsimp only at hg
              split at hg
              · cases hg
              · simp only [Prod.mk.injEq] at hg
                exact hg.2.2.symm
          rw [this]
          exact InterfaceLoopFrame.idFrame w
        · dsimp only
          obtain ⟨hfr, -, -, -⟩ := interfaceEntries_step w w2 _ irinter irinter1 ci hs hg
          cases hm : mapFind (w2.setIrStruct it.base.ident irinter1).self.interfaceVtblMap
              it.base.ident with
          | none => exact hfr
          | some vtb => exact hfr.compose (ih _ _)

/-- `getClassInfoInterfaces` never changes the member `classInterfacesArray`. -/
theorem getClassInfoInterfaces_keeps_array (w : World) :
    (getClassInfoInterfaces w).2.self.classInterfacesArray = w.self.classInterfacesArray := by
  unfold getClassInfoInterfaces
  split
  · rfl
  · split
    · rfl
    · rfl
    · rename_i i rest _
      split
      · rfl
      · have hfr := interfaceEntries_frame (i :: rest) [] w
        generalize interfaceEntries (i :: rest) [] w = r at hfr
        rcases r with ⟨e | es, w1⟩
        · exact hfr.arr
        · dsimp only at hfr ⊢
          split
          · exact hfr.arr
          · exact hfr.arr

/-- What `getInterfaceArraySymbol` does for a class with at least one interface whose
array has not been declared: it creates the global of type `Interface[k]`, without
initializer, and records it in `classInterfacesArray`. -/
theorem getInterfaceArraySymbol_declares (w : World) (cd : ClassDeclaration)
    (ifaces : List BaseClass)
    (hcd : w.self.aggrdecl.isClassDeclaration = some cd)
    (hif : cd.data.vtblInterfaces = some ifaces) (hne : ifaces ≠ [])
    (hnone : w.self.classInterfacesArray = none) :
    getInterfaceArraySymbol w
      = (.ok w.globals.length,
          { w with
            globals := w.globals ++
              [{ type := .interfaceArray ifaces.length, linkage := .dtoLinkage, init := none,
                 name := "_D" ++ cd.data.mangle ++ "16__interfaceInfosZ",
                 parent := .insertBefore w.self.classInfo }]
            self := { w.self with classInterfacesArray := some w.globals.length } }) := by
  unfold getInterfaceArraySymbol
  rw [hnone, hcd]
  dsimp only
  rw [hif]
  dsimp only
  rw [if_pos (List.length_pos.2 hne)]
  rfl

theorem setInitializer_getElem (init : Initializer) :
    ∀ (globals : List GlobalVariable) (g : LLGlobalVariable),
      (setInitializer globals g init)[g]?
        = (globals[g]?).map (fun gv => { gv with init := some init }) := by
  intro globals
  induction globals with
  | nil => intro g; simp [setInitializer]
  | cons gv rest ih =>
    intro g
    cases g with
    | zero => simp [setInitializer]
    | succ n => simpa [setInitializer] using ih n

/-- C13 (counterexample): on the state of `B : I` in which the interfaces array has not
been declared, `getClassInfoInterfaces` computes the descriptor (creating the ClassInfo
symbol of `I`, global 2) and then fails on the null `classInterfacesArray`; it declares
no array object. -/
theorem getClassInfoInterfaces_undeclared_counterexample :
    exWorldBIUndeclared.self.classInterfacesArray = none ∧
    (getClassInfoInterfaces exWorldBIUndeclared).1 = .error .nullDereference ∧
    (getClassInfoInterfaces exWorldBIUndeclared).2.self.classInterfacesArray = none ∧
    (getClassInfoInterfaces exWorldBIUndeclared).2.globals.map (fun gv => gv.type)
      = [.vtbl [.classInfoPtr, .funcPtr 1], .structOf [.voidPtr, .funcPtr 1], .classInfo] ∧
    (getClassInfoInterfaces exWorldBIUndeclared).1 ≠ .ok (.slice 1 3) := by
  decide

/-- C13 (amended): for a class implementing `k >= 1` interfaces, `getClassInfoInterfaces`
does not declare the backing object: on a state in which it has not been declared the
call never returns and leaves `classInterfacesArray` null.  The declaration is made by
`getInterfaceArraySymbol`, which creates the global of type `Interface[k]` without
initializer; called on the state that follows, `getClassInfoInterfaces` attaches the
`k`-element initializer to that global and returns the slice of length `k` over it
(when the ClassInfo type is a class type, `this` is lowered to a class type, every
interface has a context lowered to a class type and a cached vtable). -/
theorem interfaces_array_declared_by_getInterfaceArraySymbol (w : World)
    (cd : ClassDeclaration) (ifaces : List BaseClass)
    (hcd : w.self.aggrdecl.isClassDeclaration = some cd)
    (hif : cd.data.vtblInterfaces = some ifaces) (hne : ifaces ≠ [])
    (hnone : w.self.classInterfacesArray = none) :
    ((∀ r, (getClassInfoInterfaces w).1 ≠ .ok r) ∧
      (getClassInfoInterfaces w).2.self.classInterfacesArray = none) ∧
    ((getInterfaceArraySymbol w).1 = .ok w.globals.length ∧
      (getInterfaceArraySymbol w).2.globals[w.globals.length]?
        = some { type := .interfaceArray ifaces.length, linkage := .dtoLinkage, init := none,
                 name := "_D" ++ cd.data.mangle ++ "16__interfaceInfosZ",
                 parent := .insertBefore w.self.classInfo } ∧
      (∀ tc : IrTypeClass, w.classinfoIsClass = true → w.self.irtypeClass = some tc →
        (∀ it ∈ ifaces, ∃ s itc, w.irStructOf it.base.ident = some s ∧
          s.irtypeClass = some itc) →
        (∀ it ∈ ifaces, ∃ vtb, mapFind w.self.interfaceVtblMap it.base.ident = some vtb) →
        ∃ entries : List InterfaceEntry,
          (getClassInfoInterfaces (getInterfaceArraySymbol w).2).1
            = .ok (.slice ifaces.length w.globals.length) ∧
          (getClassInfoInterfaces (getInterfaceArraySymbol w).2).2.globals[w.globals.length]?
            = some { type := .interfaceArray ifaces.length, linkage := .dtoLinkage,
                     init := some (.array entries),
                     name := "_D" ++ cd.data.mangle ++ "16__interfaceInfosZ",
                     parent := .insertBefore w.self.classInfo } ∧
          entries.length = ifaces.length)) := by
  constructor
  · refine ⟨fun r hr => ?_, ?_⟩
    · obtain ⟨es, w1, arr, hloop, harr, -, -⟩ :=
        getClassInfoInterfaces_ok_inv w cd ifaces r hcd hif hne hr
      obtain ⟨hfr, -⟩ := interfaceEntries_ok ifaces [] es w w1 hloop
      rw [hfr.arr, hnone] at harr
      cases harr
    · rw [getClassInfoInterfaces_keeps_array, hnone]
  · have hdecl := getInterfaceArraySymbol_declares w cd ifaces hcd hif hne hnone
    rw [hdecl]
    refine ⟨rfl, by simp, ?_⟩
    intro tc hc hty hirs hmap
    dsimp only
    generalize hw1 : ({ w with
        globals := w.globals ++
          [{ type := .interfaceArray ifaces.length, linkage := .dtoLinkage, init := none,
             name := "_D" ++ cd.data.mangle ++ "16__interfaceInfosZ",
             parent := .insertBefore w.self.classInfo }]
        self := { w.self with classInterfacesArray := some w.globals.length } } : World) = w1
    have hcd1 : w1.self.aggrdecl.isClassDeclaration = some cd := by rw [← hw1]; exact hcd
    have hc1 : w1.classinfoIsClass = true := by rw [← hw1]; exact hc
    have hty1 : w1.self.irtypeClass = some tc := by rw [← hw1]; exact hty
    have harr1 : w1.self.classInterfacesArray = some w.globals.length := by rw [← hw1]
    have hmap1 : ∀ it ∈ ifaces, ∃ vtb,
        mapFind w1.self.interfaceVtblMap it.base.ident = some vtb := by
      rw [← hw1]; exact hmap
    have hirs1 : ∀ it ∈ ifaces, ∃ s itc, w1.irStructOf it.base.ident = some s ∧
        s.irtypeClass = some itc := by
      intro it hit
      obtain ⟨s0, itc, h1, h2⟩ := hirs it hit
      rw [← hw1]
      unfold World.irStructOf at h1 ⊢
      dsimp only
      split at h1
      · rename_i hself
        rw [if_pos hself]
        simp only [Option.some.injEq] at h1
        subst h1
        exact ⟨_, itc, rfl, h2⟩
      · rename_i hself
        rw [if_neg hself]
        exact ⟨s0, itc, h1, h2⟩
    have hg1 : w1.globals[w.globals.length]?
        = some { type := .interfaceArray ifaces.length, linkage := .dtoLinkage, init := none,
                 name := "_D" ++ cd.data.mangle ++ "16__interfaceInfosZ",
                 parent := .insertBefore w.self.classInfo } := by
      rw [← hw1]; simp
    obtain ⟨es, w2, hloop⟩ := interfaceEntries_total ifaces [] w1 hc1 hirs1 hmap1
    obtain ⟨hfr, es1, hes, hlen, -⟩ := interfaceEntries_ok ifaces [] es w1 w2 hloop
    rw [List.nil_append] at hes
    subst hes
    have hres : getClassInfoInterfaces w1
        = (.ok (.slice ifaces.length w.globals.length),
            { w2 with globals := setInitializer w2.globals w.globals.length (.array es) }) := by
      unfold getClassInfoInterfaces
      rw [hcd1]
      dsimp only
      rw [hif]
      cases ifaces with
      | nil => exact absurd rfl hne
      | cons i rest =>
        dsimp only
        rw [hty1]
        dsimp only
        rw [hloop]
        dsimp only
        rw [hfr.arr, harr1]
    refine ⟨es, by rw [hres], ?_, hlen⟩
    rw [hres]
    dsimp only
    rw [setInitializer_getElem]
    obtain ⟨gs, hgs⟩ := hfr.globals
    have hlt : w.globals.length < w1.globals.length := by
      rw [← hw1]; simp
    rw [hgs, List.getElem?_append_left hlt, hg1]
    rfl

/-- C13 (amended), at the class `B : I` after its default initializer was built:
`getInterfaceArraySymbol` declares global 2 of type `Interface[1]`, and the following
`getClassInfoInterfaces` attaches the one descriptor to it. -/
theorem interfaces_array_declared_by_getInterfaceArraySymbol_witness :
    exWorldBIUndeclared.self.aggrdecl.isClassDeclaration = some exB ∧
    exB.data.vtblInterfaces = some [exConf] ∧
    exWorldBIUndeclared.self.classInterfacesArray = none ∧
    exWorldBIUndeclared.globals.length = 2 ∧
    (getClassInfoInterfaces (getInterfaceArraySymbol exWorldBIUndeclared).2).1
      = .ok (.slice 1 2) ∧
    (((∀ r, (getClassInfoInterfaces exWorldBIUndeclared).1 ≠ .ok r) ∧
      (getClassInfoInterfaces exWorldBIUndeclared).2.self.classInterfacesArray = none) ∧
    ((getInterfaceArraySymbol exWorldBIUndeclared).1 = .ok exWorldBIUndeclared.globals.length ∧
      (getInterfaceArraySymbol exWorldBIUndeclared).2.globals[exWorldBIUndeclared.globals.length]?
        = some { type := .interfaceArray [exConf].length, linkage := .dtoLinkage, init := none,
                 name := "_D" ++ exB.data.mangle ++ "16__interfaceInfosZ",
                 parent := .insertBefore exWorldBIUndeclared.self.classInfo } ∧
      (∀ tc : IrTypeClass, exWorldBIUndeclared.classinfoIsClass = true →
        exWorldBIUndeclared.self.irtypeClass = some tc →
        (∀ it ∈ [exConf], ∃ s itc, exWorldBIUndeclared.irStructOf it.base.ident = some s ∧
          s.irtypeClass = some itc) →
        (∀ it ∈ [exConf], ∃ vtb,
          mapFind exWorldBIUndeclared.self.interfaceVtblMap it.base.ident = some vtb) →
        ∃ entries : List InterfaceEntry,
          (getClassInfoInterfaces (getInterfaceArraySymbol exWorldBIUndeclared).2).1
            = .ok (.slice [exConf].length exWorldBIUndeclared.globals.length) ∧
          (getClassInfoInterfaces (getInterfaceArraySymbol exWorldBIUndeclared).2).2.globals[
              exWorldBIUndeclared.globals.length]?
            = some { type := .interfaceArray [exConf].length, linkage := .dtoLinkage,
                     init := some (.array entries),
                     name := "_D" ++ exB.data.mangle ++ "16__interfaceInfosZ",
                     parent := .insertBefore exWorldBIUndeclared.self.classInfo } ∧
          entries.length = [exConf].length))) :=
  ⟨by decide, by decide, by decide, by decide, by decide,
    interfaces_array_declared_by_getInterfaceArraySymbol exWorldBIUndeclared exB [exConf]
      (by decide) (by decide) (by decide) (by decide)⟩

/-! ## Fresh and inherited conformances -/

theorem addFields_interfaceVisits (bits : Nat) (fields : List VarDeclaration) :
    ∀ a : Inits,
      (addFields bits fields a).trace.filterMap Visit.interfaceVisit
        = a.trace.filterMap Visit.interfaceVisit ∧
      (addFields bits fields a).constants.filterMap LLConstant.globalOf
        = a.constants.filterMap LLConstant.globalOf := by
  induction fields with
  | nil => intro a; simp [addFields]
  | cons vd rest ih =>
    intro a
    unfold addFields
    split
    · obtain ⟨h1, h2⟩ := ih { a with trace := a.trace ++ [.skipped vd a.offset] }
      rw [h1, h2]
      simp [Visit.interfaceVisit]
    · dsimp only
      refine ⟨?_, ?_⟩
      · rw [(ih _).1]; simp [Visit.interfaceVisit]
      · rw [(ih _).2]
        split <;> simp [add_zeros, LLConstant.globalOf]

theorem addTailPadding_interfaceVisits (structsize : Nat) (a : Inits) :
    (addTailPadding structsize a).trace.filterMap Visit.interfaceVisit
      = a.trace.filterMap Visit.interfaceVisit ∧
    (addTailPadding structsize a).constants.filterMap LLConstant.globalOf
      = a.constants.filterMap LLConstant.globalOf := by
  unfold addTailPadding
  split <;> simp [Visit.interfaceVisit, add_zeros, LLConstant.globalOf]

/-- Requests made one after the other can be split at any point. -/
theorem requestInterfaceVtbls_append (l1 l2 : List (BaseClass × Bool)) :
    ∀ (w w1 w2 : World) (gs1 gs2 : List LLGlobalVariable),
      requestInterfaceVtbls l1 w = (.ok gs1, w1) →
      requestInterfaceVtbls l2 w1 = (.ok gs2, w2) →
      requestInterfaceVtbls (l1 ++ l2) w = (.ok (gs1 ++ gs2), w2) := by
  induction l1 with
  | nil =>
    intro w w1 w2 gs1 gs2 h1 h2
    simp only [requestInterfaceVtbls, Prod.mk.injEq, Except.ok.injEq] at h1
    obtain ⟨rfl, rfl⟩ := h1
    exact h2
  | cons x rest ih =>
    intro w w1 w2 gs1 gs2 h1 h2
    obtain ⟨b, n⟩ := x
    rw [List.cons_append]
    unfold requestInterfaceVtbls at h1 ⊢
    generalize getInterfaceVtbl w b n = r at h1 ⊢
    rcases r with ⟨e | g, w3⟩
    · cases h1
    · dsimp only at h1 ⊢
      generalize hreq : requestInterfaceVtbls rest w3 = r2 at h1
      rcases r2 with ⟨e | gs, w4⟩
      · cases h1
      · simp only [Prod.mk.injEq, Except.ok.injEq] at h1
        obtain ⟨rfl, rfl⟩ := h1
        rw [ih w3 w4 w2 gs gs2 hreq h2]
        rfl

/-- A completed interface loop made the request `getInterfaceVtbl(b, newinsts)` for each
conformance of its list, in order, each with the flag of the loop; it recorded one step
per request and appended to the image the global each request returned. -/
theorem addInterfaceVtbls_interfaceVisits (n : Bool) (l : List BaseClass) :
    ∀ (w w1 : World) (a a1 : Inits), addInterfaceVtbls n l w a = (.ok (), w1, a1) →
      a1.trace.filterMap Visit.interfaceVisit
        = a.trace.filterMap Visit.interfaceVisit ++ l.map (fun b => (b, n)) ∧
      ∃ gs, a1.constants.filterMap LLConstant.globalOf
          = a.constants.filterMap LLConstant.globalOf ++ gs ∧ gs.length = l.length ∧
        requestInterfaceVtbls (l.map (fun b => (b, n))) w = (.ok gs, w1) := by
  induction l with
  | nil =>
    intro w w1 a a1 h
    simp only [addInterfaceVtbls, Prod.mk.injEq] at h
    obtain ⟨-, rfl, rfl⟩ := h
    exact ⟨by simp, [], by simp, rfl, rfl⟩
  | cons b rest ih =>
    intro w w1 a a1 h
    unfold addInterfaceVtbls at h
    generalize hget : getInterfaceVtbl w b n = r at h
    rcases r with ⟨e | gv, w2⟩
    · cases h
    · dsimp only at h
      obtain ⟨h1, gs, h2, h3, h4⟩ := ih _ _ _ _ h
      refine ⟨?_, gv :: gs, ?_, by simp [h3], ?_⟩
      · rw [h1]; simp [Visit.interfaceVisit]
      · rw [h2]; simp [LLConstant.globalOf]
      · rw [List.map_cons]
        unfold requestInterfaceVtbls
        rw [hget]
        dsimp only
        rw [h4]

theorem addLevelInits_interfaceVisits (d : ClassData) (n : Bool) (w w1 : World) (a a1 : Inits)
    (h : addLevelInits d n w a = (.ok (), w1, a1)) :
    a1.trace.filterMap Visit.interfaceVisit
      = a.trace.filterMap Visit.interfaceVisit
          ++ (d.vtblInterfaces.getD []).map (fun b => (b, n)) ∧
    ∃ gs, a1.constants.filterMap LLConstant.globalOf
        = a.constants.filterMap LLConstant.globalOf ++ gs ∧
      gs.length = (d.vtblInterfaces.getD []).length ∧
      requestInterfaceVtbls ((d.vtblInterfaces.getD []).map (fun b => (b, n))) w
        = (.ok gs, w1) := by
  obtain ⟨hf1, hf2⟩ := addFields_interfaceVisits w.sizeBits d.fields a
  unfold addLevelInits at h
  dsimp only at h
  cases hif : d.vtblInterfaces with
  | none =>
    rw [hif] at h
    simp only [Prod.mk.injEq] at h
    obtain ⟨-, rfl, rfl⟩ := h
    obtain ⟨ht1, ht2⟩ := addTailPadding_interfaceVisits d.structsize
      (addFields w.sizeBits d.fields a)
    exact ⟨by rw [ht1, hf1]; simp, [], by rw [ht2, hf2]; simp, by simp, rfl⟩
  | some ifaces =>
    rw [hif] at h
    dsimp only at h
    generalize hl : addInterfaceVtbls n ifaces w (addFields w.sizeBits d.fields a) = r at h
    rcases r with ⟨e | u, w2, a2⟩
    · cases h
    · simp only [Prod.mk.injEq] at h
      obtain ⟨-, rfl, rfl⟩ := h
      obtain ⟨h1, gs, h2, h3, h4⟩ := addInterfaceVtbls_interfaceVisits n ifaces _ _ _ _ hl
      obtain ⟨ht1, ht2⟩ := addTailPadding_interfaceVisits d.structsize a2
      exact ⟨by rw [ht1, h1, hf1]; simp, gs, by rw [ht2, h2, hf2], by simp [h3],
        by simpa using h4⟩

/-- A completed traversal made the request `getInterfaceVtbl(b, newinsts)` for each
conformance of the chain, base classes first, each with the value of the comparison of
line 223 at its level; it recorded one interface step per request and appended to the
image the global each request returned. -/
theorem addBaseClassInits_interfaceVisits (top : ClassDeclaration) (cd : ClassDeclaration) :
    ∀ (w w1 : World) (a a1 : Inits),
      w.self.aggrdecl.isClassDeclaration = some top →
      addBaseClassInits cd w a = (.ok (), w1, a1) →
      a1.trace.filterMap Visit.interfaceVisit
        = a.trace.filterMap Visit.interfaceVisit ++ cd.flaggedConformances top.data.ident ∧
      ∃ gs, a1.constants.filterMap LLConstant.globalOf
          = a.constants.filterMap LLConstant.globalOf ++ gs ∧
        gs.length = cd.conformances.length ∧
        requestInterfaceVtbls (cd.flaggedConformances top.data.ident) w = (.ok gs, w1) := by
  induction cd with
  | root d =>
    intro w w1 a a1 htop h
    unfold addBaseClassInits at h
    have hown : isOwnLevel w (.root d) = (d.ident == top.data.ident) := by
      unfold isOwnLevel; rw [htop]; rfl
    rw [hown] at h
    exact addLevelInits_interfaceVisits d _ w w1 a a1 h
  | derived d baseClass ih =>
    intro w w1 a a1 htop h
    unfold addBaseClassInits at h
    have hs := addBaseClassInits_sameTarget baseClass w a
    generalize hb : addBaseClassInits baseClass w a = r at h hs
    rcases r with ⟨e | u, w2, a2⟩
    · cases h
    · dsimp only at h hs
      obtain ⟨h1, gs, h2, h3, h7⟩ := ih w w2 a a2 htop hb
      have hown : isOwnLevel w2 (.derived d baseClass) = (d.ident == top.data.ident) := by
        unfold isOwnLevel; rw [hs.aggrdecl, htop]; rfl
      rw [hown] at h
      obtain ⟨h4, gs1, h5, h6, h8⟩ := addLevelInits_interfaceVisits d _ w2 w1 a2 a1 h
      refine ⟨?_, gs ++ gs1, ?_, ?_, ?_⟩
      · rw [h4, h1, ClassDeclaration.flaggedConformances, List.append_assoc]
      · rw [h5, h2, List.append_assoc]
      · simp [ClassDeclaration.conformances, h3, h6]
      · rw [ClassDeclaration.flaggedConformances]
        exact requestInterfaceVtbls_append _ _ w w2 w1 gs gs1 h7 h8

/-- Along a chain none of whose levels is at the address `ident`, every conformance is
flagged false. -/
theorem flaggedConformances_of_ne (ident : Nat) (cd : ClassDeclaration)
    (h : ∀ a ∈ cd.levels, a.ident ≠ ident) :
    cd.flaggedConformances ident = cd.conformances.map (fun b => (b, false)) := by
  induction cd with
  | root d =>
    have hd : (d.ident == ident) = false := by
      simpa using h d (by simp [ClassDeclaration.levels])
    simp [ClassDeclaration.flaggedConformances, ClassDeclaration.conformances, hd]
  | derived d baseClass ih =>
    have hd : (d.ident == ident) = false := by
      simpa using h d (by simp [ClassDeclaration.levels])
    have hb := ih (fun a ha => h a (by simp [ClassDeclaration.levels, ha]))
    simp [ClassDeclaration.flaggedConformances, ClassDeclaration.conformances, hd, hb]

/-- C14: when `createClassDefaultInitializer` completes the traversal for the class `C`
(whose ancestors are declarations other than `C` itself), the interface steps of the
traversal are exactly the conformances of the base chain in order, one step each; the
image holds, after the vtable symbol, exactly one global address (one pointer-sized
slot) per conformance; and these addresses and the state the traversal reaches are the
ones obtained by making, on the state that follows `getVtblSymbol`, the request
`getInterfaceVtbl(b, false)` for every conformance declared at the level of an ancestor
and then `getInterfaceVtbl(b, true)` for every conformance declared at `C`'s own level,
in that order. -/
theorem conformances_fresh_exactly_at_own_level (w : World) (cd : ClassDeclaration)
    (hcd : w.self.aggrdecl.isClassDeclaration = some cd)
    (hanc : ∀ a ∈ cd.ancestors, a.ident ≠ cd.data.ident)
    (hok : (classDefaultInits w).1 = .ok ()) :
    (classDefaultInits w).2.2.trace.filterMap Visit.interfaceVisit
      = cd.ancestorConformances.map (fun b => (b, false))
          ++ cd.ownConformances.map (fun b => (b, true)) ∧
    ∃ (vtbl : LLGlobalVariable) (gs : List LLGlobalVariable),
      (getVtblSymbol w).1 = .ok vtbl ∧
      (classDefaultInits w).2.2.constants.filterMap LLConstant.globalOf = vtbl :: gs ∧
      gs.length = cd.ancestorConformances.length + cd.ownConformances.length ∧
      requestInterfaceVtbls
          (cd.ancestorConformances.map (fun b => (b, false))
            ++ cd.ownConformances.map (fun b => (b, true))) (getVtblSymbol w).2
        = (.ok gs, (classDefaultInits w).2.1) := by
  have hs := getVtblSymbol_sameTarget w
  have hflag : cd.flaggedConformances cd.data.ident
      = cd.ancestorConformances.map (fun b => (b, false))
          ++ cd.ownConformances.map (fun b => (b, true)) := by
    cases cd with
    | root d =>
      simp [ClassDeclaration.flaggedConformances, ClassDeclaration.ancestorConformances,
        ClassDeclaration.ownConformances, ClassDeclaration.data]
    | derived d baseClass =>
      have hb := flaggedConformances_of_ne d.ident baseClass hanc
      simp [ClassDeclaration.flaggedConformances, ClassDeclaration.ancestorConformances,
        ClassDeclaration.ownConformances, ClassDeclaration.data, hb]
  have hcount : cd.conformances.length
      = cd.ancestorConformances.length + cd.ownConformances.length := by
    cases cd with
    | root d =>
      simp [ClassDeclaration.conformances, ClassDeclaration.ancestorConformances,
        ClassDeclaration.ownConformances, ClassDeclaration.data]
    | derived d baseClass =>
      simp [ClassDeclaration.conformances, ClassDeclaration.ancestorConformances,
        ClassDeclaration.ownConformances, ClassDeclaration.data]
  unfold classDefaultInits at hok ⊢
  rw [hcd] at hok ⊢
  dsimp only at hok ⊢
  generalize getVtblSymbol w = r at hok hs
  rcases r with ⟨e | vtbl, w1⟩
  · cases hok
  · dsimp only at hok hs ⊢
    generalize hrun : addBaseClassInits cd w1
      ⟨[.global vtbl, .nullValue .voidPtr], (w.PTRSIZE * 2) % 2 ^ w.sizeBits, 2, []⟩ = x at hok
    rcases x with ⟨e | u, w2, a2⟩
    · cases hok
    · obtain ⟨h1, gs, h2, h3, h4⟩ := addBaseClassInits_interfaceVisits cd cd w1 w2 _ a2
        (by rw [hs.aggrdecl]; exact hcd) hrun
      refine ⟨?_, vtbl, gs, rfl, ?_, ?_, ?_⟩
      · rw [h1, hflag]; simp
      · rw [h2]; simp [LLConstant.globalOf]
      · rw [h3, hcount]
      · rw [← hflag]; exact h4

/-- C14, at the class `D2 : B2, I` whose base class `B2` implements `I` too: the vtable
of the conformance of `B2` is requested with `false` and yields global 1 (the table with
`B2.f`), the vtable of the own conformance is requested with `true` and yields global 2
(the table with `D2.f`), and the image holds the vtable symbol and these two addresses. -/
theorem conformances_fresh_exactly_at_own_level_witness :
    exWorldD2.self.aggrdecl.isClassDeclaration = some exD2 ∧
    (∀ a ∈ exD2.ancestors, a.ident ≠ exD2.data.ident) ∧
    (classDefaultInits exWorldD2).1 = .ok () ∧
    (classDefaultInits exWorldD2).2.2.trace
      = [.interfaceSlot exConfBase false 8, .interfaceSlot exConfOwn true 12] ∧
    (requestInterfaceVtbls [(exConfBase, false), (exConfOwn, true)]
      (getVtblSymbol exWorldD2).2).1 = .ok [1, 2] ∧
    ((classDefaultInits exWorldD2).2.1.globals[1]?).map (fun gv => gv.init)
      = some (some (.struct [.nullValue .voidPtr, .func exImpl])) ∧
    ((classDefaultInits exWorldD2).2.1.globals[2]?).map (fun gv => gv.init)
      = some (some (.struct [.nullValue .voidPtr, .func exImplD])) ∧
    ((classDefaultInits exWorldD2).2.2.trace.filterMap Visit.interfaceVisit
      = exD2.ancestorConformances.map (fun b => (b, false))
          ++ exD2.ownConformances.map (fun b => (b, true)) ∧
    ∃ (vtbl : LLGlobalVariable) (gs : List LLGlobalVariable),
      (getVtblSymbol exWorldD2).1 = .ok vtbl ∧
      (classDefaultInits exWorldD2).2.2.constants.filterMap LLConstant.globalOf = vtbl :: gs ∧
      gs.length = exD2.ancestorConformances.length + exD2.ownConformances.length ∧
      requestInterfaceVtbls
          (exD2.ancestorConformances.map (fun b => (b, false))
            ++ exD2.ownConformances.map (fun b => (b, true))) (getVtblSymbol exWorldD2).2
        = (.ok gs, (classDefaultInits exWorldD2).2.1)) :=
  ⟨by decide, by decide, by decide, by decide, by decide, by decide, by decide,
    conformances_fresh_exactly_at_own_level exWorldD2 exD2 (by decide) (by decide)
      (by decide)⟩

/-! ## Names and identity of the interface vtables of one class -/

/-- C15, the code at the failing input: for `D2 : B2, I` whose base class `B2 : I`
implements the same interface, one run of `createClassDefaultInitializer` on the context
of `D2` creates two distinct interface vtable globals (1 and 2, with different tables)
and gives both the name `"_D" + mangle(D2) + "11__interface" + mangle(I) + "6__vtblZ"`. -/
theorem interface_vtbl_names_collide :
    (createClassDefaultInitializer exWorldD2).1
      = .ok [.global 0, .nullValue .voidPtr, .global 1, .global 2] ∧
    ((createClassDefaultInitializer exWorldD2).2.globals[1]?).map (fun gv => gv.name)
      = some (interfaceVtblName exD2.data.mangle exI.mangle) ∧
    ((createClassDefaultInitializer exWorldD2).2.globals[2]?).map (fun gv => gv.name)
      = some (interfaceVtblName exD2.data.mangle exI.mangle) ∧
    ((createClassDefaultInitializer exWorldD2).2.globals[1]?).map (fun gv => gv.init)
      = some (some (.struct [.nullValue .voidPtr, .func exImpl])) ∧
    ((createClassDefaultInitializer exWorldD2).2.globals[2]?).map (fun gv => gv.init)
      = some (some (.struct [.nullValue .voidPtr, .func exImplD])) ∧
    interfaceVtblName exD2.data.mangle exI.mangle = "_D2D211__interface1I6__vtblZ" := by
  decide

/-- C16, the code at the failing input: for `D2 : B2, I` whose base class `B2` implements
`I` too, the image of `D2` holds at the own-level slot of `I` global 2 (the table built
with `newinsts = true`, with `D2.f`), while the cache kept global 1 (built at the level
of `B2` with `newinsts = false`, with `B2.f`) under the key `I`, and the descriptor of
`I` built by `getClassInfoInterfaces` references global 1. -/
theorem descriptor_vtbl_differs_from_own_slot :
    (createClassDefaultInitializer exWorldD2).1
      = .ok [.global 0, .nullValue .voidPtr, .global 1, .global 2] ∧
    (classDefaultInits exWorldD2).2.2.trace
      = [.interfaceSlot exConfBase false 8, .interfaceSlot exConfOwn true 12] ∧
    (createClassDefaultInitializer exWorldD2).2.self.interfaceVtblMap = [(exI.ident, 1)] ∧
    (getClassInfoInterfaces exWorldD2Ready).1 = .ok (.slice 1 3) ∧
    ((getClassInfoInterfaces exWorldD2Ready).2.globals[3]?).map (fun gv => gv.init)
      = some (some (.array [{ classinfo := 4, vtblLen := 2, vtbl := 1, offset := 12 }])) ∧
    ((getClassInfoInterfaces exWorldD2Ready).2.globals[1]?).map (fun gv => gv.init)
      = some (some (.struct [.nullValue .voidPtr, .func exImpl])) ∧
    ((getClassInfoInterfaces exWorldD2Ready).2.globals[2]?).map (fun gv => gv.init)
      = some (some (.struct [.nullValue .voidPtr, .func exImplD])) := by
  decide

/-! ## The cache after the default initializer was built -/

theorem mapFind_append_of_some (m : List (Nat × LLGlobalVariable)) (k key : Nat)
    (g v : LLGlobalVariable) (hm : mapFind m key = some v) :
    mapFind (m ++ [(k, g)]) key = some v := by
  induction m with
  | nil => cases hm
  | cons p rest ih =>
    obtain ⟨k1, v1⟩ := p
    simp only [mapFind, List.cons_append] at hm ⊢
    split
    · rename_i hk
      rw [if_pos hk] at hm
      exact hm
    · rename_i hk
      rw [if_neg hk] at hm
      exact ih hm

theorem mapFind_append_self (m : List (Nat × LLGlobalVariable)) (k : Nat)
    (g : LLGlobalVariable) (hm : mapFind m k = none) :
    mapFind (m ++ [(k, g)]) k = some g := by
  induction m with
  | nil => simp [mapFind]
  | cons p rest ih =>
    obtain ⟨k1, v1⟩ := p
    simp only [mapFind, List.cons_append] at hm ⊢
    split at hm
    · cases hm
    · rename_i hk
      rw [if_neg hk]
      exact ih hm

/-- After `insert` the key is present, and every key present before keeps its global. -/
theorem mapInsert_spec (m : List (Nat × LLGlobalVariable)) (k : Nat) (g : LLGlobalVariable) :
    (∃ v, mapFind (mapInsert m k g) k = some v) ∧
    (∀ key v, mapFind m key = some v → mapFind (mapInsert m k g) key = some v) := by
  unfold mapInsert
  cases hk : mapFind m k with
  | some v0 => exact ⟨⟨v0, hk⟩, fun _ _ h => h⟩
  | none =>
    exact ⟨⟨g, mapFind_append_self m k g hk⟩,
      fun key v h => mapFind_append_of_some m k key g v h⟩

/-- What the cache of `this` holds after a completed `getInterfaceVtbl` whose search
missed: still nothing under the key of the class, a global under the key of the
interface, and every key that was present keeps its global. -/
theorem getInterfaceVtbl_cache (w : World) (cd : ClassDeclaration) (b : BaseClass)
    (n : Bool) (g : LLGlobalVariable)
    (hcd : w.self.aggrdecl.isClassDeclaration = some cd)
    (hmiss : mapFind w.self.interfaceVtblMap cd.data.ident = none)
    (hne : b.base.ident ≠ cd.data.ident)
    (h : (getInterfaceVtbl w b n).1 = .ok g) :
    mapFind (getInterfaceVtbl w b n).2.self.interfaceVtblMap cd.data.ident = none ∧
    (∃ v, mapFind (getInterfaceVtbl w b n).2.self.interfaceVtblMap b.base.ident = some v) ∧
    (∀ key v, mapFind w.self.interfaceVtblMap key = some v →
      mapFind (getInterfaceVtbl w b n).2.self.interfaceVtblMap key = some v) := by
  obtain ⟨fds, hfds, hall⟩ := getInterfaceVtbl_ok_inv w cd b n g hcd hmiss h
  rw [getInterfaceVtbl_build w cd b n fds hcd hmiss hfds hall]
  dsimp only
  exact ⟨mapFind_mapInsert_other _ _ _ _ hmiss hne, (mapInsert_spec _ _ _).1,
    (mapInsert_spec _ _ _).2⟩

/-- A completed interface loop left a global in the cache for each of its conformances. -/
theorem addInterfaceVtbls_cache (cd : ClassDeclaration) (n : Bool) (l : List BaseClass) :
    ∀ (w w1 : World) (a a1 : Inits),
      w.self.aggrdecl.isClassDeclaration = some cd →
      mapFind w.self.interfaceVtblMap cd.data.ident = none →
      (∀ b ∈ l, b.base.ident ≠ cd.data.ident) →
      addInterfaceVtbls n l w a = (.ok (), w1, a1) →
      mapFind w1.self.interfaceVtblMap cd.data.ident = none ∧
      (∀ b ∈ l, ∃ v, mapFind w1.self.interfaceVtblMap b.base.ident = some v) ∧
      (∀ key v, mapFind w.self.interfaceVtblMap key = some v →
        mapFind w1.self.interfaceVtblMap key = some v) := by
  induction l with
  | nil =>
    intro w w1 a a1 _ hmiss _ h
    simp only [addInterfaceVtbls, Prod.mk.injEq] at h
    obtain ⟨-, rfl, -⟩ := h
    exact ⟨hmiss, fun _ hb => (by cases hb), fun _ _ hk => hk⟩
  | cons b rest ih =>
    intro w w1 a a1 hcd hmiss hne h
    have hs := getInterfaceVtbl_sameTarget w b n
    have hc := getInterfaceVtbl_cache w cd b n
    unfold addInterfaceVtbls at h
    generalize getInterfaceVtbl w b n = r at h hs hc
    rcases r with ⟨e | gv, w2⟩
    · cases h
    · dsimp only at h hs hc
      obtain ⟨hm2, ⟨v, hv⟩, hkeep⟩ :=
        hc gv hcd hmiss (hne b (List.mem_cons_self _ _)) rfl
      obtain ⟨hm1, hall, hkeep1⟩ := ih w2 w1 _ a1 (by rw [hs.aggrdecl]; exact hcd) hm2
        (fun x hx => hne x (List.mem_cons_of_mem _ hx)) h
      refine ⟨hm1, ?_, fun key v hk => hkeep1 key v (hkeep key v hk)⟩
      intro x hx
      rcases List.mem_cons.1 hx with rfl | hx
      · exact ⟨v, hkeep1 _ _ hv⟩
      · exact hall x hx

theorem addLevelInits_cache (cd : ClassDeclaration) (d : ClassData) (n : Bool)
    (w w1 : World) (a a1 : Inits)
    (hcd : w.self.aggrdecl.isClassDeclaration = some cd)
    (hmiss : mapFind w.self.interfaceVtblMap cd.data.ident = none)
    (hne : ∀ b ∈ d.vtblInterfaces.getD [], b.base.ident ≠ cd.data.ident)
    (h : addLevelInits d n w a = (.ok (), w1, a1)) :
    mapFind w1.self.interfaceVtblMap cd.data.ident = none ∧
    (∀ b ∈ d.vtblInterfaces.getD [],
      ∃ v, mapFind w1.self.interfaceVtblMap b.base.ident = some v) ∧
    (∀ key v, mapFind w.self.interfaceVtblMap key = some v →
      mapFind w1.self.interfaceVtblMap key = some v) := by
  unfold addLevelInits at h
  dsimp only at h
  cases hif : d.vtblInterfaces with
  | none =>
    rw [hif] at h
    simp only [Prod.mk.injEq] at h
    obtain ⟨-, rfl, -⟩ := h
    exact ⟨hmiss, fun _ hb => (by simp at hb), fun _ _ hk => hk⟩
  | some ifaces =>
    rw [hif] at h hne
    dsimp only at h
    generalize hl : addInterfaceVtbls n ifaces w (addFields w.sizeBits d.fields a) = r at h
    rcases r with ⟨e | u, w2, a2⟩
    · cases h
    · simp only [Prod.mk.injEq] at h
      obtain ⟨-, rfl, -⟩ := h
      exact addInterfaceVtbls_cache cd n ifaces _ _ _ _ hcd hmiss hne hl

/-- A completed traversal left a global in the cache for every conformance of the chain. -/
theorem addBaseClassInits_cache (top : ClassDeclaration) (cd : ClassDeclaration) :
    ∀ (w w1 : World) (a a1 : Inits),
      w.self.aggrdecl.isClassDeclaration = some top →
      mapFind w.self.interfaceVtblMap top.data.ident = none →
      (∀ b ∈ cd.conformances, b.base.ident ≠ top.data.ident) →
      addBaseClassInits cd w a = (.ok (), w1, a1) →
      mapFind w1.self.interfaceVtblMap top.data.ident = none ∧
      (∀ b ∈ cd.conformances, ∃ v, mapFind w1.self.interfaceVtblMap b.base.ident = some v) ∧
      (∀ key v, mapFind w.self.interfaceVtblMap key = some v →
        mapFind w1.self.interfaceVtblMap key = some v) := by
  induction cd with
  | root d =>
    intro w w1 a a1 htop hmiss hne h
    unfold addBaseClassInits at h
    exact addLevelInits_cache top d _ w w1 a a1 htop hmiss hne h
  | derived d baseClass ih =>
    intro w w1 a a1 htop hmiss hne h
    unfold addBaseClassInits at h
    have hs := addBaseClassInits_sameTarget baseClass w a
    generalize hb : addBaseClassInits baseClass w a = r at h hs
    rcases r with ⟨e | u, w2, a2⟩
    · cases h
    · dsimp only at h hs
      obtain ⟨hm2, hall2, hkeep2⟩ := ih w w2 a a2 htop hmiss
        (fun b hb1 => hne b (by simp [ClassDeclaration.conformances, hb1])) hb
      obtain ⟨hm1, hall1, hkeep1⟩ := addLevelInits_cache top d _ w2 w1 a2 a1
        (by rw [hs.aggrdecl]; exact htop) hm2
        (fun b hb1 => hne b (by simp [ClassDeclaration.conformances, hb1])) h
      refine ⟨hm1, ?_, fun key v hk => hkeep1 key v (hkeep2 key v hk)⟩
      intro b hb1
      simp only [ClassDeclaration.conformances, List.mem_append] at hb1
      rcases hb1 with hb1 | hb1
      · obtain ⟨v, hv⟩ := hall2 b hb1
        exact ⟨v, hkeep1 _ _ hv⟩
      · exact hall1 b hb1

theorem getClassInfoSymbolOn_error (s s1 : IrStruct) (w w1 : World) (e : Failure)
    (h : getClassInfoSymbolOn s w = (.error e, s1, w1)) : e = .invalidClassInfoType := by
  unfold getClassInfoSymbolOn at h
  split at h
  · cases h
  · dsimp only at h
    split at h
    · cases h
    · simp only [Prod.mk.injEq, Except.error.injEq] at h
      exact h.1.symm

/-- When the cache of `this` holds a global for every conformance of the list, the loop
of `getClassInfoInterfaces` does not fail with "interface vtbl not found". -/
theorem interfaceEntries_found (l : List BaseClass) :
    ∀ (cs : List InterfaceEntry) (w : World),
      (∀ it ∈ l, ∃ vtb, mapFind w.self.interfaceVtblMap it.base.ident = some vtb) →
      (interfaceEntries l cs w).1 ≠ .error .interfaceVtblNotFound := by
  induction l with
  | nil => intro cs w _ h; cases h
  | cons it rest ih =>
    intro cs w hmap
    unfold interfaceEntries
    cases hs : w.irStructOf it.base.ident with
    | none => intro h; cases h
    | some irinter =>
      dsimp only
      cases hitc : irinter.irtypeClass with
      | none => intro h; cases h
      | some itc =>
        dsimp only
        generalize hg : getClassInfoSymbolOn irinter w = r
        rcases r with ⟨e | ci, irinter1, w2⟩
        · dsimp only
          have := getClassInfoSymbolOn_error _ _ _ _ _ hg
          subst this
          intro h; cases h
        · dsimp only
          obtain ⟨hfr, -, -, -⟩ := interfaceEntries_step w w2 _ irinter irinter1 ci hs hg
          obtain ⟨vtb, hvtb⟩ := hmap it (List.mem_cons_self _ _)
          rw [hfr.map, hvtb]
          dsimp only
          apply ih
          intro x hx
          rw [hfr.map]
          exact hmap x (List.mem_cons_of_mem _ hx)

/-- C17: when `createClassDefaultInitializer` has completed on the context of the class
`C` (a context whose cache held nothing under the key of `C` itself, for a class none
of whose conformances names `C` itself as the interface), the cache holds a global for
every interface `C` directly implements; and on every following state whose cache still
holds those keys, `getClassInfoInterfaces` does not fail with "interface vtbl not
found". -/
theorem interface_vtbl_found_after_default_initializer (w : World) (cd : ClassDeclaration)
    (image : List LLConstant)
    (hcd : w.self.aggrdecl.isClassDeclaration = some cd)
    (hmiss : mapFind w.self.interfaceVtblMap cd.data.ident = none)
    (hne : ∀ b ∈ cd.conformances, b.base.ident ≠ cd.data.ident)
    (hok : (createClassDefaultInitializer w).1 = .ok image) :
    (∀ it ∈ cd.ownConformances, ∃ vtb,
      mapFind (createClassDefaultInitializer w).2.self.interfaceVtblMap it.base.ident
        = some vtb) ∧
    (∀ w2 : World, w2.self.aggrdecl = w.self.aggrdecl →
      (∀ key v, mapFind (createClassDefaultInitializer w).2.self.interfaceVtblMap key = some v →
        ∃ v2, mapFind w2.self.interfaceVtblMap key = some v2) →
      (getClassInfoInterfaces w2).1 ≠ .error .interfaceVtblNotFound) := by
  have hown : ∀ it ∈ cd.ownConformances, ∃ vtb,
      mapFind (createClassDefaultInitializer w).2.self.interfaceVtblMap it.base.ident
        = some vtb := by
    have hs := getVtblSymbol_sameTarget w
    have hvm : (getVtblSymbol w).2.self.interfaceVtblMap = w.self.interfaceVtblMap := by
      unfold getVtblSymbol
      split
      · rfl
      · split <;> rfl
    unfold createClassDefaultInitializer classDefaultInits at hok ⊢
    rw [hcd] at hok ⊢
    dsimp only at hok ⊢
    generalize getVtblSymbol w = r at hok hs hvm
    rcases r with ⟨e | vtbl, w1⟩
    · cases hok
    · dsimp only at hok hs hvm ⊢
      generalize hrun : addBaseClassInits cd w1
        ⟨[.global vtbl, .nullValue .voidPtr], (w.PTRSIZE * 2) % 2 ^ w.sizeBits, 2, []⟩ = x at hok
      rcases x with ⟨e | u, w2, a2⟩
      · cases hok
      · dsimp only at hok ⊢
        obtain ⟨-, hall, -⟩ := addBaseClassInits_cache cd cd w1 w2 _ a2
          (by rw [hs.aggrdecl]; exact hcd) (by rw [hvm]; exact hmiss) hne hrun
        have hfin : ∀ it ∈ cd.ownConformances, ∃ vtb,
            mapFind w2.self.interfaceVtblMap it.base.ident = some vtb := by
          intro it hit
          apply hall
          cases cd with
          | root d => exact hit
          | derived d baseClass =>
            simp only [ClassDeclaration.conformances, List.mem_append]
            exact Or.inr hit
        split <;> exact hfin
  refine ⟨hown, ?_⟩
  intro w2 hag hext
  have hcd2 : w2.self.aggrdecl.isClassDeclaration = some cd := by rw [hag]; exact hcd
  unfold getClassInfoInterfaces
  rw [hcd2]
  dsimp only
  cases hif : cd.data.vtblInterfaces with
  | none => intro h; cases h
  | some ifaces =>
    cases ifaces with
    | nil => intro h; cases h
    | cons i rest =>
      dsimp only
      cases hty : w2.self.irtypeClass with
      | none => intro h; cases h
      | some tc =>
        dsimp only
        have hfound := interfaceEntries_found (i :: rest) [] w2 (by
          intro it hit
          obtain ⟨vtb, hvtb⟩ := hown it (by
            simp only [ClassDeclaration.ownConformances, hif, Option.getD_some]
            exact hit)
          exact hext _ _ hvtb)
        generalize interfaceEntries (i :: rest) [] w2 = r at hfound
        rcases r with ⟨e | es, w3⟩
        · dsimp only at hfound ⊢
          intro h
          apply hfound
          cases h
          rfl
        · dsimp only
          split <;> (intro h; cases h)

/-- C17, at the class `D2 : B2, I` after its default initializer was built and its array
declared: the cache holds a global under the key `I` and `getClassInfoInterfaces`
completes. -/
theorem interface_vtbl_found_after_default_initializer_witness :
    exWorldD2.self.aggrdecl.isClassDeclaration = some exD2 ∧
    mapFind exWorldD2.self.interfaceVtblMap exD2.data.ident = none ∧
    (∀ b ∈ exD2.conformances, b.base.ident ≠ exD2.data.ident) ∧
    (createClassDefaultInitializer exWorldD2).1
      = .ok [.global 0, .nullValue .voidPtr, .global 1, .global 2] ∧
    (getClassInfoInterfaces exWorldD2Ready).1 = .ok (.slice 1 3) ∧
    ((∀ it ∈ exD2.ownConformances, ∃ vtb,
      mapFind (createClassDefaultInitializer exWorldD2).2.self.interfaceVtblMap it.base.ident
        = some vtb) ∧
    (∀ w2 : World, w2.self.aggrdecl = exWorldD2.self.aggrdecl →
      (∀ key v,
        mapFind (createClassDefaultInitializer exWorldD2).2.self.interfaceVtblMap key = some v →
        ∃ v2, mapFind w2.self.interfaceVtblMap key = some v2) →
      (getClassInfoInterfaces w2).1 ≠ .error .interfaceVtblNotFound)) :=
  ⟨by decide, by decide, by decide, by decide, by decide,
    interface_vtbl_found_after_default_initializer exWorldD2 exD2 _
      (by decide) (by decide) (by decide)
      (by decide : (createClassDefaultInitializer exWorldD2).1
        = .ok [.global 0, .nullValue .voidPtr, .global 1, .global 2])⟩

/-! ## Alignment of the cursor -/

/-- Masking a word below `2 ^ bits` with `~(2 ^ k - 1)` clears its `k` low bits. -/
theorem land_not_low_mask (x bits k : Nat) (hx : x < 2 ^ bits) :
    x &&& (2 ^ bits - 1 - (2 ^ k - 1)) = x / 2 ^ k * 2 ^ k := by
  apply Nat.eq_of_testBit_eq
  intro i
  have hmask : 2 ^ bits - 1 - (2 ^ k - 1) = 2 ^ bits - ((2 ^ k - 1) + 1) := by omega
  have hpos : 0 < 2 ^ k := Nat.two_pow_pos k
  rw [Nat.testBit_and, hmask]
  by_cases hkb : k ≤ bits
  · have hlt : 2 ^ k - 1 < 2 ^ bits := by
      have := Nat.pow_le_pow_right (by decide : 0 < 2) hkb
      omega
    rw [Nat.testBit_two_pow_sub_succ hlt, Nat.testBit_two_pow_sub_one,
      Nat.mul_comm, Nat.testBit_mul_pow_two, ← Nat.shiftRight_eq_div_pow,
      Nat.testBit_shiftRight]
    by_cases hik : k ≤ i
    · have hki : k + (i - k) = i := by omega
      rw [hki]
      by_cases hib : i < bits
      · have : ¬ i < k := by omega
        simp [hik, hib, this]
      · have hxi : x.testBit i = false := by
          apply Nat.testBit_lt_two_pow
          exact Nat.lt_of_lt_of_le hx (Nat.pow_le_pow_right (by decide) (by omega))
        simp [hxi]
    · have : i < k := by omega
      simp [hik, this]
  · have hle : 2 ^ bits ≤ 2 ^ k := Nat.pow_le_pow_right (by decide) (by omega)
    have hz : 2 ^ bits - ((2 ^ k - 1) + 1) = 0 := by omega
    have hd : x / 2 ^ k = 0 := Nat.div_eq_of_lt (Nat.lt_of_lt_of_le hx hle)
    rw [hz, hd]
    simp

/-- For a power of two representable in the word and a sum that does not overflow, the
expression of line 204 rounds the cursor up to a multiple of the alignment. -/
theorem alignedOffset_pow_two (bits k offset : Nat) (hk : k < bits)
    (hno : offset + 2 ^ k - 1 < 2 ^ bits) :
    alignedOffset bits offset (2 ^ k) = (offset + 2 ^ k - 1) / 2 ^ k * 2 ^ k := by
  have hpos : 0 < 2 ^ k := Nat.two_pow_pos k
  have hkb : 2 ^ k < 2 ^ bits := Nat.pow_lt_pow_right (by decide) hk
  have h1 : (offset + 2 ^ k + (2 ^ bits - 1)) % 2 ^ bits = offset + 2 ^ k - 1 := by
    have : offset + 2 ^ k + (2 ^ bits - 1) = (offset + 2 ^ k - 1) + 2 ^ bits := by omega
    rw [this, Nat.add_mod_right, Nat.mod_eq_of_lt hno]
  have h2 : (2 ^ k + (2 ^ bits - 1)) % 2 ^ bits = 2 ^ k - 1 := by
    have : 2 ^ k + (2 ^ bits - 1) = (2 ^ k - 1) + 2 ^ bits := by omega
    rw [this, Nat.add_mod_right, Nat.mod_eq_of_lt (by omega)]
  unfold alignedOffset
  rw [h1, h2]
  exact land_not_low_mask _ bits k hno

/-- The least multiple of `a > 0` that is at least `offset`. -/
theorem round_up_least (a offset : Nat) (ha : 0 < a) :
    a ∣ (offset + a - 1) / a * a ∧ offset ≤ (offset + a - 1) / a * a ∧
    ∀ m, a ∣ m → offset ≤ m → (offset + a - 1) / a * a ≤ m := by
  refine ⟨Nat.dvd_mul_left _ _, ?_, ?_⟩
  · have h1 := Nat.div_add_mod (offset + a - 1) a
    have h2 := Nat.mod_lt (offset + a - 1) ha
    rw [Nat.mul_comm] at h1
    omega
  · rintro m ⟨c, rfl⟩ hle
    have hq : (offset + a - 1) / a ≤ c := by
      apply Nat.le_of_lt_succ
      rw [Nat.div_lt_iff_lt_mul ha, Nat.succ_mul, Nat.mul_comm]
      omega
    calc (offset + a - 1) / a * a ≤ c * a := Nat.mul_le_mul_right _ hq
      _ = a * c := Nat.mul_comm _ _

/-- C18: for every cursor value `offset` and every alignment `2 ^ k` representable in
the word, when `offset + 2 ^ k - 1` does not overflow the word, the aligned offset
`(offset + a - 1) & ~(a - 1)` computed in `addBaseClassInits` is the least multiple of
the alignment that is not less than `offset`; and a field placed at that cursor gets,
right before its value, explicit zero padding of exactly `vd->offset - alignedoffset`
bytes when `alignedoffset < vd->offset`, and no padding otherwise. -/
theorem alignedOffset_least_multiple_and_padding (bits k offset : Nat) (hk : k < bits)
    (hno : offset + 2 ^ k - 1 < 2 ^ bits) :
    2 ^ k ∣ alignedOffset bits offset (2 ^ k) ∧
    offset ≤ alignedOffset bits offset (2 ^ k) ∧
    (∀ m, 2 ^ k ∣ m → offset ≤ m → alignedOffset bits offset (2 ^ k) ≤ m) ∧
    (∀ (vd : VarDeclaration) (a : Inits), a.offset = offset → vd.alignsize = 2 ^ k →
      offset ≤ vd.offset →
      (addFields bits [vd] a).constants
        = a.constants
          ++ (if alignedOffset bits offset (2 ^ k) < vd.offset
              then [LLConstant.zeros (vd.offset - alignedOffset bits offset (2 ^ k))] else [])
          ++ [.fieldInit vd]) := by
  have hr := round_up_least (2 ^ k) offset (Nat.two_pow_pos k)
  rw [← alignedOffset_pow_two bits k offset hk hno] at hr
  refine ⟨hr.1, hr.2.1, hr.2.2, ?_⟩
  intro vd a ha hal hle
  have hnot : ¬ vd.offset < offset := by omega
  subst ha
  simp only [addFields, if_neg hnot, hal, add_zeros]
  by_cases hpad : alignedOffset bits a.offset (2 ^ k) < vd.offset
  · simp [hpad]
  · simp [hpad]

/-- C18, at the cursor 9 and the alignment 4 in a 32-bit word: the aligned offset is 12,
and a field at offset 16 gets 4 bytes of padding before its value. -/
theorem alignedOffset_least_multiple_and_padding_witness :
    (2 : Nat) < 32 ∧ 9 + 2 ^ 2 - 1 < 2 ^ 32 ∧
    alignedOffset 32 9 (2 ^ 2) = 12 ∧
    (addFields 32 [exFieldAt16] exInitsAt9).constants
      = exInitsAt9.constants ++ [.zeros 4, .fieldInit exFieldAt16] ∧
    (2 ^ 2 ∣ alignedOffset 32 9 (2 ^ 2) ∧
    9 ≤ alignedOffset 32 9 (2 ^ 2) ∧
    (∀ m, 2 ^ 2 ∣ m → 9 ≤ m → alignedOffset 32 9 (2 ^ 2) ≤ m) ∧
    (∀ (vd : VarDeclaration) (a : Inits), a.offset = 9 → vd.alignsize = 2 ^ 2 →
      9 ≤ vd.offset →
      (addFields 32 [vd] a).constants
        = a.constants
          ++ (if alignedOffset 32 9 (2 ^ 2) < vd.offset
              then [LLConstant.zeros (vd.offset - alignedOffset 32 9 (2 ^ 2))] else [])
          ++ [.fieldInit vd])) :=
  ⟨by decide, by decide, by decide, by decide,
    alignedOffset_least_multiple_and_padding 32 2 9 (by decide) (by decide)⟩

end IrClass
